import Mathlib

/-!
Verification of the statement-level analysis and inclusion engine of the
bundler (the `Statement` class): lexical-scope construction, read/write
classification, dependency expansion (`expand`) and the identifier
rewrite pass (`replaceIdentifiers`), shallowly embedded from
`src/Statement.js`. Collaborators that are not part of the given sources
(`ast/Scope.js`, `ast/walk.js`, `utils/getLocation.js`, the `Module`
object and the text-editing buffer) are modelled from the specification
and marked as such in their doc comments.
-/

set_option maxHeartbeats 1000000

namespace Rollup

/-! ### Plain-object helpers

`blank()` objects are used as string-keyed maps with insertion order;
we embed them as association lists. -/

/-- Lookup in a JS-object-as-map. -/
def lookupKey {α : Type} : List (String × α) → String → Option α
  | [], _ => none
  | (k2, v) :: rest, k => if k2 == k then some v else lookupKey rest k

/-- `obj[k] = v`: overwrite in place when the key exists, else append. -/
def setKey {α : Type} : List (String × α) → String → α → List (String × α)
  | [], k, v => [(k, v)]
  | (k2, v2) :: rest, k, v =>
    if k2 == k then (k2, v) :: rest else (k2, v2) :: setKey rest k v

/-- `obj[name] = true` on an object used as a set of names: record the
name once, keeping first-insertion order (the order `Object.keys` later
reports). -/
def addKey (l : List String) (k : String) : List String :=
  if l.contains k then l else l ++ [k]

abbrev SMap := List (String × String)

/-! ### Syntax nodes

The estree node kinds `Statement.js` manipulates. `stop` stands for the
byte offset the parser calls `end` (a Lean keyword). The `skip` flag on
`Identifier` embeds the transient `_skip` annotation that
`replaceIdentifiers` writes onto declarator binding identifiers — the
only node kind the code ever marks. `id` fields that acorn can leave
`null` are `Option`s. -/

inductive Node where
  | Identifier (name : String) (start stop : Nat) (skip : Bool)
  | Literal (start stop : Nat)
  | MemberExpression (obj prop : Node) (computed : Bool) (start stop : Nat)
  | ObjectExpression (properties : List Node) (start stop : Nat)
  | Property (key value : Node) (start stop : Nat)
  | AssignmentExpression (left right : Node) (start stop : Nat)
  | UpdateExpression (argument : Node) (start stop : Nat)
  | CallExpression (callee : Node) (args : List Node) (start stop : Nat)
  | ExpressionStatement (expression : Node) (start stop : Nat)
  | ReturnStatement (argument : Option Node) (start stop : Nat)
  | FunctionDeclaration (id : Option Node) (params : List Node) (body : Node) (start stop : Nat)
  | FunctionExpression (id : Option Node) (params : List Node) (body : Node) (start stop : Nat)
  | ArrowFunctionExpression (params : List Node) (body : Node) (start stop : Nat)
  | BlockStatement (body : List Node) (start stop : Nat)
  | CatchClause (param : Node) (body : Node) (start stop : Nat)
  | TryStatement (block : Node) (handler : Option Node) (start stop : Nat)
  | VariableDeclaration (kind : String) (declarations : List Node) (start stop : Nat)
  | VariableDeclarator (id : Node) (init : Option Node) (start stop : Nat)
  | ClassDeclaration (id : Option Node) (start stop : Nat)
  | ImportDeclaration (start stop : Nat)
  | ExportNamedDeclaration (declaration : Option Node) (start stop : Nat)

/-- `node.type` as the walker and the checks compare it. -/
def nodeType : Node → String
  | .Identifier .. => "Identifier"
  | .Literal .. => "Literal"
  | .MemberExpression .. => "MemberExpression"
  | .ObjectExpression .. => "ObjectExpression"
  | .Property .. => "Property"
  | .AssignmentExpression .. => "AssignmentExpression"
  | .UpdateExpression .. => "UpdateExpression"
  | .CallExpression .. => "CallExpression"
  | .ExpressionStatement .. => "ExpressionStatement"
  | .ReturnStatement .. => "ReturnStatement"
  | .FunctionDeclaration .. => "FunctionDeclaration"
  | .FunctionExpression .. => "FunctionExpression"
  | .ArrowFunctionExpression .. => "ArrowFunctionExpression"
  | .BlockStatement .. => "BlockStatement"
  | .CatchClause .. => "CatchClause"
  | .TryStatement .. => "TryStatement"
  | .VariableDeclaration .. => "VariableDeclaration"
  | .VariableDeclarator .. => "VariableDeclarator"
  | .ClassDeclaration .. => "ClassDeclaration"
  | .ImportDeclaration .. => "ImportDeclaration"
  | .ExportNamedDeclaration .. => "ExportNamedDeclaration"

/-- `node.start`. -/
def Node.start : Node → Nat
  | .Identifier _ s _ _ => s
  | .Literal s _ => s
  | .MemberExpression _ _ _ s _ => s
  | .ObjectExpression _ s _ => s
  | .Property _ _ s _ => s
  | .AssignmentExpression _ _ s _ => s
  | .UpdateExpression _ s _ => s
  | .CallExpression _ _ s _ => s
  | .ExpressionStatement _ s _ => s
  | .ReturnStatement _ s _ => s
  | .FunctionDeclaration _ _ _ s _ => s
  | .FunctionExpression _ _ _ s _ => s
  | .ArrowFunctionExpression _ _ s _ => s
  | .BlockStatement _ s _ => s
  | .CatchClause _ _ s _ => s
  | .TryStatement _ _ s _ => s
  | .VariableDeclaration _ _ s _ => s
  | .VariableDeclarator _ _ s _ => s
  | .ClassDeclaration _ s _ => s
  | .ImportDeclaration s _ => s
  | .ExportNamedDeclaration _ s _ => s

/-- `node.end`. -/
def Node.stop : Node → Nat
  | .Identifier _ _ e _ => e
  | .Literal _ e => e
  | .MemberExpression _ _ _ _ e => e
  | .ObjectExpression _ _ e => e
  | .Property _ _ _ e => e
  | .AssignmentExpression _ _ _ e => e
  | .UpdateExpression _ _ e => e
  | .CallExpression _ _ _ e => e
  | .ExpressionStatement _ _ e => e
  | .ReturnStatement _ _ e => e
  | .FunctionDeclaration _ _ _ _ e => e
  | .FunctionExpression _ _ _ _ e => e
  | .ArrowFunctionExpression _ _ _ e => e
  | .BlockStatement _ _ e => e
  | .CatchClause _ _ _ e => e
  | .TryStatement _ _ _ e => e
  | .VariableDeclaration _ _ _ e => e
  | .VariableDeclarator _ _ _ e => e
  | .ClassDeclaration _ _ e => e
  | .ImportDeclaration _ e => e
  | .ExportNamedDeclaration _ _ e => e

/-- `node.name` — present only on identifier nodes. -/
def getIdName : Node → Option String
  | .Identifier name _ _ _ => some name
  | _ => none

/-- `node.name` as JS evaluates it for an object key: a missing `name`
property reads as `undefined`, which stringifies to "undefined" when used
as a key. -/
def idNameOrUndef (n : Node) : String := (getIdName n).getD ("undefined")

/-- The node kinds whose `enter` opens a new scope in the first walk of
`analyse` (function forms, blocks, catch handlers) and which therefore
carry a `_scope` tag afterwards. -/
def scopeOpening : Node → Bool
  | .FunctionDeclaration .. => true
  | .FunctionExpression .. => true
  | .ArrowFunctionExpression .. => true
  | .BlockStatement .. => true
  | .CatchClause .. => true
  | _ => false

/-- `this.isImportDeclaration`. -/
def isImportDeclaration (n : Node) : Bool := nodeType n == "ImportDeclaration"

/-- `this.isExportDeclaration` (`/^Export/.test(node.type)`). -/
def isExportDeclaration (n : Node) : Bool := (nodeType n).startsWith ("Export")

/-! ### Scopes

Modelled from the spec: `ast/Scope.js` is not among the given sources.
A scope records a parent link, whether it is a block scope, its distance
from the statement root (depth 0) and the declared names in insertion
order. The scope tree is flattened into a table indexed by allocation
order; the `_scope` tag a node would carry is recoverable as the number
of scope-opening nodes entered before it, because both walks of
`analyse` visit nodes in the same order. -/

structure ScopeData where
  parent : Option Nat
  isBlockScope : Bool
  declNames : List String
  depth : Nat
deriving Repr, DecidableEq

abbrev ScopeTable := List ScopeData

/-- The statement's own root scope (`new Scope()`): no parent, not a
block scope, depth 0. -/
def rootScope : ScopeData := ⟨none, false, [], 0⟩

def scopeAt (tbl : ScopeTable) (sid : Nat) : ScopeData := tbl.getD sid rootScope

/-- `scope.declarations[name]` as a presence test. -/
def declaredIn (tbl : ScopeTable) (sid : Nat) (name : String) : Bool :=
  (scopeAt tbl sid).declNames.contains name

/-- Modelled from the spec: `Scope.addDeclaration` — block-scoped
declarations (`let`/`const`) register at the nearest block scope;
function-scoped declarations (var-like, function and class declarations)
walk up to the nearest function-or-root scope. `fuel` bounds the parent
walk (the table built by `analyse` is acyclic, parents precede children). -/
def addDeclaration (fuel : Nat) (tbl : ScopeTable) (sid : Nat) (name : String)
    (isBlockDeclaration : Bool) : ScopeTable :=
  match fuel with
  | 0 => tbl
  | fuel + 1 =>
    let sc := scopeAt tbl sid
    if !isBlockDeclaration && sc.isBlockScope then
      match sc.parent with
      | some p => addDeclaration fuel tbl p name isBlockDeclaration
      | none => tbl
    else
      tbl.set sid { sc with declNames := addKey sc.declNames name }

/-- Modelled from the spec: `Scope.findDefiningScope` — the nearest scope
(walking parents outward) whose declarations contain `name`. -/
def findDefiningScope (fuel : Nat) (tbl : ScopeTable) (sid : Nat) (name : String) : Option Nat :=
  match fuel with
  | 0 => none
  | fuel + 1 =>
    if declaredIn tbl sid name then some sid
    else
      match (scopeAt tbl sid).parent with
      | some p => findDefiningScope fuel tbl p name
      | none => none

/-- The parent walks terminate within `tbl.length + 1` steps. -/
def findScope (tbl : ScopeTable) (sid : Nat) (name : String) : Option Nat :=
  findDefiningScope (tbl.length + 1) tbl sid name

/-- Modelled from the spec: `Scope.contains` — whether this scope or an
ancestor declares `name` (used for the local-shadow test before
the import-reassignment restriction). -/
def scopeContains (tbl : ScopeTable) (sid : Nat) (name : String) : Bool :=
  (findScope tbl sid name).isSome

/-! ### Error reporting -/

/-- The one error `Statement.js` raises (`Illegal reassignment to import`,
carrying `err.file` and `err.loc`), plus `missingField`, standing for the
JS `TypeError` that dereferencing an absent `id` / absent first declarator
would raise (claim C10). -/
inductive AnalyseErr where
  | illegalReassignment (name : String) (file : String) (line col : Nat)
  | missingField
deriving Repr, DecidableEq

/-- The illegal-reassignment error as `checkForWrites` raises it (the
only error that can arise during the classification walk): the offending
name, `err.file` and `err.loc`. -/
structure ReassignErr where
  name : String
  file : String
  line : Nat
  col : Nat
deriving Repr, DecidableEq

/-- Modelled from the spec: `utils/getLocation.js` is not among the given
sources; the spec says the error carries a computed human-readable
line/column pair for a character offset of the module source. Line is
1-based, column 0-based. -/
def getLocationFrom : List Char → Nat → Nat → Nat → Nat × Nat
  | _, 0, line, col => (line, col)
  | [], _, line, col => (line, col)
  | c :: rest, n + 1, line, col =>
    if c == '\n' then getLocationFrom rest n (line + 1) 0
    else getLocationFrom rest n line (col + 1)

def getLocation (source : String) (charIndex : Nat) : Nat × Nat :=
  getLocationFrom source.data charIndex 1 0

/-- Modelled from the spec: the slice of the `Module` collaborator that
`Statement.js` reads during analysis — `imports` maps a local name to
its import specifier (`name = "*"` marks a namespace import), plus the module
path and full source text used for error locations. -/
structure ImportSpecifier where
  name : String
deriving Repr, DecidableEq

structure ModuleEnv where
  imports : List (String × ImportSpecifier)
  path : String
  source : String

/-! ### analyse — first walk (scope construction) -/

structure P1State where
  tbl : ScopeTable
  cur : Nat
  smLocs : List Nat
deriving Repr, DecidableEq

/-- `magicString.addSourcemapLocation(node.start)`, done on entering every
node of the first walk. -/
def smLoc (st : P1State) (n : Node) : P1State :=
  { st with smLocs := st.smLocs ++ [n.start] }

/-- Allocate a child scope (`new Scope({ parent, params, block })`); params
register their names in the new scope. Returns the new scope's id. -/
def allocScope (tbl : ScopeTable) (parent : Nat) (paramNames : List String)
    (block : Bool) : ScopeTable × Nat :=
  (tbl ++ [⟨some parent, block, paramNames.foldl addKey [], (scopeAt tbl parent).depth + 1⟩],
   tbl.length)

/-- `declarator.id.name` where the element of `node.declarations` must be
a declarator for `.id` to be present; a non-declarator would make the JS
dereference throw. -/
def declaratorName : Node → Except AnalyseErr String
  | .VariableDeclarator did _ _ _ => .ok (idNameOrUndef did)
  | _ => .error .missingField

/-- The `scope.addDeclaration(declarator.id.name, node)` loop at lines
86-88; `isBlockDeclaration` holds for `let`/`const` declarations. -/
def p1VarDecls (kind : String) (tbl : ScopeTable) (cur : Nat) :
    List Node → Except AnalyseErr ScopeTable
  | [] => .ok tbl
  | d :: rest => do
    let name ← declaratorName d
    let tbl := addDeclaration (tbl.length + 1) tbl cur name
      (kind == "let" || kind == "const")
    p1VarDecls kind tbl cur rest

mutual

/-- First walk of `analyse` (lines 40-106): build the scope tree. A
scope-opening node allocates the next scope id; the current scope is
restored on leave. -/
def p1 (st : P1State) (n : Node) : Except AnalyseErr P1State :=
  match n with
  | .FunctionDeclaration id params body _ _ => do
    let st := smLoc st n
    -- scope.addDeclaration( node.id.name, node ) — throws when id is null
    match id with
    | none => .error .missingField
    | some idNode =>
      let tbl := addDeclaration (st.tbl.length + 1) st.tbl st.cur (idNameOrUndef idNode) false
      let (tbl, newId) := allocScope tbl st.cur (params.map idNameOrUndef) false
      let st2 ← p1Opt { st with tbl := tbl, cur := newId } id
      let st3 ← p1List st2 params
      let st4 ← p1 st3 body
      .ok { st4 with cur := st.cur }
  | .FunctionExpression id params body _ _ => do
    let st := smLoc st n
    let (tbl, newId) := allocScope st.tbl st.cur (params.map idNameOrUndef) false
    -- named function expressions: the name is part of the function's own scope
    let tbl :=
      match id with
      | some idNode => addDeclaration (tbl.length + 1) tbl newId (idNameOrUndef idNode) false
      | none => tbl
    let st2 ← p1Opt { st with tbl := tbl, cur := newId } id
    let st3 ← p1List st2 params
    let st4 ← p1 st3 body
    .ok { st4 with cur := st.cur }
  | .ArrowFunctionExpression params body _ _ => do
    let st := smLoc st n
    let (tbl, newId) := allocScope st.tbl st.cur (params.map idNameOrUndef) false
    let st2 ← p1List { st with tbl := tbl, cur := newId } params
    let st3 ← p1 st2 body
    .ok { st3 with cur := st.cur }
  | .BlockStatement body _ _ => do
    let st := smLoc st n
    let (tbl, newId) := allocScope st.tbl st.cur [] true
    let st2 ← p1List { st with tbl := tbl, cur := newId } body
    .ok { st2 with cur := st.cur }
  | .CatchClause param body _ _ => do
    let st := smLoc st n
    let (tbl, newId) := allocScope st.tbl st.cur [idNameOrUndef param] true
    let st2 ← p1 { st with tbl := tbl, cur := newId } param
    let st3 ← p1 st2 body
    .ok { st3 with cur := st.cur }
  | .VariableDeclaration kind decls _ _ => do
    let st := smLoc st n
    let tbl ← p1VarDecls kind st.tbl st.cur decls
    p1List { st with tbl := tbl } decls
  | .ClassDeclaration id _ _ => do
    let st := smLoc st n
    match id with
    | none => .error .missingField
    | some idNode =>
      let tbl := addDeclaration (st.tbl.length + 1) st.tbl st.cur (idNameOrUndef idNode) false
      p1Opt { st with tbl := tbl } id
  | .Identifier .. => .ok (smLoc st n)
  | .Literal .. => .ok (smLoc st n)
  | .MemberExpression o p _ _ _ => do
    let st2 ← p1 (smLoc st n) o
    p1 st2 p
  | .ObjectExpression props _ _ => p1List (smLoc st n) props
  | .Property k v _ _ => do
    let st2 ← p1 (smLoc st n) k
    p1 st2 v
  | .AssignmentExpression l r _ _ => do
    let st2 ← p1 (smLoc st n) l
    p1 st2 r
  | .UpdateExpression a _ _ => p1 (smLoc st n) a
  | .CallExpression c args _ _ => do
    let st2 ← p1 (smLoc st n) c
    p1List st2 args
  | .ExpressionStatement e _ _ => p1 (smLoc st n) e
  | .ReturnStatement a _ _ => p1Opt (smLoc st n) a
  | .TryStatement blk handler _ _ => do
    let st2 ← p1 (smLoc st n) blk
    p1Opt st2 handler
  | .VariableDeclarator did dinit _ _ => do
    let st2 ← p1 (smLoc st n) did
    p1Opt st2 dinit
  | .ImportDeclaration .. => .ok (smLoc st n)
  | .ExportNamedDeclaration d _ _ => p1Opt (smLoc st n) d

def p1List (st : P1State) (ns : List Node) : Except AnalyseErr P1State :=
  match ns with
  | [] => .ok st
  | n :: rest => do
    let st2 ← p1 st n
    p1List st2 rest

def p1Opt (st : P1State) (n : Option Node) : Except AnalyseErr P1State :=
  match n with
  | none => .ok st
  | some n => p1 st n

end

/-! ### analyse — second walk (read/write classification) -/

/-- What `checkForReads` / the identifier-rewrite rule see of `parent`:
its `type`, its `computed` flag when it is a member expression, and
whether the visited node is `parent.object` / `parent.value`. The walker
passes `parent = null` for the root node, embedded as an empty type. -/
structure PCtx where
  ptype : String
  computed : Bool
  isObject : Bool
  isValue : Bool
deriving Repr, DecidableEq

def rootCtx : PCtx := ⟨"", false, false, false⟩

def plainCtx (t : String) : PCtx := ⟨t, false, false, false⟩

/-- The three name sets of a statement, as they stand during the second
walk (`this.defines` / `this.modifies` / `this.dependsOn`). -/
structure P2State where
  defines : List String
  modifies : List String
  dependsOn : List String
deriving Repr, DecidableEq

/-- `Statement.checkForReads` (lines 127-145). Note that the member test
does not consult `parent.computed`, and that `this.defines` is still the
empty object while this runs (it is populated only after the second walk). -/
def checkForReads (tbl : ScopeTable) (cur : Nat) (st : P2State) (n : Node)
    (parent : PCtx) : P2State :=
  match n with
  | .Identifier name _ _ _ =>
    -- disregard the `bar` in `foo.bar` — these appear as Identifier nodes
    if parent.ptype == "MemberExpression" && !parent.isObject then st
    -- disregard the `bar` in { bar: foo }
    else if parent.ptype == "Property" && !parent.isValue then st
    else
      let noDeepScope :=
        match findScope tbl cur name with
        | none => true
        | some sid => (scopeAt tbl sid).depth == 0
      if noDeepScope && !(st.defines.contains name) then
        { st with dependsOn := addKey st.dependsOn name }
      else st
  | _ => st

/-- The member-chain unwrap at the top of `addNode` (lines 151-154):
root node and unwrap depth. -/
def unwrapTarget : Node → Node × Nat
  | .MemberExpression o _ _ _ _ =>
    let r := unwrapTarget o
    (r.1, r.2 + 1)
  | n => (n, 0)

/-- `addNode` inside `Statement.checkForWrites` (lines 148-179).
The import table is keyed by `node.name`; when the unwrapped root has no
`name` the lookup cannot match a real import, so it is skipped. -/
def addNode (env : ModuleEnv) (tbl : ScopeTable) (cur : Nat) (st : P2State)
    (n : Node) (disallowImportReassignments : Bool) : Except ReassignErr P2State :=
  let u := unwrapTarget n
  let root := u.1
  let depth := u.2
  let check : Except ReassignErr Unit :=
    if disallowImportReassignments then
      match getIdName root with
      | some nm =>
        match lookupKey env.imports nm with
        | some importSpecifier =>
          if scopeContains tbl cur nm then .ok ()
          else
            let minDepth := if importSpecifier.name == "*" then 2 else 1
            if depth < minDepth then
              let loc := getLocation env.source root.start
              .error ⟨nm, env.path, loc.1, loc.2⟩
            else .ok ()
        | none => .ok ()
      | none => .ok ()
    else .ok ()
  match check with
  | .error e => .error e
  | .ok _ =>
    match getIdName root with
    | some nm => .ok { st with modifies := addKey st.modifies nm }
    | none => .ok st

def addNodeArgs (env : ModuleEnv) (tbl : ScopeTable) (cur : Nat) (st : P2State) :
    List Node → Except ReassignErr P2State
  | [] => .ok st
  | a :: rest => do
    let st2 ← addNode env tbl cur st a false
    addNodeArgs env tbl cur st2 rest

/-- `Statement.checkForWrites` (lines 147-192): assignment left-hand
sides and update operands with import reassignment disallowed, every
call argument with it allowed. -/
def checkForWrites (env : ModuleEnv) (tbl : ScopeTable) (cur : Nat) (st : P2State)
    (n : Node) : Except ReassignErr P2State :=
  match n with
  | .AssignmentExpression left _ _ _ => addNode env tbl cur st left true
  | .UpdateExpression argument _ _ => addNode env tbl cur st argument true
  | .CallExpression _ args _ _ => addNodeArgs env tbl cur st args
  | _ => .ok st

/-- Walk state of the second walk: current scope id, the next `_scope`
tag to be re-derived (tags were assigned in walk order by the first
walk), and the name sets. -/
structure P2Walk where
  cur : Nat
  nextId : Nat
  st : P2State
deriving Repr, DecidableEq

mutual

/-- Second walk of `analyse` (lines 108-120): restore the tagged scope on
entering a scope-opening node, run both checks, recurse into the
children, pop the scope on leave. -/
def p2 (env : ModuleEnv) (tbl : ScopeTable) (n : Node) (ctx : PCtx)
    (w : P2Walk) : Except ReassignErr P2Walk := do
  let cur2 := if scopeOpening n then w.nextId else w.cur
  let nid2 := if scopeOpening n then w.nextId + 1 else w.nextId
  let st1 := checkForReads tbl cur2 w.st n ctx
  let st2 ← checkForWrites env tbl cur2 st1 n
  let w1 : P2Walk := ⟨cur2, nid2, st2⟩
  let w2 ← match n with
    | .Identifier .. => .ok w1
    | .Literal .. => .ok w1
    | .MemberExpression o p c _ _ => do
      let wa ← p2 env tbl o ⟨"MemberExpression", c, true, false⟩ w1
      p2 env tbl p ⟨"MemberExpression", c, false, false⟩ wa
    | .ObjectExpression props _ _ => p2List env tbl props (plainCtx ("ObjectExpression")) w1
    | .Property k v _ _ => do
      let wa ← p2 env tbl k ⟨"Property", false, false, false⟩ w1
      p2 env tbl v ⟨"Property", false, false, true⟩ wa
    | .AssignmentExpression l r _ _ => do
      let wa ← p2 env tbl l (plainCtx ("AssignmentExpression")) w1
      p2 env tbl r (plainCtx ("AssignmentExpression")) wa
    | .UpdateExpression a _ _ => p2 env tbl a (plainCtx ("UpdateExpression")) w1
    | .CallExpression c args _ _ => do
      let wa ← p2 env tbl c (plainCtx ("CallExpression")) w1
      p2List env tbl args (plainCtx ("CallExpression")) wa
    | .ExpressionStatement e _ _ => p2 env tbl e (plainCtx ("ExpressionStatement")) w1
    | .ReturnStatement a _ _ => p2Opt env tbl a (plainCtx ("ReturnStatement")) w1
    | .FunctionDeclaration id params body _ _ => do
      let wa ← p2Opt env tbl id (plainCtx ("FunctionDeclaration")) w1
      let wb ← p2List env tbl params (plainCtx ("FunctionDeclaration")) wa
      p2 env tbl body (plainCtx ("FunctionDeclaration")) wb
    | .FunctionExpression id params body _ _ => do
      let wa ← p2Opt env tbl id (plainCtx ("FunctionExpression")) w1
      let wb ← p2List env tbl params (plainCtx ("FunctionExpression")) wa
      p2 env tbl body (plainCtx ("FunctionExpression")) wb
    | .ArrowFunctionExpression params body _ _ => do
      let wa ← p2List env tbl params (plainCtx ("ArrowFunctionExpression")) w1
      p2 env tbl body (plainCtx ("ArrowFunctionExpression")) wa
    | .BlockStatement body _ _ => p2List env tbl body (plainCtx ("BlockStatement")) w1
    | .CatchClause param body _ _ => do
      let wa ← p2 env tbl param (plainCtx ("CatchClause")) w1
      p2 env tbl body (plainCtx ("CatchClause")) wa
    | .TryStatement blk handler _ _ => do
      let wa ← p2 env tbl blk (plainCtx ("TryStatement")) w1
      p2Opt env tbl handler (plainCtx ("TryStatement")) wa
    | .VariableDeclaration _ decls _ _ =>
      p2List env tbl decls (plainCtx ("VariableDeclaration")) w1
    | .VariableDeclarator did dinit _ _ => do
      let wa ← p2 env tbl did (plainCtx ("VariableDeclarator")) w1
      p2Opt env tbl dinit (plainCtx ("VariableDeclarator")) wa
    | .ClassDeclaration id _ _ => p2Opt env tbl id (plainCtx ("ClassDeclaration")) w1
    | .ImportDeclaration .. => .ok w1
    | .ExportNamedDeclaration d _ _ => p2Opt env tbl d (plainCtx ("ExportNamedDeclaration")) w1
  .ok { w2 with cur := w.cur }

def p2List (env : ModuleEnv) (tbl : ScopeTable) (ns : List Node) (ctx : PCtx)
    (w : P2Walk) : Except ReassignErr P2Walk :=
  match ns with
  | [] => .ok w
  | n :: rest => do
    let w2 ← p2 env tbl n ctx w
    p2List env tbl rest ctx w2

def p2Opt (env : ModuleEnv) (tbl : ScopeTable) (n : Option Node) (ctx : PCtx)
    (w : P2Walk) : Except ReassignErr P2Walk :=
  match n with
  | none => .ok w
  | some n => p2 env tbl n ctx w

end

/-- The outcome of `Statement.analyse`: the scope table, the three name
sets in key order, and the registered sourcemap locations. -/
structure AnalyseResult where
  scopes : ScopeTable
  defines : List String
  modifies : List String
  dependsOn : List String
  smLocs : List Nat
deriving Repr, DecidableEq

/-- `Statement.analyse` (lines 32-125): a no-op for import declarations;
otherwise the scope-building walk, then the classification walk (during
which `this.defines` is still empty), and only then is `defines`
populated from the root scope's declarations. -/
def analyse (env : ModuleEnv) (node : Node) : Except AnalyseErr AnalyseResult :=
  if isImportDeclaration node then .ok ⟨[rootScope], [], [], [], []⟩
  else do
    let st1 ← p1 ⟨[rootScope], 0, []⟩ node
    match p2 env st1.tbl node rootCtx ⟨0, 1, ⟨[], [], []⟩⟩ with
    | .error re => .error (.illegalReassignment re.name re.file re.line re.col)
    | .ok w =>
      .ok { scopes := st1.tbl
            defines := (scopeAt st1.tbl 0).declNames
            modifies := w.st.modifies
            dependsOn := w.st.dependsOn
            smLocs := st1.smLocs }

/-! ### replaceIdentifiers — rename and export rewrite

The text-editing buffer is an external collaborator consumed through an
interface (overwrite / insert / append / clone); we record the operations
performed on the clone as a trace. `insert` can throw at some offsets
(the code falls back to `append`); that collaborator behaviour is an
oracle `canInsertAt`. -/

inductive Edit where
  | overwrite (start stop : Nat) (content : String)
  | insertAt (pos : Nat) (content : String)
  | append (content : String)
deriving Repr, DecidableEq

/-- `node._skip` — only declarator binding identifiers are ever marked. -/
def skipFlag : Node → Bool
  | .Identifier _ _ _ s => s
  | _ => false

/-- `node.declarations[0].id._skip = true` (line 269). -/
def markSkip : Node → Node
  | .Identifier nm s e _ => .Identifier nm s e true
  | n => n

mutual

/-- Number of scope-opening nodes in a subtree; entering a subtree
advances the re-derived `_scope` tag counter by exactly this amount,
whether or not the walk descends into it. -/
def scopeCount : Node → Nat
  | .Identifier .. => 0
  | .Literal .. => 0
  | .MemberExpression o p _ _ _ => scopeCount o + scopeCount p
  | .ObjectExpression props _ _ => scopeCountList props
  | .Property k v _ _ => scopeCount k + scopeCount v
  | .AssignmentExpression l r _ _ => scopeCount l + scopeCount r
  | .UpdateExpression a _ _ => scopeCount a
  | .CallExpression c args _ _ => scopeCount c + scopeCountList args
  | .ExpressionStatement e _ _ => scopeCount e
  | .ReturnStatement a _ _ => scopeCountOpt a
  | .FunctionDeclaration id params body _ _ =>
    1 + scopeCountOpt id + scopeCountList params + scopeCount body
  | .FunctionExpression id params body _ _ =>
    1 + scopeCountOpt id + scopeCountList params + scopeCount body
  | .ArrowFunctionExpression params body _ _ => 1 + scopeCountList params + scopeCount body
  | .BlockStatement body _ _ => 1 + scopeCountList body
  | .CatchClause param body _ _ => 1 + scopeCount param + scopeCount body
  | .TryStatement blk handler _ _ => scopeCount blk + scopeCountOpt handler
  | .VariableDeclaration _ decls _ _ => scopeCountList decls
  | .VariableDeclarator did dinit _ _ => scopeCount did + scopeCountOpt dinit
  | .ClassDeclaration id _ _ => scopeCountOpt id
  | .ImportDeclaration .. => 0
  | .ExportNamedDeclaration d _ _ => scopeCountOpt d

def scopeCountList : List Node → Nat
  | [] => 0
  | n :: rest => scopeCount n + scopeCountList rest

def scopeCountOpt : Option Node → Nat
  | none => 0
  | some n => scopeCount n

end

/-- The fixed inputs of one `replaceIdentifiers` walk: the scope table
from `analyse`, the bundle-export targets, the deshadow list (first
segment of each replacement) and the buffer's insert oracle. -/
structure RepEnv where
  tbl : ScopeTable
  bundleExports : SMap
  deshadowList : List String
  canInsertAt : Nat → Bool

/-- The walk state: the edits recorded so far, the `topLevel` flag (set
false at the first scope entered and never reset) and the re-derived
`_scope` tag counter. -/
structure RepState where
  trace : List Edit
  topLevel : Bool
  nextId : Nat

/-- The mapping update on entering a scope-tagged node (lines 295-317):
keep the names this scope does not re-declare, then run the deshadow
loop. NOTE: the source tests `~scope.declarations[ name ]` — a bitwise
NOT applied to a declaring node or to `undefined`, both of which coerce
to a truthy int32 — so every deshadow-list name is (re)mapped to its
`$$` form in every entered scope, declared there or not. The walk skips
the subtree exactly when the resulting mapping is empty, which (the
deshadow loop being unconditional) requires the deshadow list itself to
be empty. -/
def scopeEnterNames (tbl : ScopeTable) (sid : Nat) (names : SMap)
    (deshadowList : List String) : SMap :=
  let copied := names.filter (fun p => !(declaredIn tbl sid p.1))
  deshadowList.foldl (fun m name => setKey m name (name ++ "$$")) copied

/-- The identifier-rewrite rule (lines 320-330): rename actual
references only — not non-computed member property names, not object
property keys — when the active mapping changes the name. -/
def repIdent (names : SMap) (n : Node) (ctx : PCtx) (st : RepState) : RepState :=
  match n with
  | .Identifier name s e _ =>
    if ctx.ptype == "MemberExpression" && !ctx.computed && !ctx.isObject then st
    else if ctx.ptype == "Property" && !ctx.isValue then st
    else
      match lookupKey names name with
      | some replacement =>
        if replacement != name then
          { st with trace := st.trace ++ [.overwrite s e replacement] }
        else st
      | none => st
  | _ => st

/-- The `exportInitialisers` text (lines 274-278): one
`\n<target> = <name>;` piece per declared name present in
`bundleExports`; `.id` is dereferenced on every declarator. -/
def exportInitText (bundleExports : SMap) : List Node → Except AnalyseErr String
  | [] => .ok ("")
  | d :: rest =>
    match d with
    | .VariableDeclarator did _ _ _ =>
      let name := idNameOrUndef did
      let piece :=
        match lookupKey bundleExports name with
        | some target => "\n" ++ target ++ " = " ++ name ++ ";"
        | none => ""
      match exportInitText bundleExports rest with
      | .ok restTxt => .ok (piece ++ restTxt)
      | .error e => .error e
    | _ => .error .missingField

mutual

/-- One `enter` of the `replaceIdentifiers` walk (lines 257-331) plus the
recursion into children; returns the walk state and the node as the walk
leaves it (the `_skip` marks persist on the returned node). The top-level
variable-declaration rewrite is split into `repVarDeclTop`: a single
declarator bound to an exported name is overwritten and its binding
identifier marked `_skip` — the walk then reaches the marked identifier
and `this.skip()`s it, so it is rebuilt here with the mark and without
identifier rewriting. -/
def repVarDeclTop (E : RepEnv) (names : SMap) (kind : String) (decls : List Node)
    (s e : Nat) (st : RepState) : Except AnalyseErr (RepState × Node) :=
  match decls with
  | [] => .error .missingField
  | .VariableDeclarator d0id d0init ds de :: rest =>
    let name := idNameOrUndef d0id
    match (if rest.isEmpty then lookupKey E.bundleExports name else none) with
    | some target => do
      let st := { st with trace := st.trace ++ [.overwrite s d0id.stop target] }
      let (st2, d0init2) ← repOpt E names d0init (plainCtx ("VariableDeclarator")) st
      let (st3, rest2) ← repList E names rest (plainCtx ("VariableDeclaration")) st2
      .ok (st3, .VariableDeclaration kind
        (.VariableDeclarator (markSkip d0id) d0init2 ds de :: rest2) s e)
    | none =>
      match exportInitText E.bundleExports (Node.VariableDeclarator d0id d0init ds de :: rest) with
      | .error err => .error err
      | .ok txt => do
        let st :=
          if E.canInsertAt e then { st with trace := st.trace ++ [.insertAt e txt] }
          else { st with trace := st.trace ++ [.append txt] }
        let (st2, did2) ← rep E names d0id (plainCtx ("VariableDeclarator")) st
        let (st3, dinit2) ← repOpt E names d0init (plainCtx ("VariableDeclarator")) st2
        let (st4, rest2) ← repList E names rest (plainCtx ("VariableDeclaration")) st3
        .ok (st4, .VariableDeclaration kind
          (.VariableDeclarator did2 dinit2 ds de :: rest2) s e)
  | _ :: _ => .error .missingField

def rep (E : RepEnv) (names : SMap) (n : Node) (ctx : PCtx) (st : RepState) :
    Except AnalyseErr (RepState × Node) :=
  if skipFlag n then .ok ({ st with nextId := st.nextId + scopeCount n }, n)
  else
    match n with
    | .VariableDeclaration kind decls s e =>
      if st.topLevel then repVarDeclTop E names kind decls s e st
      else do
        let (st2, decls2) ← repList E names decls (plainCtx ("VariableDeclaration")) st
        .ok (st2, .VariableDeclaration kind decls2 s e)
    | .FunctionDeclaration id params body s e =>
      let newNames := scopeEnterNames E.tbl st.nextId names E.deshadowList
      if newNames.isEmpty then
        .ok ({ st with topLevel := false, nextId := st.nextId + scopeCount n }, n)
      else do
        let st := { st with topLevel := false, nextId := st.nextId + 1 }
        let (st2, id2) ← repOpt E newNames id (plainCtx ("FunctionDeclaration")) st
        let (st3, params2) ← repList E newNames params (plainCtx ("FunctionDeclaration")) st2
        let (st4, body2) ← rep E newNames body (plainCtx ("FunctionDeclaration")) st3
        .ok (st4, .FunctionDeclaration id2 params2 body2 s e)
    | .FunctionExpression id params body s e =>
      let newNames := scopeEnterNames E.tbl st.nextId names E.deshadowList
      if newNames.isEmpty then
        .ok ({ st with topLevel := false, nextId := st.nextId + scopeCount n }, n)
      else do
        let st := { st with topLevel := false, nextId := st.nextId + 1 }
        let (st2, id2) ← repOpt E newNames id (plainCtx ("FunctionExpression")) st
        let (st3, params2) ← repList E newNames params (plainCtx ("FunctionExpression")) st2
        let (st4, body2) ← rep E newNames body (plainCtx ("FunctionExpression")) st3
        .ok (st4, .FunctionExpression id2 params2 body2 s e)
    | .ArrowFunctionExpression params body s e =>
      let newNames := scopeEnterNames E.tbl st.nextId names E.deshadowList
      if newNames.isEmpty then
        .ok ({ st with topLevel := false, nextId := st.nextId + scopeCount n }, n)
      else do
        let st := { st with topLevel := false, nextId := st.nextId + 1 }
        let (st2, params2) ← repList E newNames params (plainCtx ("ArrowFunctionExpression")) st
        let (st3, body2) ← rep E newNames body (plainCtx ("ArrowFunctionExpression")) st2
        .ok (st3, .ArrowFunctionExpression params2 body2 s e)
    | .BlockStatement body s e =>
      let newNames := scopeEnterNames E.tbl st.nextId names E.deshadowList
      if newNames.isEmpty then
        .ok ({ st with topLevel := false, nextId := st.nextId + scopeCount n }, n)
      else do
        let st := { st with topLevel := false, nextId := st.nextId + 1 }
        let (st2, body2) ← repList E newNames body (plainCtx ("BlockStatement")) st
        .ok (st2, .BlockStatement body2 s e)
    | .CatchClause param body s e =>
      let newNames := scopeEnterNames E.tbl st.nextId names E.deshadowList
      if newNames.isEmpty then
        .ok ({ st with topLevel := false, nextId := st.nextId + scopeCount n }, n)
      else do
        let st := { st with topLevel := false, nextId := st.nextId + 1 }
        let (st2, param2) ← rep E newNames param (plainCtx ("CatchClause")) st
        let (st3, body2) ← rep E newNames body (plainCtx ("CatchClause")) st2
        .ok (st3, .CatchClause param2 body2 s e)
    | .Identifier nm s e fl => .ok (repIdent names (.Identifier nm s e fl) ctx st, n)
    | .Literal .. => .ok (st, n)
    | .MemberExpression o p c s e => do
      let (st2, o2) ← rep E names o ⟨"MemberExpression", c, true, false⟩ st
      let (st3, p2) ← rep E names p ⟨"MemberExpression", c, false, false⟩ st2
      .ok (st3, .MemberExpression o2 p2 c s e)
    | .ObjectExpression props s e => do
      let (st2, props2) ← repList E names props (plainCtx ("ObjectExpression")) st
      .ok (st2, .ObjectExpression props2 s e)
    | .Property k v s e => do
      let (st2, k2) ← rep E names k ⟨"Property", false, false, false⟩ st
      let (st3, v2) ← rep E names v ⟨"Property", false, false, true⟩ st2
      .ok (st3, .Property k2 v2 s e)
    | .AssignmentExpression l r s e => do
      let (st2, l2) ← rep E names l (plainCtx ("AssignmentExpression")) st
      let (st3, r2) ← rep E names r (plainCtx ("AssignmentExpression")) st2
      .ok (st3, .AssignmentExpression l2 r2 s e)
    | .UpdateExpression a s e => do
      let (st2, a2) ← rep E names a (plainCtx ("UpdateExpression")) st
      .ok (st2, .UpdateExpression a2 s e)
    | .CallExpression c args s e => do
      let (st2, c2) ← rep E names c (plainCtx ("CallExpression")) st
      let (st3, args2) ← repList E names args (plainCtx ("CallExpression")) st2
      .ok (st3, .CallExpression c2 args2 s e)
    | .ExpressionStatement x s e => do
      let (st2, x2) ← rep E names x (plainCtx ("ExpressionStatement")) st
      .ok (st2, .ExpressionStatement x2 s e)
    | .ReturnStatement a s e => do
      let (st2, a2) ← repOpt E names a (plainCtx ("ReturnStatement")) st
      .ok (st2, .ReturnStatement a2 s e)
    | .TryStatement blk handler s e => do
      let (st2, blk2) ← rep E names blk (plainCtx ("TryStatement")) st
      let (st3, handler2) ← repOpt E names handler (plainCtx ("TryStatement")) st2
      .ok (st3, .TryStatement blk2 handler2 s e)
    | .VariableDeclarator did dinit s e => do
      let (st2, did2) ← rep E names did (plainCtx ("VariableDeclarator")) st
      let (st3, dinit2) ← repOpt E names dinit (plainCtx ("VariableDeclarator")) st2
      .ok (st3, .VariableDeclarator did2 dinit2 s e)
    | .ClassDeclaration id s e => do
      let (st2, id2) ← repOpt E names id (plainCtx ("ClassDeclaration")) st
      .ok (st2, .ClassDeclaration id2 s e)
    | .ImportDeclaration .. => .ok (st, n)
    | .ExportNamedDeclaration d s e => do
      let (st2, d2) ← repOpt E names d (plainCtx ("ExportNamedDeclaration")) st
      .ok (st2, .ExportNamedDeclaration d2 s e)

def repList (E : RepEnv) (names : SMap) (ns : List Node) (ctx : PCtx)
    (st : RepState) : Except AnalyseErr (RepState × List Node)  :=
  match ns with
  | [] => .ok (st, [])
  | n :: rest => do
    let (st2, n2) ← rep E names n ctx st
    let (st3, rest2) ← repList E names rest ctx st2
    .ok (st3, n2 :: rest2)

def repOpt (E : RepEnv) (names : SMap) (n : Option Node) (ctx : PCtx)
    (st : RepState) : Except AnalyseErr (RepState × Option Node) :=
  match n with
  | none => .ok (st, none)
  | some n => do
    let (st2, n2) ← rep E names n ctx st
    .ok (st2, some n2)

end

/-- `replacement.split('.')[0]` — the characters before the first dot
(the whole string when it has none). -/
def firstDotSegment (s : String) : String :=
  .mk (s.data.takeWhile (fun c => !(c == '.')))

/-- `Statement.replaceIdentifiers` (lines 240-343): clone the buffer,
derive the deshadow list from the replacement targets, and walk only if
there is anything to replace or export. Returns the edits applied to the
clone and the node as the walk leaves it. -/
def replaceIdentifiers (tbl : ScopeTable) (canIns : Nat → Bool) (names : SMap)
    (bundleExports : SMap) (node : Node) : Except AnalyseErr (List Edit × Node) :=
  let deshadowList := names.map (fun p => firstDotSegment p.2)
  if names.length > 0 || bundleExports.length > 0 then
    match rep ⟨tbl, bundleExports, deshadowList, canIns⟩ names node rootCtx ⟨[], true, 1⟩ with
    | .ok (st, n2) => .ok (st.trace, n2)
    | .error e => .error e
  else .ok ([], node)

/-! ### Well-formedness and observation helpers -/

/-- Whether a node is a `VariableDeclarator`. -/
def isDeclarator : Node → Bool
  | .VariableDeclarator .. => true
  | _ => false

mutual

/-- The precondition of claim C10, recursively over the statement's
subtree: every function and class declaration node carries a name (its
`id` is present and is an identifier), and every variable declaration
node has at least one declarator — each element being a declarator, the
first binding a simple name. -/
def wellFormed : Node → Bool
  | .Identifier .. => true
  | .Literal .. => true
  | .MemberExpression o p _ _ _ => wellFormed o && wellFormed p
  | .ObjectExpression props _ _ => wellFormedList props
  | .Property k v _ _ => wellFormed k && wellFormed v
  | .AssignmentExpression l r _ _ => wellFormed l && wellFormed r
  | .UpdateExpression a _ _ => wellFormed a
  | .CallExpression c args _ _ => wellFormed c && wellFormedList args
  | .ExpressionStatement e _ _ => wellFormed e
  | .ReturnStatement a _ _ => wellFormedOpt a
  | .FunctionDeclaration id params body _ _ =>
    (match id with | some (.Identifier ..) => true | _ => false) &&
      wellFormedList params && wellFormed body
  | .FunctionExpression id params body _ _ =>
    wellFormedOpt id && wellFormedList params && wellFormed body
  | .ArrowFunctionExpression params body _ _ => wellFormedList params && wellFormed body
  | .BlockStatement body _ _ => wellFormedList body
  | .CatchClause param body _ _ => wellFormed param && wellFormed body
  | .TryStatement blk handler _ _ => wellFormed blk && wellFormedOpt handler
  | .VariableDeclaration _ decls _ _ =>
    (match decls with
     | .VariableDeclarator (.Identifier ..) _ _ _ :: _ => true
     | _ => false) && decls.all isDeclarator && wellFormedList decls
  | .VariableDeclarator did dinit _ _ => wellFormed did && wellFormedOpt dinit
  | .ClassDeclaration id _ _ =>
    (match id with | some (.Identifier ..) => true | _ => false)
  | .ImportDeclaration .. => true
  | .ExportNamedDeclaration d _ _ => wellFormedOpt d

def wellFormedList : List Node → Bool
  | [] => true
  | n :: rest => wellFormed n && wellFormedList rest

def wellFormedOpt : Option Node → Bool
  | none => true
  | some n => wellFormed n

end

mutual

/-- Clear every `_skip` annotation in a subtree (the semantic content of
a node apart from the transient traversal marks). -/
def eraseSkips : Node → Node
  | .Identifier nm s e _ => .Identifier nm s e false
  | .Literal s e => .Literal s e
  | .MemberExpression o p c s e => .MemberExpression (eraseSkips o) (eraseSkips p) c s e
  | .ObjectExpression props s e => .ObjectExpression (eraseSkipsList props) s e
  | .Property k v s e => .Property (eraseSkips k) (eraseSkips v) s e
  | .AssignmentExpression l r s e => .AssignmentExpression (eraseSkips l) (eraseSkips r) s e
  | .UpdateExpression a s e => .UpdateExpression (eraseSkips a) s e
  | .CallExpression c args s e => .CallExpression (eraseSkips c) (eraseSkipsList args) s e
  | .ExpressionStatement x s e => .ExpressionStatement (eraseSkips x) s e
  | .ReturnStatement a s e => .ReturnStatement (eraseSkipsOpt a) s e
  | .FunctionDeclaration id params body s e =>
    .FunctionDeclaration (eraseSkipsOpt id) (eraseSkipsList params) (eraseSkips body) s e
  | .FunctionExpression id params body s e =>
    .FunctionExpression (eraseSkipsOpt id) (eraseSkipsList params) (eraseSkips body) s e
  | .ArrowFunctionExpression params body s e =>
    .ArrowFunctionExpression (eraseSkipsList params) (eraseSkips body) s e
  | .BlockStatement body s e => .BlockStatement (eraseSkipsList body) s e
  | .CatchClause param body s e => .CatchClause (eraseSkips param) (eraseSkips body) s e
  | .TryStatement blk handler s e => .TryStatement (eraseSkips blk) (eraseSkipsOpt handler) s e
  | .VariableDeclaration kind decls s e => .VariableDeclaration kind (eraseSkipsList decls) s e
  | .VariableDeclarator did dinit s e =>
    .VariableDeclarator (eraseSkips did) (eraseSkipsOpt dinit) s e
  | .ClassDeclaration id s e => .ClassDeclaration (eraseSkipsOpt id) s e
  | .ImportDeclaration s e => .ImportDeclaration s e
  | .ExportNamedDeclaration d s e => .ExportNamedDeclaration (eraseSkipsOpt d) s e

def eraseSkipsList : List Node → List Node
  | [] => []
  | n :: rest => eraseSkips n :: eraseSkipsList rest

def eraseSkipsOpt : Option Node → Option Node
  | none => none
  | some n => some (eraseSkips n)

end

/-- The `_skip` flag of the first declarator's binding identifier of a
variable declaration (an observation used to compare node states). -/
def firstDeclSkip : Node → Bool
  | .VariableDeclaration _ (Node.VariableDeclarator did _ _ _ :: _) _ _ => skipFlag did
  | _ => false

/-- `declarator.id.name` as a total projection (JS reads `undefined` when
the element is not a declarator or binds no simple name). -/
def declaratorNameD : Node → String
  | .VariableDeclarator did _ _ _ => idNameOrUndef did
  | _ => "undefined"

/-- The declarative shape of the `exportInitialisers` pipeline: map the
declarators to their declared names, keep those present in
`bundleExports`, and join one `\n<target> = <name>;` assignment per kept
name. -/
def exportInitPipeline (be : SMap) (nms : List String) : String :=
  String.join ((nms.filter (fun nm => (lookupKey be nm).isSome)).map
    (fun nm => "\n" ++ ((lookupKey be nm).getD ("")) ++ " = " ++ nm ++ ";"))

/-- The scope table `analyse` leaves behind (what the `_scope` tags
reference); `replaceIdentifiers` runs against it. -/
def tblOf (env : ModuleEnv) (n : Node) : ScopeTable :=
  match analyse env n with
  | .ok r => r.scopes
  | .error _ => []

/-- A buffer whose `insert` succeeds everywhere. -/
def insAlways : Nat → Bool := fun _ => true

/-- A buffer whose `insert` throws everywhere (the statement reaches the
buffer end, say), forcing the `append` fallback. -/
def insNever : Nat → Bool := fun _ => false

/-! ### Concrete example inputs -/

/-- A module with no imports. -/
def env0 : ModuleEnv := ⟨[], "main.js", "source"⟩

/-- A module importing the named binding `x`. -/
def envX : ModuleEnv := ⟨[("x", ⟨"x"⟩)], "module.js", "x = 5"⟩

/-- A module importing the namespace `ns`; the write sits on the second
source line. -/
def envNS : ModuleEnv := ⟨[("ns", ⟨"*"⟩)], "module.js", "code\nns.foo = 1"⟩

/-- `export function a(){ return b(); }` -/
def exC3 : Node :=
  .ExportNamedDeclaration (some (.FunctionDeclaration (some (.Identifier "a" 16 17 false)) []
    (.BlockStatement [.ReturnStatement (some (.CallExpression (.Identifier "b" 28 29 false)
      [] 28 32)) 21 33] 19 35) 7 35)) 0 35

/-- `a[b]` — a computed member access. -/
def exC5a : Node :=
  .ExpressionStatement (.MemberExpression (.Identifier "a" 0 1 false)
    (.Identifier "b" 2 3 false) true 0 4) 0 5

/-- `a.b = 1` -/
def exC5b : Node :=
  .ExpressionStatement (.AssignmentExpression
    (.MemberExpression (.Identifier "a" 0 1 false) (.Identifier "b" 2 3 false) false 0 3)
    (.Literal 6 7) 0 7) 0 8

/-- `({ b: a })` -/
def exC5c : Node :=
  .ExpressionStatement (.ObjectExpression
    [.Property (.Identifier "b" 2 3 false) (.Identifier "a" 5 6 false) 2 6] 1 7) 0 8

/-- `x = 5` — direct reassignment of the imported binding. -/
def exC4a : Node :=
  .ExpressionStatement (.AssignmentExpression (.Identifier "x" 0 1 false) (.Literal 4 5) 0 5) 0 5

/-- `x.prop = 5` — mutating a property of the imported binding. -/
def exC4b : Node :=
  .ExpressionStatement (.AssignmentExpression
    (.MemberExpression (.Identifier "x" 0 1 false) (.Identifier "prop" 2 6 false) false 0 6)
    (.Literal 9 10) 0 10) 0 10

/-- `ns.foo = 1` — writing a direct property of an imported namespace. -/
def exC4c : Node :=
  .ExpressionStatement (.AssignmentExpression
    (.MemberExpression (.Identifier "ns" 5 7 false) (.Identifier "foo" 8 11 false) false 5 11)
    (.Literal 14 15) 5 15) 5 15

/-- `f(x)` — the imported binding passed bare as a call argument. -/
def exC6 : Node :=
  .ExpressionStatement (.CallExpression (.Identifier "f" 0 1 false)
    [.Identifier "x" 2 3 false] 0 4) 0 5

/-- `foo(function f() { bundle; foo; })` — a nested scope that declares
neither `foo` nor `bundle`. -/
def exC7 : Node :=
  .ExpressionStatement (.CallExpression (.Identifier "foo" 0 3 false)
    [.FunctionExpression (some (.Identifier "f" 13 14 false)) []
      (.BlockStatement [.ExpressionStatement (.Identifier "bundle" 19 25 false) 19 26,
                        .ExpressionStatement (.Identifier "foo" 27 30 false) 27 31] 17 33)
      4 33] 0 34) 0 35

/-- `foo(function (foo) { foo; })` — a nested scope that re-declares
`foo` as a parameter. -/
def exC7s : Node :=
  .ExpressionStatement (.CallExpression (.Identifier "foo" 0 3 false)
    [.FunctionExpression none [.Identifier "foo" 13 16 false]
      (.BlockStatement [.ExpressionStatement (.Identifier "foo" 20 23 false) 20 24] 18 26)
      4 27] 0 28) 0 29

/-- `var x = 1` -/
def exC8 : Node :=
  .VariableDeclaration "var"
    [.VariableDeclarator (.Identifier "x" 4 5 false) (some (.Literal 8 9)) 4 9] 0 10

/-- `var a = 1, b = 2` -/
def exC9 : Node :=
  .VariableDeclaration "var"
    [.VariableDeclarator (.Identifier "a" 4 5 false) (some (.Literal 8 9)) 4 9,
     .VariableDeclarator (.Identifier "b" 11 12 false) (some (.Literal 15 16)) 11 16] 0 16

/-- The scope table `analyse` builds for `exC7`: the named function
expression's scope declares `f`; neither nested scope declares `bundle`
or `foo`. -/
def tblC7 : ScopeTable :=
  [⟨none, false, [], 0⟩, ⟨some 0, false, ["f"], 1⟩, ⟨some 1, true, [], 2⟩]

/-- The scope table for `exC7s`: the function's scope re-declares `foo`
(as its parameter). -/
def tblC7s : ScopeTable :=
  [⟨none, false, [], 0⟩, ⟨some 0, false, ["foo"], 1⟩, ⟨some 1, true, [], 2⟩]

/-- The scope table for `exC8`. -/
def tblC8 : ScopeTable := [⟨none, false, ["x"], 0⟩]

/-- The scope table for `exC9`. -/
def tblC9 : ScopeTable := [⟨none, false, ["a", "b"], 0⟩]

/-! ### expand — dependency expansion

`Statement.expand` (lines 194-238). The promise chain is strictly
sequential, so it embeds as a pure state-passing recursion over the
`isIncluded` flags. `Module.define` and `Module.modifications` are
collaborators modelled from the spec: `define(name)` expands, in order,
the statements that define `name` (an unresolved name defines nothing),
and `modifications` maps a name to the ordered statements known to
modify it. -/

structure StmtInfo where
  dependsOn : List String
  defines : List String
deriving Repr, DecidableEq

/-- Modelled from the spec: the bundling session a statement's `expand`
runs against — every statement's name sets, and the module's
`modifications` table. Statements are identified by their index. -/
structure Session where
  stmts : List StmtInfo
  modifications : List (String × List Nat)

def stmtAt (s : Session) (i : Nat) : StmtInfo := s.stmts.getD i ⟨[], []⟩

/-- Modelled from the spec: the statements defining `name`, in order. -/
def definers (s : Session) (name : String) : List Nat :=
  (List.range s.stmts.length).filter (fun i => (stmtAt s i).defines.contains name)

def modList (s : Session) (name : String) : List Nat :=
  (lookupKey s.modifications name).getD []

/-- The session-wide `isIncluded` flags. -/
abbrev Included := Nat → Bool

def isIncl (inc : Included) (i : Nat) : Bool := inc i

def setIncl (inc : Included) (i : Nat) : Included := fun j => j == i || inc j

/-- Sequentially expand each statement of a list, concatenating results. -/
def expandRun (f : Nat → Included → List Nat × Included) :
    List Nat → Included → List Nat × Included
  | [], inc => ([], inc)
  | j :: rest, inc =>
    let r := f j inc
    let r2 := expandRun f rest r.2
    (r.1 ++ r2.1, r2.2)

/-- Modelled from the spec: `Module.define(name)`. -/
def defineName (f : Nat → Included → List Nat × Included) (s : Session)
    (name : String) (inc : Included) : List Nat × Included :=
  expandRun f (definers s name) inc

/-- Lines 204-208: the sequence over `Object.keys(this.dependsOn)`. -/
def expandDeps (f : Nat → Included → List Nat × Included) (s : Session) :
    List String → Included → List Nat × Included
  | [], inc => ([], inc)
  | name :: rest, inc =>
    let r := defineName f s name inc
    let r2 := expandDeps f s rest r.2
    (r.1 ++ r2.1, r2.2)

/-- Lines 222-229: the sequence over one name's modification list; a
statement whose `isIncluded` flag is already set is not expanded. -/
def expandModList (f : Nat → Included → List Nat × Included) :
    List Nat → Included → List Nat × Included
  | [], inc => ([], inc)
  | j :: rest, inc =>
    let r := if isIncl inc j then (([] : List Nat), inc) else f j inc
    let r2 := expandModList f rest r.2
    (r.1 ++ r2.1, r2.2)

/-- Lines 217-232: the sequence over `keys(this.defines)`. -/
def expandMods (f : Nat → Included → List Nat × Included) (s : Session) :
    List String → Included → List Nat × Included
  | [], inc => ([], inc)
  | name :: rest, inc =>
    let r := expandModList f (modList s name) inc
    let r2 := expandMods f s rest r.2
    (r.1 ++ r2.1, r2.2)

/-- `Statement.expand` (lines 194-238): the one-shot inclusion gate, the
dependency phase, the statement itself, then the modifier phase. `fuel`
bounds the recursion depth; the gate marks a fresh statement before any
recursion, so nesting never exceeds the number of statements plus one. -/
def expand (s : Session) : Nat → Nat → Included → List Nat × Included
  | 0, _, inc => ([], inc)
  | fuel + 1, i, inc =>
    if isIncl inc i then ([], inc)
    else
      let inc1 := setIncl inc i
      let dres := expandDeps (expand s fuel) s (stmtAt s i).dependsOn inc1
      let mres := expandMods (expand s fuel) s (stmtAt s i).defines dres.2
      (dres.1 ++ i :: mres.1, mres.2)

/-- The dependency phase of one `expand` step: the concatenated
`module.define(name)` results for the names of `dependsOn`, run after the
inclusion flag of `i` has been set. -/
def depPhase (s : Session) (fuel i : Nat) (inc : Included) : List Nat × Included :=
  expandDeps (expand s fuel) s (stmtAt s i).dependsOn (setIncl inc i)

/-- The modifier phase of one `expand` step: the expansions of the
not-yet-included statements recorded in `modifications` for the names of
`defines`, run after the dependency phase. -/
def modPhase (s : Session) (fuel i : Nat) (inc : Included) : List Nat × Included :=
  expandMods (expand s fuel) s (stmtAt s i).defines (depPhase s fuel i inc).2

/-- A fresh session state: nothing included yet. -/
def incNone : Included := fun _ => false

/-- Example session: statement 0 defines `a`; statement 1 depends on `a`
and defines `b`; statement 2 modifies `a` (recorded in `modifications`). -/
def sessEx : Session :=
  ⟨[⟨[], ["a"]⟩, ⟨["a"], ["b"]⟩, ⟨[], []⟩], [("a", [2])]⟩

/-! ### Invariants of expand -/

/-- Inclusion flags only ever go from false to true. -/
def IncMono (inc inc2 : Included) : Prop :=
  ∀ j, isIncl inc j = true → isIncl inc2 j = true

/-- The invariant of one expansion step: the final flags are exactly the
initial flags plus the returned statements; every returned statement was
not yet included when the step began; the returned list has no
duplicates. -/
def ExpandInv (inc : Included) (r : List Nat × Included) : Prop :=
  (∀ j, isIncl r.2 j = true ↔ (isIncl inc j = true ∨ j ∈ r.1)) ∧
  (∀ j ∈ r.1, isIncl inc j = false) ∧
  r.1.Nodup

theorem expandInv_nil (inc : Included) : ExpandInv inc ([], inc) :=
  ⟨fun j => by simp, by simp, by simp⟩

theorem ExpandInv.mono {inc : Included} {r} (h : ExpandInv inc r) : IncMono inc r.2 :=
  fun j hj => (h.1 j).mpr (Or.inl hj)

theorem ExpandInv.marks {inc : Included} {r} (h : ExpandInv inc r) :
    ∀ j ∈ r.1, isIncl r.2 j = true :=
  fun j hj => (h.1 j).mpr (Or.inr hj)

theorem ExpandInv.fresh {inc : Included} {r} (h : ExpandInv inc r) :
    ∀ j ∈ r.1, isIncl inc j = false :=
  h.2.1

theorem ExpandInv.comp {inc inc1 inc2 : Included} {l1 l2 : List Nat}
    (h1 : ExpandInv inc (l1, inc1)) (h2 : ExpandInv inc1 (l2, inc2)) :
    ExpandInv inc (l1 ++ l2, inc2) := by
  obtain ⟨i1, f1, n1⟩ := h1
  obtain ⟨i2, f2, n2⟩ := h2
  refine ⟨?_, ?_, ?_⟩
  · intro j
    simp only [List.mem_append]
    constructor
    · intro hj
      rcases (i2 j).mp hj with h | h
      · rcases (i1 j).mp h with h2 | h2
        · exact Or.inl h2
        · exact Or.inr (Or.inl h2)
      · exact Or.inr (Or.inr h)
    · intro hj
      rcases hj with h | h | h
      · exact (i2 j).mpr (Or.inl ((i1 j).mpr (Or.inl h)))
      · exact (i2 j).mpr (Or.inl ((i1 j).mpr (Or.inr h)))
      · exact (i2 j).mpr (Or.inr h)
  · intro j hj
    rcases List.mem_append.mp hj with h | h
    · exact f1 j h
    · have hf2 := f2 j h
      cases hx : isIncl inc j with
      | false => rfl
      | true =>
        have : isIncl inc1 j = true := (i1 j).mpr (Or.inl hx)
        rw [this] at hf2
        exact absurd hf2 (by simp)
  · refine n1.append n2 ?_
    intro j hj1 hj2
    have ht : isIncl inc1 j = true := (i1 j).mpr (Or.inr hj1)
    have hf : isIncl inc1 j = false := f2 j hj2
    rw [ht] at hf
    exact absurd hf (by simp)

theorem ExpandInv.permList {inc : Included} {l l2 : List Nat} {inc2 : Included}
    (h : ExpandInv inc (l, inc2)) (hp : l.Perm l2) : ExpandInv inc (l2, inc2) := by
  obtain ⟨i1, f1, n1⟩ := h
  refine ⟨?_, ?_, ?_⟩
  · intro j
    rw [i1 j]
    simp [hp.mem_iff]
  · intro j hj
    exact f1 j (hp.mem_iff.mpr hj)
  · exact (hp.nodup_iff).mp n1

theorem expandRun_inv {f : Nat → Included → List Nat × Included}
    (hf : ∀ j inc, ExpandInv inc (f j inc)) :
    ∀ js inc, ExpandInv inc (expandRun f js inc)
  | [], inc => by simpa [expandRun] using expandInv_nil inc
  | j :: rest, inc => by
    have h1 := hf j inc
    have h2 := expandRun_inv hf rest (f j inc).2
    simpa [expandRun] using ExpandInv.comp h1 h2

theorem defineName_inv {f : Nat → Included → List Nat × Included}
    (hf : ∀ j inc, ExpandInv inc (f j inc)) (s : Session) (name : String)
    (inc : Included) : ExpandInv inc (defineName f s name inc) :=
  expandRun_inv hf (definers s name) inc

theorem expandDeps_inv {f : Nat → Included → List Nat × Included}
    (hf : ∀ j inc, ExpandInv inc (f j inc)) (s : Session) :
    ∀ names inc, ExpandInv inc (expandDeps f s names inc)
  | [], inc => by simpa [expandDeps] using expandInv_nil inc
  | name :: rest, inc => by
    have h1 := defineName_inv hf s name inc
    have h2 := expandDeps_inv hf s rest (defineName f s name inc).2
    simpa [expandDeps] using ExpandInv.comp h1 h2

theorem expandModList_inv {f : Nat → Included → List Nat × Included}
    (hf : ∀ j inc, ExpandInv inc (f j inc)) :
    ∀ js inc, ExpandInv inc (expandModList f js inc)
  | [], inc => by simpa [expandModList] using expandInv_nil inc
  | j :: rest, inc => by
    by_cases hI : isIncl inc j = true
    · have h2 := expandModList_inv hf rest inc
      simpa [expandModList, hI] using ExpandInv.comp (expandInv_nil inc) h2
    · have hIf : isIncl inc j = false := by simpa using hI
      have h1 := hf j inc
      have h2 := expandModList_inv hf rest (f j inc).2
      simpa [expandModList, hIf] using ExpandInv.comp h1 h2

theorem expandMods_inv {f : Nat → Included → List Nat × Included}
    (hf : ∀ j inc, ExpandInv inc (f j inc)) (s : Session) :
    ∀ names inc, ExpandInv inc (expandMods f s names inc)
  | [], inc => by simpa [expandMods] using expandInv_nil inc
  | name :: rest, inc => by
    have h1 := expandModList_inv hf (modList s name) inc
    have h2 := expandMods_inv hf s rest (expandModList f (modList s name) inc).2
    simpa [expandMods] using ExpandInv.comp h1 h2

theorem expand_inv (s : Session) : ∀ fuel i inc, ExpandInv inc (expand s fuel i inc)
  | 0, _, inc => by simpa [expand] using expandInv_nil inc
  | fuel + 1, i, inc => by
    by_cases hI : isIncl inc i = true
    · simpa [expand, hI] using expandInv_nil inc
    · have hIf : isIncl inc i = false := by simpa using hI
      have h0 : ExpandInv inc ([i], setIncl inc i) := by
        refine ⟨fun j => ?_, ?_, by simp⟩
        · simp only [isIncl, setIncl, List.mem_singleton]
          constructor
          · intro hj
            rcases Bool.or_eq_true_iff.mp hj with h | h
            · exact Or.inr (by simpa using h)
            · exact Or.inl h
          · intro hj
            rcases hj with h | h
            · simp [h]
            · simp [h]
        · intro j hj
          rw [List.mem_singleton] at hj
          subst hj
          exact hIf
      have hd := expandDeps_inv (fun j inc => expand_inv s fuel j inc) s
        (stmtAt s i).dependsOn (setIncl inc i)
      have hm := expandMods_inv (fun j inc => expand_inv s fuel j inc) s
        (stmtAt s i).defines (expandDeps (expand s fuel) s (stmtAt s i).dependsOn (setIncl inc i)).2
      have hcomp := ExpandInv.comp (ExpandInv.comp h0 hd) hm
      have hperm :
          ((expandDeps (expand s fuel) s (stmtAt s i).dependsOn (setIncl inc i)).1 ++
            i :: (expandMods (expand s fuel) s (stmtAt s i).defines
              (expandDeps (expand s fuel) s (stmtAt s i).dependsOn (setIncl inc i)).2).1).Perm
          ([i] ++ ((expandDeps (expand s fuel) s (stmtAt s i).dependsOn (setIncl inc i)).1 ++
            (expandMods (expand s fuel) s (stmtAt s i).defines
              (expandDeps (expand s fuel) s (stmtAt s i).dependsOn (setIncl inc i)).2).1)) := by
        simp only [List.singleton_append]
        exact List.perm_middle
      have hfin := ExpandInv.permList hcomp hperm.symm
      have hunfold : expand s (fuel + 1) i inc =
          ((expandDeps (expand s fuel) s (stmtAt s i).dependsOn (setIncl inc i)).1 ++
            i :: (expandMods (expand s fuel) s (stmtAt s i).defines
              (expandDeps (expand s fuel) s (stmtAt s i).dependsOn (setIncl inc i)).2).1,
           (expandMods (expand s fuel) s (stmtAt s i).defines
              (expandDeps (expand s fuel) s (stmtAt s i).dependsOn (setIncl inc i)).2).2) := by
        simp [expand, hIf]
      rw [hunfold]
      exact hfin

/-- A statement whose flag is set is never expanded again: the gate
returns the empty list and leaves the session state untouched. -/
theorem expand_of_included (s : Session) (i : Nat) (inc : Included)
    (h : isIncl inc i = true) : ∀ fuel, expand s fuel i inc = ([], inc)
  | 0 => by simp [expand]
  | fuel + 1 => by simp [expand, h]

/-- The not-yet-included statements of one modification list all appear
in the phase's output (those already included are skipped; those included
by an earlier expansion of the same phase were emitted by it). -/
theorem expandModList_complete (s : Session) (fuel : Nat) :
    ∀ js inc j, j ∈ js → isIncl inc j = false →
      j ∈ (expandModList (expand s (fuel + 1)) js inc).1
  | [], _, j, hj, _ => absurd hj (by simp)
  | j0 :: rest, inc, j, hj, hf => by
    rcases List.mem_cons.mp hj with h | h
    · subst h
      have hx : j ∈ (expand s (fuel + 1) j inc).1 := by
        simp [expand, hf]
      simp only [expandModList, hf, Bool.false_eq_true, if_false]
      exact List.mem_append.mpr (Or.inl hx)
    · by_cases h0 : isIncl inc j0 = true
      · have ih := expandModList_complete s fuel rest inc j h hf
        simpa [expandModList, h0] using ih
      · have h0f : isIncl inc j0 = false := by simpa using h0
        have hinv := expand_inv s (fuel + 1) j0 inc
        by_cases h2 : isIncl (expand s (fuel + 1) j0 inc).2 j = true
        · have : isIncl inc j = true ∨ j ∈ (expand s (fuel + 1) j0 inc).1 :=
            (hinv.1 j).mp h2
          rcases this with hc | hc
          · rw [hf] at hc
            exact absurd hc (by simp)
          · simp only [expandModList, h0f, Bool.false_eq_true, if_false]
            exact List.mem_append.mpr (Or.inl hc)
        · have h2f : isIncl (expand s (fuel + 1) j0 inc).2 j = false := by simpa using h2
          have ih := expandModList_complete s fuel rest (expand s (fuel + 1) j0 inc).2 j h h2f
          simp only [expandModList, h0f, Bool.false_eq_true, if_false]
          exact List.mem_append.mpr (Or.inr ih)

/-- Modifier completeness across all names of `defines`. -/
theorem expandMods_complete (s : Session) (fuel : Nat) :
    ∀ names inc name j, name ∈ names → j ∈ modList s name → isIncl inc j = false →
      j ∈ (expandMods (expand s (fuel + 1)) s names inc).1
  | [], _, name, j, hn, _, _ => absurd hn (by simp)
  | n0 :: rest, inc, name, j, hn, hm, hf => by
    have hinv := expandModList_inv (fun k inc2 => expand_inv s (fuel + 1) k inc2)
      (modList s n0) inc
    rcases List.mem_cons.mp hn with h | h
    · subst h
      have hx := expandModList_complete s fuel (modList s name) inc j hm hf
      simp only [expandMods]
      exact List.mem_append.mpr (Or.inl hx)
    · by_cases h2 : isIncl (expandModList (expand s (fuel + 1)) (modList s n0) inc).2 j = true
      · have : isIncl inc j = true ∨
            j ∈ (expandModList (expand s (fuel + 1)) (modList s n0) inc).1 :=
          (hinv.1 j).mp h2
        rcases this with hc | hc
        · rw [hf] at hc
          exact absurd hc (by simp)
        · simp only [expandMods]
          exact List.mem_append.mpr (Or.inl hc)
      · have h2f : isIncl (expandModList (expand s (fuel + 1)) (modList s n0) inc).2 j = false := by
          simpa using h2
        have ih := expandMods_complete s fuel rest
          (expandModList (expand s (fuel + 1)) (modList s n0) inc).2 name j h hm h2f
        simp only [expandMods]
        exact List.mem_append.mpr (Or.inr ih)

/-- C2: `expand()` is idempotent via the one-shot inclusion gate — a call
on an already-included statement returns the empty list immediately with
no effect; a first call sets `isIncluded` before the dependency and
modifier recursions run (which is what terminates cyclic chains); after a
first call the flag is set, so a repeated call returns the empty list and
changes nothing; and no flag ever reverts to false. -/
theorem expand_gate_idempotent (s : Session) (fuel fuel2 i : Nat) (inc : Included) :
    (isIncl inc i = true → ∀ f3, expand s f3 i inc = ([], inc)) ∧
    (isIncl inc i = false →
      expand s (fuel + 1) i inc =
        ((depPhase s fuel i inc).1 ++ i :: (modPhase s fuel i inc).1,
         (modPhase s fuel i inc).2) ∧
      isIncl (expand s (fuel + 1) i inc).2 i = true ∧
      expand s fuel2 i (expand s (fuel + 1) i inc).2 =
        ([], (expand s (fuel + 1) i inc).2)) ∧
    IncMono inc (expand s fuel i inc).2 := by
  refine ⟨fun h => expand_of_included s i inc h, fun h => ?_, (expand_inv s fuel i inc).mono⟩
  have hdecomp : expand s (fuel + 1) i inc =
      ((depPhase s fuel i inc).1 ++ i :: (modPhase s fuel i inc).1,
       (modPhase s fuel i inc).2) := by
    simp [expand, h, depPhase, modPhase]
  refine ⟨hdecomp, ?_, ?_⟩
  · have h1 : isIncl (setIncl inc i) i = true := by simp [isIncl, setIncl]
    have h2 := (expandDeps_inv (fun k inc2 => expand_inv s fuel k inc2) s
      (stmtAt s i).dependsOn (setIncl inc i)).mono i h1
    have h3 := (expandMods_inv (fun k inc2 => expand_inv s fuel k inc2) s
      (stmtAt s i).defines (depPhase s fuel i inc).2).mono i (by
        simpa [depPhase] using h2)
    rw [hdecomp]
    simpa [modPhase] using h3
  · have hset : isIncl (expand s (fuel + 1) i inc).2 i = true := by
      have h1 : isIncl (setIncl inc i) i = true := by simp [isIncl, setIncl]
      have h2 := (expandDeps_inv (fun k inc2 => expand_inv s fuel k inc2) s
        (stmtAt s i).dependsOn (setIncl inc i)).mono i h1
      have h3 := (expandMods_inv (fun k inc2 => expand_inv s fuel k inc2) s
        (stmtAt s i).defines (depPhase s fuel i inc).2).mono i (by
          simpa [depPhase] using h2)
      rw [hdecomp]
      simpa [modPhase] using h3
    exact expand_of_included s i _ hset fuel2

/-- Witness for C2 at the example session: statement 1 is not yet
included; the first call returns `[0, 2, 1]` (dependency `a` pulls in its
definer 0 and its modifier 2), and the second call returns nothing. -/
theorem expand_gate_idempotent_witness :
    isIncl incNone 1 = false ∧
    ((isIncl incNone 1 = true → ∀ f3, expand sessEx f3 1 incNone = ([], incNone)) ∧
      (isIncl incNone 1 = false →
        expand sessEx (4 + 1) 1 incNone =
          ((depPhase sessEx 4 1 incNone).1 ++ 1 :: (modPhase sessEx 4 1 incNone).1,
           (modPhase sessEx 4 1 incNone).2) ∧
        isIncl (expand sessEx (4 + 1) 1 incNone).2 1 = true ∧
        expand sessEx 3 1 (expand sessEx (4 + 1) 1 incNone).2 =
          ([], (expand sessEx (4 + 1) 1 incNone).2)) ∧
      IncMono incNone (expand sessEx 4 1 incNone).2) ∧
    (expand sessEx 5 1 incNone).1 = [0, 2, 1] ∧
    (expand sessEx 3 1 (expand sessEx 5 1 incNone).2).1 = [] :=
  ⟨rfl, expand_gate_idempotent sessEx 4 3 1 incNone, rfl, rfl⟩

/-- C1: one `expand` step on a not-yet-included statement emits the
define-produced dependency statements first, then the statement itself
exactly once after them, then the modifier phase (the transitively
expanded not-yet-included modifiers of each defined name, in recorded
order); the emitted list has no duplicates; every recorded modifier of a
defined name that is still unincluded when the modifier phase starts
appears in the modifier part; and no statement emitted here is emitted
again by any later expansion of the session. -/
theorem expand_ordering (s : Session) (fuel fuel2 i k : Nat) (inc inc2 : Included)
    (h : isIncl inc i = false) :
    (expand s (fuel + 2) i inc).1 =
      (depPhase s (fuel + 1) i inc).1 ++ i :: (modPhase s (fuel + 1) i inc).1 ∧
    i ∉ (depPhase s (fuel + 1) i inc).1 ∧
    i ∉ (modPhase s (fuel + 1) i inc).1 ∧
    ((expand s (fuel + 2) i inc).1).count i = 1 ∧
    ((expand s (fuel + 2) i inc).1).Nodup ∧
    (∀ name j, name ∈ (stmtAt s i).defines → j ∈ modList s name →
      isIncl (depPhase s (fuel + 1) i inc).2 j = false →
      j ∈ (modPhase s (fuel + 1) i inc).1) ∧
    (IncMono (expand s (fuel + 2) i inc).2 inc2 →
      ∀ x ∈ (expand s fuel2 k inc2).1, x ∉ (expand s (fuel + 2) i inc).1) := by
  have hf := fun j inc3 => expand_inv s (fuel + 1) j inc3
  have hdec : expand s (fuel + 2) i inc =
      ((depPhase s (fuel + 1) i inc).1 ++ i :: (modPhase s (fuel + 1) i inc).1,
       (modPhase s (fuel + 1) i inc).2) := by
    simp [expand, h, depPhase, modPhase]
  have hdinv : ExpandInv (setIncl inc i) (depPhase s (fuel + 1) i inc) :=
    expandDeps_inv hf s (stmtAt s i).dependsOn (setIncl inc i)
  have hminv : ExpandInv (depPhase s (fuel + 1) i inc).2 (modPhase s (fuel + 1) i inc) :=
    expandMods_inv hf s (stmtAt s i).defines (depPhase s (fuel + 1) i inc).2
  have hseti : isIncl (setIncl inc i) i = true := by simp [isIncl, setIncl]
  have hdepi : isIncl (depPhase s (fuel + 1) i inc).2 i = true := hdinv.mono i hseti
  have hnotdep : i ∉ (depPhase s (fuel + 1) i inc).1 := by
    intro hmem
    have := hdinv.fresh i hmem
    rw [hseti] at this
    exact absurd this (by simp)
  have hnotmod : i ∉ (modPhase s (fuel + 1) i inc).1 := by
    intro hmem
    have := hminv.fresh i hmem
    rw [hdepi] at this
    exact absurd this (by simp)
  refine ⟨by rw [hdec], hnotdep, hnotmod, ?_, (expand_inv s (fuel + 2) i inc).2.2, ?_, ?_⟩
  · rw [hdec]
    simp only [List.count_append, List.count_cons_self]
    rw [List.count_eq_zero.mpr hnotdep, List.count_eq_zero.mpr hnotmod]
  · intro name j hname hmod hfree
    exact expandMods_complete s fuel (stmtAt s i).defines
      (depPhase s (fuel + 1) i inc).2 name j hname hmod hfree
  · intro hmono x hx hx2
    have hfr := (expand_inv s fuel2 k inc2).fresh x hx
    have hmk := (expand_inv s (fuel + 2) i inc).marks x hx2
    have := hmono x hmk
    rw [hfr] at this
    exact absurd this (by simp)

/-- Witness for C1 at the example session: expanding statement 1 from a
fresh state yields `[0, 2, 1]` — definer 0 of the dependency `a` first
(with its recorded modifier 2 expanded after it), then statement 1. -/
theorem expand_ordering_witness :
    isIncl incNone 1 = false ∧
    ((expand sessEx (3 + 2) 1 incNone).1 =
      (depPhase sessEx (3 + 1) 1 incNone).1 ++ 1 :: (modPhase sessEx (3 + 1) 1 incNone).1 ∧
     1 ∉ (depPhase sessEx (3 + 1) 1 incNone).1 ∧
     1 ∉ (modPhase sessEx (3 + 1) 1 incNone).1 ∧
     ((expand sessEx (3 + 2) 1 incNone).1).count 1 = 1 ∧
     ((expand sessEx (3 + 2) 1 incNone).1).Nodup ∧
     (∀ name j, name ∈ (stmtAt sessEx 1).defines → j ∈ modList sessEx name →
       isIncl (depPhase sessEx (3 + 1) 1 incNone).2 j = false →
       j ∈ (modPhase sessEx (3 + 1) 1 incNone).1) ∧
     (IncMono (expand sessEx (3 + 2) 1 incNone).2 (expand sessEx (3 + 2) 1 incNone).2 →
       ∀ x ∈ (expand sessEx 3 0 (expand sessEx (3 + 2) 1 incNone).2).1,
         x ∉ (expand sessEx (3 + 2) 1 incNone).1)) ∧
    (expand sessEx (3 + 2) 1 incNone).1 = [0, 2, 1] ∧
    (depPhase sessEx (3 + 1) 1 incNone).1 = [0, 2] ∧
    (modPhase sessEx (3 + 1) 1 incNone).1 = [] :=
  ⟨rfl, expand_ordering sessEx 3 3 1 0 incNone (expand sessEx (3 + 2) 1 incNone).2 rfl,
   rfl, rfl, rfl⟩

/-- Counterexample to C3: for `export function a(){ return b(); }` the
analysis records the statement's own name `a` in `dependsOn` alongside
`b` — the self-defines exclusion does not hold (`defines` is still empty
while the read pass runs), so `dependsOn` is not `{b}`. -/
theorem checkForReads_self_dependency_cex :
    (analyse env0 exC3).map (fun r => r.dependsOn) = .ok ["a", "b"] ∧
    (analyse env0 exC3).map (fun r => r.defines) = .ok ["a"] := by
  constructor
  · simp [analyse, p1, p1List, p1Opt, p1VarDecls, p2, p2List, p2Opt, checkForReads,
    checkForWrites, addNode, addNodeArgs, smLoc, allocScope, addDeclaration, findScope,
    findDefiningScope, declaredIn, scopeAt, scopeContains, unwrapTarget, getIdName,
    idNameOrUndef, nodeType, scopeOpening, isImportDeclaration, lookupKey, setKey, addKey,
    rootScope, getLocation, getLocationFrom, declaratorName, rootCtx, plainCtx,
    Node.start, Node.stop, Except.map, Except.bind, bind, pure, Except.pure, env0, exC3]
  · simp [analyse, p1, p1List, p1Opt, p1VarDecls, p2, p2List, p2Opt, checkForReads,
    checkForWrites, addNode, addNodeArgs, smLoc, allocScope, addDeclaration, findScope,
    findDefiningScope, declaredIn, scopeAt, scopeContains, unwrapTarget, getIdName,
    idNameOrUndef, nodeType, scopeOpening, isImportDeclaration, lookupKey, setKey, addKey,
    rootScope, getLocation, getLocationFrom, declaratorName, rootCtx, plainCtx,
    Node.start, Node.stop, Except.map, Except.bind, bind, pure, Except.pure, env0, exC3]

/-- C3 as amended: during `analyse` a read is entered into `dependsOn`
exactly when it is in read position and its defining-scope lookup yields
no scope or a scope at depth 0 — the additional `!this.defines[name]`
test is evaluated against the still-empty `defines` (populated only
after the classification pass) and never excludes anything; for the
example statement this yields `dependsOn = {a, b}`, `defines = {a}`. -/
theorem checkForReads_empty_defines :
    (∀ tbl cur mods deps name s e k ctx,
      checkForReads tbl cur ⟨[], mods, deps⟩ (.Identifier name s e k) ctx =
        if (ctx.ptype == "MemberExpression" && !ctx.isObject) ||
           (ctx.ptype == "Property" && !ctx.isValue) then ⟨[], mods, deps⟩
        else if (match findScope tbl cur name with
                 | none => true
                 | some sid => (scopeAt tbl sid).depth == 0) then
          ⟨[], mods, addKey deps name⟩
        else ⟨[], mods, deps⟩) ∧
    (analyse env0 exC3).map (fun r => r.dependsOn) = .ok ["a", "b"] ∧
    (analyse env0 exC3).map (fun r => r.defines) = .ok ["a"] ∧
    (analyse env0 exC3).map (fun r => r.modifies) = .ok [] := by
  refine ⟨?_, ?_, ?_, ?_⟩
  case refine_2 => simp [analyse, p1, p1List, p1Opt, p1VarDecls, p2, p2List, p2Opt, checkForReads,
    checkForWrites, addNode, addNodeArgs, smLoc, allocScope, addDeclaration, findScope,
    findDefiningScope, declaredIn, scopeAt, scopeContains, unwrapTarget, getIdName,
    idNameOrUndef, nodeType, scopeOpening, isImportDeclaration, lookupKey, setKey, addKey,
    rootScope, getLocation, getLocationFrom, declaratorName, rootCtx, plainCtx,
    Node.start, Node.stop, Except.map, Except.bind, bind, pure, Except.pure, env0, exC3]
  case refine_3 => simp [analyse, p1, p1List, p1Opt, p1VarDecls, p2, p2List, p2Opt, checkForReads,
    checkForWrites, addNode, addNodeArgs, smLoc, allocScope, addDeclaration, findScope,
    findDefiningScope, declaredIn, scopeAt, scopeContains, unwrapTarget, getIdName,
    idNameOrUndef, nodeType, scopeOpening, isImportDeclaration, lookupKey, setKey, addKey,
    rootScope, getLocation, getLocationFrom, declaratorName, rootCtx, plainCtx,
    Node.start, Node.stop, Except.map, Except.bind, bind, pure, Except.pure, env0, exC3]
  case refine_4 => simp [analyse, p1, p1List, p1Opt, p1VarDecls, p2, p2List, p2Opt, checkForReads,
    checkForWrites, addNode, addNodeArgs, smLoc, allocScope, addDeclaration, findScope,
    findDefiningScope, declaredIn, scopeAt, scopeContains, unwrapTarget, getIdName,
    idNameOrUndef, nodeType, scopeOpening, isImportDeclaration, lookupKey, setKey, addKey,
    rootScope, getLocation, getLocationFrom, declaratorName, rootCtx, plainCtx,
    Node.start, Node.stop, Except.map, Except.bind, bind, pure, Except.pure, env0, exC3]
  intro tbl cur mods deps name s e k ctx
  by_cases hA : (ctx.ptype == "MemberExpression" && !ctx.isObject) = true
  · simp [checkForReads, hA]
  · by_cases hB : (ctx.ptype == "Property" && !ctx.isValue) = true
    · simp [checkForReads, hA, hB]
    · simp only [checkForReads, hA, hB, Bool.false_eq_true, if_false, Bool.or_self]
      simp

/-- Counterexample to C5: for the computed member access `a[b]` the index
identifier `b` is not recorded in `dependsOn` (the member test ignores
`parent.computed`), although the claim requires it to be. -/
theorem checkForReads_computed_member_cex :
    (analyse env0 exC5a).map (fun r => r.dependsOn) = .ok ["a"] ∧
    (analyse env0 exC5a).map (fun r => r.dependsOn.contains "b") = .ok false := by
  constructor
  · simp [analyse, p1, p1List, p1Opt, p1VarDecls, p2, p2List, p2Opt, checkForReads,
    checkForWrites, addNode, addNodeArgs, smLoc, allocScope, addDeclaration, findScope,
    findDefiningScope, declaredIn, scopeAt, scopeContains, unwrapTarget, getIdName,
    idNameOrUndef, nodeType, scopeOpening, isImportDeclaration, lookupKey, setKey, addKey,
    rootScope, getLocation, getLocationFrom, declaratorName, rootCtx, plainCtx,
    Node.start, Node.stop, Except.map, Except.bind, bind, pure, Except.pure, env0, exC5a]
  · simp [analyse, p1, p1List, p1Opt, p1VarDecls, p2, p2List, p2Opt, checkForReads,
    checkForWrites, addNode, addNodeArgs, smLoc, allocScope, addDeclaration, findScope,
    findDefiningScope, declaredIn, scopeAt, scopeContains, unwrapTarget, getIdName,
    idNameOrUndef, nodeType, scopeOpening, isImportDeclaration, lookupKey, setKey, addKey,
    rootScope, getLocation, getLocationFrom, declaratorName, rootCtx, plainCtx,
    Node.start, Node.stop, Except.map, Except.bind, bind, pure, Except.pure, env0, exC5a]

/-- C5 as amended: an identifier on the property side of a member access
is never a read — computed or not — and an identifier on the key side of
an object property is never a read; `a.b = 1` and `{b: a}` record no `b`,
and the index of `a[b]` is likewise not recorded. -/
theorem checkForReads_property_exclusions :
    (∀ tbl cur st name s e k c v,
      checkForReads tbl cur st (.Identifier name s e k) ⟨"MemberExpression", c, false, v⟩ = st) ∧
    (∀ tbl cur st name s e k c o,
      checkForReads tbl cur st (.Identifier name s e k) ⟨"Property", c, o, false⟩ = st) ∧
    (analyse env0 exC5b).map (fun r => (r.dependsOn, r.modifies)) = .ok (["a"], ["a"]) ∧
    (analyse env0 exC5c).map (fun r => r.dependsOn) = .ok ["a"] ∧
    (analyse env0 exC5a).map (fun r => r.dependsOn) = .ok ["a"] := by
  refine ⟨?_, ?_, ?_, ?_, ?_⟩
  case refine_3 => simp [analyse, p1, p1List, p1Opt, p1VarDecls, p2, p2List, p2Opt, checkForReads,
    checkForWrites, addNode, addNodeArgs, smLoc, allocScope, addDeclaration, findScope,
    findDefiningScope, declaredIn, scopeAt, scopeContains, unwrapTarget, getIdName,
    idNameOrUndef, nodeType, scopeOpening, isImportDeclaration, lookupKey, setKey, addKey,
    rootScope, getLocation, getLocationFrom, declaratorName, rootCtx, plainCtx,
    Node.start, Node.stop, Except.map, Except.bind, bind, pure, Except.pure, env0, exC5b]
  case refine_4 => simp [analyse, p1, p1List, p1Opt, p1VarDecls, p2, p2List, p2Opt, checkForReads,
    checkForWrites, addNode, addNodeArgs, smLoc, allocScope, addDeclaration, findScope,
    findDefiningScope, declaredIn, scopeAt, scopeContains, unwrapTarget, getIdName,
    idNameOrUndef, nodeType, scopeOpening, isImportDeclaration, lookupKey, setKey, addKey,
    rootScope, getLocation, getLocationFrom, declaratorName, rootCtx, plainCtx,
    Node.start, Node.stop, Except.map, Except.bind, bind, pure, Except.pure, env0, exC5c]
  case refine_5 => simp [analyse, p1, p1List, p1Opt, p1VarDecls, p2, p2List, p2Opt, checkForReads,
    checkForWrites, addNode, addNodeArgs, smLoc, allocScope, addDeclaration, findScope,
    findDefiningScope, declaredIn, scopeAt, scopeContains, unwrapTarget, getIdName,
    idNameOrUndef, nodeType, scopeOpening, isImportDeclaration, lookupKey, setKey, addKey,
    rootScope, getLocation, getLocationFrom, declaratorName, rootCtx, plainCtx,
    Node.start, Node.stop, Except.map, Except.bind, bind, pure, Except.pure, env0, exC5a]
  · intro tbl cur st name s e k c v
    simp [checkForReads]
  · intro tbl cur st name s e k c o
    simp [checkForReads]

/-- Counterexample to C6: with `x` an unshadowed named import, analysing
`f(x)` succeeds — the bare imported binding as a call argument raises no
illegal-reassignment error (the claim requires the depth check to apply,
which would reject depth 0 < 1) — while `x` is still recorded in
`modifies`. -/
theorem checkForWrites_call_argument_cex :
    analyse envX exC6 = .ok ⟨[rootScope], [], ["x"], ["f", "x"], [0, 0, 0, 2]⟩ ∧
    (lookupKey envX.imports "x").isSome = true ∧
    scopeContains [rootScope] 0 "x" = false := by
  refine ⟨?_, rfl, rfl⟩
  simp [analyse, p1, p1List, p1Opt, p1VarDecls, p2, p2List, p2Opt, checkForReads,
    checkForWrites, addNode, addNodeArgs, smLoc, allocScope, addDeclaration, findScope,
    findDefiningScope, declaredIn, scopeAt, scopeContains, unwrapTarget, getIdName,
    idNameOrUndef, nodeType, scopeOpening, isImportDeclaration, lookupKey, setKey, addKey,
    rootScope, getLocation, getLocationFrom, declaratorName, rootCtx, plainCtx,
    Node.start, Node.stop, Except.map, Except.bind, bind, pure, Except.pure, envX, exC6]

/-- C6 as amended: the write check covers assignment left sides and
update operands (with the import-reassignment restriction) and every call
argument (without it): a call-argument target is unwrapped through member
chains and its identifier root recorded in `modifies`, but the
minimum-depth import check is bypassed, so it never raises — `f(x)` with
`x` an unshadowed named import analyses successfully. -/
theorem checkForWrites_coverage :
    (∀ env tbl cur st l r s e,
      checkForWrites env tbl cur st (.AssignmentExpression l r s e) =
        addNode env tbl cur st l true) ∧
    (∀ env tbl cur st a s e,
      checkForWrites env tbl cur st (.UpdateExpression a s e) = addNode env tbl cur st a true) ∧
    (∀ env tbl cur st c args s e,
      checkForWrites env tbl cur st (.CallExpression c args s e) =
        addNodeArgs env tbl cur st args) ∧
    (∀ env tbl cur st t,
      addNode env tbl cur st t false =
        .ok (match getIdName (unwrapTarget t).1 with
             | some nm => { st with modifies := addKey st.modifies nm }
             | none => st)) ∧
    analyse envX exC6 = .ok ⟨[rootScope], [], ["x"], ["f", "x"], [0, 0, 0, 2]⟩ := by
  refine ⟨fun _ _ _ _ _ _ _ _ => rfl, fun _ _ _ _ _ _ _ => rfl,
    fun _ _ _ _ _ _ _ _ => rfl, ?_, ?_⟩
  case refine_2 => simp [analyse, p1, p1List, p1Opt, p1VarDecls, p2, p2List, p2Opt, checkForReads,
    checkForWrites, addNode, addNodeArgs, smLoc, allocScope, addDeclaration, findScope,
    findDefiningScope, declaredIn, scopeAt, scopeContains, unwrapTarget, getIdName,
    idNameOrUndef, nodeType, scopeOpening, isImportDeclaration, lookupKey, setKey, addKey,
    rootScope, getLocation, getLocationFrom, declaratorName, rootCtx, plainCtx,
    Node.start, Node.stop, Except.map, Except.bind, bind, pure, Except.pure, envX, exC6]
  intro env tbl cur st t
  simp only [addNode]
  cases hg : getIdName (unwrapTarget t).1 <;> simp [hg]

/-- C4: an assignment or increment/decrement whose target unwraps to an
unshadowed imported binding raises the illegal-reassignment error exactly
when the unwrap depth is below the import's minimum (1 for a
named import, 2 for a namespace import), and the error carries the module path
and the computed line/column of the root identifier; concretely, `x = 5`
errors out of `analyse` while `x.prop = 5` succeeds, and the namespace
write `ns.foo = 1` errors at line 2, column 0. -/
theorem checkForWrites_illegal_reassignment :
    (∀ env tbl cur st t rhs s e nm spec,
      getIdName (unwrapTarget t).1 = some nm →
      lookupKey env.imports nm = some spec →
      scopeContains tbl cur nm = false →
      ((unwrapTarget t).2 < (if spec.name == "*" then 2 else 1) ↔
        checkForWrites env tbl cur st (.AssignmentExpression t rhs s e) =
          .error ⟨nm, env.path,
            (getLocation env.source (unwrapTarget t).1.start).1,
            (getLocation env.source (unwrapTarget t).1.start).2⟩)) ∧
    (∀ env tbl cur st t s e nm spec,
      getIdName (unwrapTarget t).1 = some nm →
      lookupKey env.imports nm = some spec →
      scopeContains tbl cur nm = false →
      ((unwrapTarget t).2 < (if spec.name == "*" then 2 else 1) ↔
        checkForWrites env tbl cur st (.UpdateExpression t s e) =
          .error ⟨nm, env.path,
            (getLocation env.source (unwrapTarget t).1.start).1,
            (getLocation env.source (unwrapTarget t).1.start).2⟩)) ∧
    analyse envX exC4a = .error (.illegalReassignment "x" "module.js" 1 0) ∧
    analyse envX exC4b = .ok ⟨[rootScope], [], ["x"], ["x"], [0, 0, 0, 0, 2, 9]⟩ ∧
    analyse envNS exC4c = .error (.illegalReassignment "ns" "module.js" 2 0) := by
  have key : ∀ (env : ModuleEnv) tbl cur (st : P2State) t nm spec,
      getIdName (unwrapTarget t).1 = some nm →
      lookupKey env.imports nm = some spec →
      scopeContains tbl cur nm = false →
      ((unwrapTarget t).2 < (if spec.name == "*" then 2 else 1) ↔
        addNode env tbl cur st t true =
          .error ⟨nm, env.path,
            (getLocation env.source (unwrapTarget t).1.start).1,
            (getLocation env.source (unwrapTarget t).1.start).2⟩) := by
    intro env tbl cur st t nm spec h1 h2 h3
    by_cases hd : (unwrapTarget t).2 < (if spec.name = "*" then 2 else 1)
    · simp only [addNode, h1, h2, h3, beq_iff_eq, Bool.false_eq_true, if_false]
      simp [hd]
    · simp only [addNode, h1, h2, h3, beq_iff_eq, Bool.false_eq_true, if_false]
      simp [hd]
  refine ⟨fun env tbl cur st t rhs s e nm spec h1 h2 h3 => key env tbl cur st t nm spec h1 h2 h3,
    fun env tbl cur st t s e nm spec h1 h2 h3 => key env tbl cur st t nm spec h1 h2 h3,
    ?_, ?_, ?_⟩
  · simp [analyse, p1, p1List, p1Opt, p1VarDecls, p2, p2List, p2Opt, checkForReads,
    checkForWrites, addNode, addNodeArgs, smLoc, allocScope, addDeclaration, findScope,
    findDefiningScope, declaredIn, scopeAt, scopeContains, unwrapTarget, getIdName,
    idNameOrUndef, nodeType, scopeOpening, isImportDeclaration, lookupKey, setKey, addKey,
    rootScope, getLocation, getLocationFrom, declaratorName, rootCtx, plainCtx,
    Node.start, Node.stop, Except.map, Except.bind, bind, pure, Except.pure, envX, exC4a]
  · simp [analyse, p1, p1List, p1Opt, p1VarDecls, p2, p2List, p2Opt, checkForReads,
    checkForWrites, addNode, addNodeArgs, smLoc, allocScope, addDeclaration, findScope,
    findDefiningScope, declaredIn, scopeAt, scopeContains, unwrapTarget, getIdName,
    idNameOrUndef, nodeType, scopeOpening, isImportDeclaration, lookupKey, setKey, addKey,
    rootScope, getLocation, getLocationFrom, declaratorName, rootCtx, plainCtx,
    Node.start, Node.stop, Except.map, Except.bind, bind, pure, Except.pure, envX, exC4b]
  · simp [analyse, p1, p1List, p1Opt, p1VarDecls, p2, p2List, p2Opt, checkForReads,
    checkForWrites, addNode, addNodeArgs, smLoc, allocScope, addDeclaration, findScope,
    findDefiningScope, declaredIn, scopeAt, scopeContains, unwrapTarget, getIdName,
    idNameOrUndef, nodeType, scopeOpening, isImportDeclaration, lookupKey, setKey, addKey,
    rootScope, getLocation, getLocationFrom, declaratorName, rootCtx, plainCtx,
    Node.start, Node.stop, Except.map, Except.bind, bind, pure, Except.pure, envNS, exC4c]

/-- Witness for C4: the concrete target `x` of `x = 5` satisfies the
hypotheses (named import, no local shadow), and instantiating the
theorem gives the error, depth 0 being below the minimum 1. -/
theorem checkForWrites_illegal_reassignment_witness :
    getIdName (unwrapTarget (Node.Identifier "x" 0 1 false)).1 = some "x" ∧
    lookupKey envX.imports "x" = some ⟨"x"⟩ ∧
    scopeContains [rootScope] 0 "x" = false ∧
    ((unwrapTarget (Node.Identifier "x" 0 1 false)).2 <
        (if (ImportSpecifier.mk "x").name == "*" then 2 else 1) ↔
      checkForWrites envX [rootScope] 0 ⟨[], [], []⟩
          (.AssignmentExpression (.Identifier "x" 0 1 false) (.Literal 4 5) 0 5) =
        .error ⟨"x", envX.path,
          (getLocation envX.source (unwrapTarget (Node.Identifier "x" 0 1 false)).1.start).1,
          (getLocation envX.source (unwrapTarget (Node.Identifier "x" 0 1 false)).1.start).2⟩) :=
  ⟨rfl, rfl, rfl,
    checkForWrites_illegal_reassignment.1 envX [rootScope] 0 ⟨[], [], []⟩
      (.Identifier "x" 0 1 false) (.Literal 4 5) 0 5 "x" ⟨"x"⟩ rfl rfl rfl⟩

/-- `obj[k] = v` then lookup: the set key reads back `v`, other keys are
unaffected. -/
theorem lookupKey_setKey {α : Type} (m : List (String × α)) (k : String) (v : α) :
    ∀ q, lookupKey (setKey m k v) q = if q == k then some v else lookupKey m q := by
  induction m with
  | nil =>
    intro q
    by_cases h : q = k
    · subst h
      simp [setKey, lookupKey]
    · have h2 : ¬(k = q) := fun hc => h hc.symm
      simp [setKey, lookupKey, beq_iff_eq, h, h2]
  | cons p rest ih =>
    intro q
    obtain ⟨a, b⟩ := p
    by_cases h1 : a = k
    · subst h1
      by_cases h2 : q = a
      · subst h2
        simp [setKey, lookupKey]
      · have h3 : ¬(a = q) := fun hc => h2 hc.symm
        simp [setKey, lookupKey, beq_iff_eq, h2, h3]
    · by_cases h2 : q = a
      · subst h2
        simp [setKey, lookupKey, beq_iff_eq, h1]
      · have h3 : ¬(a = q) := fun hc => h2 hc.symm
        simp [setKey, lookupKey, beq_iff_eq, h1, h2, h3, ih q]

/-- Filtering an association list by a predicate on keys: a key's lookup
survives exactly when the predicate holds of it. -/
theorem lookupKey_filterKeys {α : Type} (q : String → Bool) (m : List (String × α)) :
    ∀ nm, lookupKey (m.filter (fun p => q p.1)) nm =
      if q nm then lookupKey m nm else none := by
  induction m with
  | nil =>
    intro nm
    simp [lookupKey]
  | cons p rest ih =>
    intro nm
    obtain ⟨a, b⟩ := p
    by_cases hqa : q a = true
    · by_cases h2 : a = nm
      · subst h2
        simp [List.filter, lookupKey, hqa]
      · have h3 : ¬(nm = a) := fun hc => h2 hc.symm
        simp [List.filter, lookupKey, hqa, beq_iff_eq, h2, h3, ih nm]
    · have hqa2 : q a = false := by simpa using hqa
      by_cases h2 : a = nm
      · subst h2
        simp [List.filter, lookupKey, hqa2, ih a]
      · have h3 : ¬(nm = a) := fun hc => h2 hc.symm
        simp [List.filter, lookupKey, hqa2, beq_iff_eq, h2, h3, ih nm]

/-- The deshadow loop of `scopeEnterNames`: after folding, a name on the
deshadow list reads back its `$$` form; other keys are untouched. -/
theorem lookupKey_deshadow_foldl :
    ∀ (dl : List String) (m : SMap) (nm : String),
      lookupKey (dl.foldl (fun m2 name => setKey m2 name (name ++ "$$")) m) nm =
        if dl.contains nm then some (nm ++ "$$") else lookupKey m nm
  | [], m, nm => by simp
  | d :: rest, m, nm => by
    have ih := lookupKey_deshadow_foldl rest (setKey m d (d ++ "$$")) nm
    by_cases h : nm = d
    · subst h
      by_cases hr : rest.contains nm = true
      · simp [List.foldl, ih, hr, lookupKey_setKey]
      · have hrf : rest.contains nm = false := by simpa using hr
        simp [List.foldl, ih, hrf, lookupKey_setKey]
    · by_cases hr : rest.contains nm = true
      · have hr2 : nm ∈ rest := by simpa using hr
        simp [List.foldl, ih, hr, hr2, List.contains_cons, lookupKey_setKey]
      · have hrf : rest.contains nm = false := by simpa using hr
        have hne : ¬(nm = d) := h
        simp [List.foldl, ih, hrf, lookupKey_setKey, beq_iff_eq, hne, List.contains_cons]

/-- Counterexample to C7: with the rename `{foo ↦ bundle.foo}`, the
deshadow root `bundle` is remapped to `bundle$$` inside the nested
function of `foo(function f() { bundle; foo; })` although neither nested
scope re-declares `bundle` — the inner occurrence of `bundle` is
rewritten to `bundle$$` — whereas the claim allows the remap only for a
scope that locally re-declares the root. -/
theorem replaceIdentifiers_deshadow_cex :
    tblOf env0 exC7 = tblC7 ∧
    declaredIn tblC7 1 "bundle" = false ∧
    declaredIn tblC7 2 "bundle" = false ∧
    (replaceIdentifiers tblC7 insAlways [("foo", "bundle.foo")] [] exC7).map
        (fun p => p.1) =
      .ok [.overwrite 0 3 "bundle.foo", .overwrite 19 25 "bundle$$",
           .overwrite 27 30 "bundle.foo"] := by
  refine ⟨?_, rfl, rfl, ?_⟩
  · simp [analyse, p1, p1List, p1Opt, p1VarDecls, p2, p2List, p2Opt, checkForReads,
      checkForWrites, addNode, addNodeArgs, smLoc, allocScope, addDeclaration, findScope,
      findDefiningScope, declaredIn, scopeAt, scopeContains, unwrapTarget, getIdName,
      idNameOrUndef, nodeType, scopeOpening, isImportDeclaration, lookupKey, setKey, addKey,
      rootScope, rootCtx, plainCtx, Node.start, Node.stop, Except.map, Except.bind, bind,
      pure, Except.pure, tblOf, env0, exC7, tblC7]
  · simp [replaceIdentifiers, rep, repVarDeclTop, repList, repOpt, scopeEnterNames, repIdent, skipFlag,
      markSkip, scopeCount, scopeCountList, scopeCountOpt, exportInitText, firstDotSegment,
      declaredIn, scopeAt, lookupKey, setKey, tblC7, insAlways, nodeType, scopeOpening,
      Node.start, Node.stop, Except.map, Except.bind, bind, pure, Except.pure, exC7,
      rootCtx, plainCtx, idNameOrUndef, getIdName, rootScope]

/-- C7 as amended: on entering a scope-tagged node, names the scope
re-declares are dropped from the active mapping (occurrences inside the
shadow are left untouched while occurrences outside are rewritten) and
names it does not re-declare are kept; but every deshadow-candidate root
name is remapped to its `$$`-suffixed form in every entered scope,
whether or not that scope re-declares it (the redeclaration test applies
a bitwise NOT to the declaration entry, which is truthy for present and
absent entries alike); the subtree is skipped exactly when the resulting
mapping is empty. -/
theorem replaceIdentifiers_scope_names :
    (∀ tbl sid (names : SMap) dl nm, declaredIn tbl sid nm = true →
      dl.contains nm = false →
      lookupKey (scopeEnterNames tbl sid names dl) nm = none) ∧
    (∀ tbl sid (names : SMap) dl nm, declaredIn tbl sid nm = false →
      dl.contains nm = false →
      lookupKey (scopeEnterNames tbl sid names dl) nm = lookupKey names nm) ∧
    (∀ tbl sid (names : SMap) dl nm, dl.contains nm = true →
      lookupKey (scopeEnterNames tbl sid names dl) nm = some (nm ++ "$$")) ∧
    (∀ E (names : SMap) n ctx st, scopeOpening n = true →
      scopeEnterNames E.tbl st.nextId names E.deshadowList = [] →
      rep E names n ctx st =
        .ok ({ st with topLevel := false, nextId := st.nextId + scopeCount n }, n)) ∧
    tblOf env0 exC7s = tblC7s ∧
    declaredIn tblC7s 1 "foo" = true ∧
    (replaceIdentifiers tblC7s insAlways [("foo", "bundle.foo")] [] exC7s).map
        (fun p => p.1) = .ok [.overwrite 0 3 "bundle.foo"] := by
  refine ⟨?_, ?_, ?_, ?_, ?_, rfl, ?_⟩
  · intro tbl sid names dl nm hdecl hdl
    have hdl2 : nm ∉ dl := by simpa using hdl
    have hfk := lookupKey_filterKeys (fun s => !declaredIn tbl sid s) names nm
    simp only [hdecl] at hfk
    simp [scopeEnterNames, lookupKey_deshadow_foldl, hdl2, hfk]
  · intro tbl sid names dl nm hdecl hdl
    have hdl2 : nm ∉ dl := by simpa using hdl
    have hfk := lookupKey_filterKeys (fun s => !declaredIn tbl sid s) names nm
    simp only [hdecl] at hfk
    simp [scopeEnterNames, lookupKey_deshadow_foldl, hdl2, hfk]
  · intro tbl sid names dl nm hdl
    have hdl2 : nm ∈ dl := by simpa using hdl
    simp [scopeEnterNames, lookupKey_deshadow_foldl, hdl2]
  · intro E names n ctx st hso hempty
    cases n
    case FunctionDeclaration => simp [rep, skipFlag, hempty]
    case FunctionExpression => simp [rep, skipFlag, hempty]
    case ArrowFunctionExpression => simp [rep, skipFlag, hempty]
    case BlockStatement => simp [rep, skipFlag, hempty]
    case CatchClause => simp [rep, skipFlag, hempty]
    all_goals simp [scopeOpening] at hso
  · simp [analyse, p1, p1List, p1Opt, p1VarDecls, p2, p2List, p2Opt, checkForReads,
      checkForWrites, addNode, addNodeArgs, smLoc, allocScope, addDeclaration, findScope,
      findDefiningScope, declaredIn, scopeAt, scopeContains, unwrapTarget, getIdName,
      idNameOrUndef, nodeType, scopeOpening, isImportDeclaration, lookupKey, setKey, addKey,
      rootScope, rootCtx, plainCtx, Node.start, Node.stop, Except.map, Except.bind, bind,
      pure, Except.pure, tblOf, env0, exC7s, tblC7s]
  · simp [replaceIdentifiers, rep, repVarDeclTop, repList, repOpt, scopeEnterNames, repIdent, skipFlag,
      markSkip, scopeCount, scopeCountList, scopeCountOpt, exportInitText, firstDotSegment,
      declaredIn, scopeAt, lookupKey, setKey, tblC7s, insAlways, nodeType, scopeOpening,
      Node.start, Node.stop, Except.map, Except.bind, bind, pure, Except.pure, exC7s,
      rootCtx, plainCtx, idNameOrUndef, getIdName, rootScope]

/-- Witness for C7 as amended: at the example scope tables, the shadowed
`foo` is dropped inside the scope that re-declares it, kept where it is
not re-declared, `bundle` is remapped to `bundle$$` without any
re-declaration, and an empty resulting mapping makes the walk skip a
block subtree. -/
theorem replaceIdentifiers_scope_names_witness :
    (declaredIn tblC7s 1 "foo" = true ∧ (["bundle"].contains "foo") = false ∧
      lookupKey (scopeEnterNames tblC7s 1 [("foo", "bundle.foo")] ["bundle"]) "foo" =
        none) ∧
    (declaredIn tblC7 1 "foo" = false ∧
      lookupKey (scopeEnterNames tblC7 1 [("foo", "bundle.foo")] ["bundle"]) "foo" =
        lookupKey [("foo", "bundle.foo")] "foo") ∧
    ((["bundle"].contains "bundle") = true ∧
      lookupKey (scopeEnterNames tblC7 1 [("foo", "bundle.foo")] ["bundle"]) "bundle" =
        some ("bundle" ++ "$$")) ∧
    (scopeOpening (Node.BlockStatement [] 0 2) = true ∧
      scopeEnterNames tblC8 1 [] ([] : List String) = [] ∧
      rep ⟨tblC8, [("x", "exports.x")], [], insAlways⟩ [] (.BlockStatement [] 0 2)
          rootCtx ⟨[], false, 1⟩ =
        .ok (⟨[], false, 1 + scopeCount (.BlockStatement [] 0 2)⟩,
          .BlockStatement [] 0 2)) :=
  ⟨⟨rfl, rfl, replaceIdentifiers_scope_names.1 tblC7s 1 [("foo", "bundle.foo")]
      ["bundle"] "foo" rfl rfl⟩,
   ⟨rfl, replaceIdentifiers_scope_names.2.1 tblC7 1 [("foo", "bundle.foo")]
      ["bundle"] "foo" rfl rfl⟩,
   ⟨rfl, replaceIdentifiers_scope_names.2.2.1 tblC7 1 [("foo", "bundle.foo")]
      ["bundle"] "bundle" rfl⟩,
   ⟨rfl, rfl, replaceIdentifiers_scope_names.2.2.2.1
      ⟨tblC8, [("x", "exports.x")], [], insAlways⟩ [] (.BlockStatement [] 0 2)
      rootCtx ⟨[], false, 1⟩ rfl rfl⟩⟩

/-- Inversion of a successful `Except` bind. -/
theorem bindOk {ε α β : Type} {x : Except ε α} {f : α → Except ε β} {r : β}
    (h : (x >>= f) = .ok r) : ∃ a, x = .ok a ∧ f a = .ok r := by
  cases x with
  | error e =>
    exact absurd h (by simp [Bind.bind, Except.bind])
  | ok a =>
    refine ⟨a, rfl, ?_⟩
    simpa [Bind.bind, Except.bind] using h

/-- The identifier-rewrite step appends at most one edit to the trace. -/
theorem repIdent_trace (names : SMap) (n : Node) (ctx : PCtx) (st : RepState) :
    ∃ tr, (repIdent names n ctx st).trace = st.trace ++ tr := by
  cases n <;> simp only [repIdent]
  case Identifier nm s e fl =>
    by_cases h1 : (ctx.ptype == "MemberExpression" && !ctx.computed && !ctx.isObject) = true
    · exact ⟨[], by simp [h1]⟩
    · by_cases h2 : (ctx.ptype == "Property" && !ctx.isValue) = true
      · exact ⟨[], by simp [h1, h2]⟩
      · cases hx : lookupKey names nm with
        | none => exact ⟨[], by simp [h1, h2, hx]⟩
        | some repl =>
          by_cases h3 : (repl != nm) = true
          · exact ⟨[.overwrite s e repl], by simp [h1, h2, hx, h3]⟩
          · exact ⟨[], by simp [h1, h2, hx, h3]⟩
  all_goals exact ⟨[], by simp⟩

mutual

/-- The walk only ever appends edits to the cloned buffer's trace. -/
theorem rep_trace : ∀ (n : Node) (E : RepEnv) (names : SMap) (ctx : PCtx) (st : RepState) r,
    rep E names n ctx st = .ok r → ∃ tr, r.1.trace = st.trace ++ tr
  | .Identifier nm s e fl => by
    intro E names ctx st r h
    simp only [rep, skipFlag] at h
    by_cases hf : fl = true
    · rw [if_pos hf] at h
      cases h
      exact ⟨[], by simp⟩
    · rw [if_neg hf] at h
      cases h
      exact repIdent_trace names _ ctx st
  | .Literal s e => by
    intro E names ctx st r h
    simp only [rep, skipFlag, Bool.false_eq_true, if_false] at h
    cases h
    exact ⟨[], by simp⟩
  | .MemberExpression o p c s e => by
    intro E names ctx st r h
    simp only [rep, skipFlag, Bool.false_eq_true, if_false] at h
    obtain ⟨⟨st2, o2⟩, ho, h⟩ := bindOk h
    obtain ⟨⟨st3, p2x⟩, hp, h⟩ := bindOk h
    simp only [Except.ok.injEq] at h
    subst h
    obtain ⟨t1, ht1⟩ := rep_trace o E names _ st _ ho
    obtain ⟨t2, ht2⟩ := rep_trace p E names _ st2 _ hp
    dsimp only at ht1 ht2
    exact ⟨t1 ++ t2, by simp [ht2, ht1]⟩
  | .ObjectExpression props s e => by
    intro E names ctx st r h
    simp only [rep, skipFlag, Bool.false_eq_true, if_false] at h
    obtain ⟨⟨st2, props2⟩, hp, h⟩ := bindOk h
    simp only [Except.ok.injEq] at h
    subst h
    obtain ⟨t1, ht1⟩ := repList_trace props E names _ st _ hp
    dsimp only at ht1
    exact ⟨t1, by simp [ht1]⟩
  | .Property k v s e => by
    intro E names ctx st r h
    simp only [rep, skipFlag, Bool.false_eq_true, if_false] at h
    obtain ⟨⟨st2, k2⟩, hk, h⟩ := bindOk h
    obtain ⟨⟨st3, v2⟩, hv, h⟩ := bindOk h
    simp only [Except.ok.injEq] at h
    subst h
    obtain ⟨t1, ht1⟩ := rep_trace k E names _ st _ hk
    obtain ⟨t2, ht2⟩ := rep_trace v E names _ st2 _ hv
    dsimp only at ht1 ht2
    exact ⟨t1 ++ t2, by simp [ht2, ht1]⟩
  | .AssignmentExpression l rr s e => by
    intro E names ctx st r h
    simp only [rep, skipFlag, Bool.false_eq_true, if_false] at h
    obtain ⟨⟨st2, l2⟩, hl, h⟩ := bindOk h
    obtain ⟨⟨st3, r2⟩, hr, h⟩ := bindOk h
    simp only [Except.ok.injEq] at h
    subst h
    obtain ⟨t1, ht1⟩ := rep_trace l E names _ st _ hl
    obtain ⟨t2, ht2⟩ := rep_trace rr E names _ st2 _ hr
    dsimp only at ht1 ht2
    exact ⟨t1 ++ t2, by simp [ht2, ht1]⟩
  | .UpdateExpression a s e => by
    intro E names ctx st r h
    simp only [rep, skipFlag, Bool.false_eq_true, if_false] at h
    obtain ⟨⟨st2, a2⟩, ha, h⟩ := bindOk h
    simp only [Except.ok.injEq] at h
    subst h
    obtain ⟨t1, ht1⟩ := rep_trace a E names _ st _ ha
    dsimp only at ht1
    exact ⟨t1, by simp [ht1]⟩
  | .CallExpression c args s e => by
    intro E names ctx st r h
    simp only [rep, skipFlag, Bool.false_eq_true, if_false] at h
    obtain ⟨⟨st2, c2⟩, hc, h⟩ := bindOk h
    obtain ⟨⟨st3, args2⟩, ha, h⟩ := bindOk h
    simp only [Except.ok.injEq] at h
    subst h
    obtain ⟨t1, ht1⟩ := rep_trace c E names _ st _ hc
    obtain ⟨t2, ht2⟩ := repList_trace args E names _ st2 _ ha
    dsimp only at ht1 ht2
    exact ⟨t1 ++ t2, by simp [ht2, ht1]⟩
  | .ExpressionStatement x s e => by
    intro E names ctx st r h
    simp only [rep, skipFlag, Bool.false_eq_true, if_false] at h
    obtain ⟨⟨st2, x2⟩, hx, h⟩ := bindOk h
    simp only [Except.ok.injEq] at h
    subst h
    obtain ⟨t1, ht1⟩ := rep_trace x E names _ st _ hx
    dsimp only at ht1
    exact ⟨t1, by simp [ht1]⟩
  | .ReturnStatement a s e => by
    intro E names ctx st r h
    simp only [rep, skipFlag, Bool.false_eq_true, if_false] at h
    obtain ⟨⟨st2, a2⟩, ha, h⟩ := bindOk h
    simp only [Except.ok.injEq] at h
    subst h
    obtain ⟨t1, ht1⟩ := repOpt_trace a E names _ st _ ha
    dsimp only at ht1
    exact ⟨t1, by simp [ht1]⟩
  | .FunctionDeclaration id params body s e => by
    intro E names ctx st r h
    simp only [rep, skipFlag, Bool.false_eq_true, if_false] at h
    split at h
    · cases h
      exact ⟨[], by simp⟩
    · obtain ⟨⟨st2, id2⟩, hi, h⟩ := bindOk h
      obtain ⟨⟨st3, params2⟩, hp, h⟩ := bindOk h
      obtain ⟨⟨st4, body2⟩, hb, h⟩ := bindOk h
      simp only [Except.ok.injEq] at h
      subst h
      obtain ⟨t1, ht1⟩ := repOpt_trace id E _ _ _ _ hi
      obtain ⟨t2, ht2⟩ := repList_trace params E _ _ st2 _ hp
      obtain ⟨t3, ht3⟩ := rep_trace body E _ _ st3 _ hb
      dsimp only at ht1 ht2 ht3
      exact ⟨t1 ++ t2 ++ t3, by simp [ht3, ht2, ht1]⟩
  | .FunctionExpression id params body s e => by
    intro E names ctx st r h
    simp only [rep, skipFlag, Bool.false_eq_true, if_false] at h
    split at h
    · cases h
      exact ⟨[], by simp⟩
    · obtain ⟨⟨st2, id2⟩, hi, h⟩ := bindOk h
      obtain ⟨⟨st3, params2⟩, hp, h⟩ := bindOk h
      obtain ⟨⟨st4, body2⟩, hb, h⟩ := bindOk h
      simp only [Except.ok.injEq] at h
      subst h
      obtain ⟨t1, ht1⟩ := repOpt_trace id E _ _ _ _ hi
      obtain ⟨t2, ht2⟩ := repList_trace params E _ _ st2 _ hp
      obtain ⟨t3, ht3⟩ := rep_trace body E _ _ st3 _ hb
      dsimp only at ht1 ht2 ht3
      exact ⟨t1 ++ t2 ++ t3, by simp [ht3, ht2, ht1]⟩
  | .ArrowFunctionExpression params body s e => by
    intro E names ctx st r h
    simp only [rep, skipFlag, Bool.false_eq_true, if_false] at h
    split at h
    · cases h
      exact ⟨[], by simp⟩
    · obtain ⟨⟨st2, params2⟩, hp, h⟩ := bindOk h
      obtain ⟨⟨st3, body2⟩, hb, h⟩ := bindOk h
      simp only [Except.ok.injEq] at h
      subst h
      obtain ⟨t1, ht1⟩ := repList_trace params E _ _ _ _ hp
      obtain ⟨t2, ht2⟩ := rep_trace body E _ _ st2 _ hb
      dsimp only at ht1 ht2
      exact ⟨t1 ++ t2, by simp [ht2, ht1]⟩
  | .BlockStatement body s e => by
    intro E names ctx st r h
    simp only [rep, skipFlag, Bool.false_eq_true, if_false] at h
    split at h
    · cases h
      exact ⟨[], by simp⟩
    · obtain ⟨⟨st2, body2⟩, hb, h⟩ := bindOk h
      simp only [Except.ok.injEq] at h
      subst h
      obtain ⟨t1, ht1⟩ := repList_trace body E _ _ _ _ hb
      dsimp only at ht1
      exact ⟨t1, by simp [ht1]⟩
  | .CatchClause param body s e => by
    intro E names ctx st r h
    simp only [rep, skipFlag, Bool.false_eq_true, if_false] at h
    split at h
    · cases h
      exact ⟨[], by simp⟩
    · obtain ⟨⟨st2, param2⟩, hp, h⟩ := bindOk h
      obtain ⟨⟨st3, body2⟩, hb, h⟩ := bindOk h
      simp only [Except.ok.injEq] at h
      subst h
      obtain ⟨t1, ht1⟩ := rep_trace param E _ _ _ _ hp
      obtain ⟨t2, ht2⟩ := rep_trace body E _ _ st2 _ hb
      dsimp only at ht1 ht2
      exact ⟨t1 ++ t2, by simp [ht2, ht1]⟩
  | .TryStatement blk handler s e => by
    intro E names ctx st r h
    simp only [rep, skipFlag, Bool.false_eq_true, if_false] at h
    obtain ⟨⟨st2, blk2⟩, hb, h⟩ := bindOk h
    obtain ⟨⟨st3, handler2⟩, hh, h⟩ := bindOk h
    simp only [Except.ok.injEq] at h
    subst h
    obtain ⟨t1, ht1⟩ := rep_trace blk E names _ st _ hb
    obtain ⟨t2, ht2⟩ := repOpt_trace handler E names _ st2 _ hh
    dsimp only at ht1 ht2
    exact ⟨t1 ++ t2, by simp [ht2, ht1]⟩
  | .VariableDeclaration kind decls s e => by
    intro E names ctx st r h
    simp only [rep, skipFlag, Bool.false_eq_true, if_false] at h
    by_cases hTop : st.topLevel = true
    · rw [if_pos hTop] at h
      exact repVarDeclTop_trace decls E names kind s e st r h
    · rw [if_neg hTop] at h
      obtain ⟨⟨st2, decls2⟩, hd, h⟩ := bindOk h
      simp only [Except.ok.injEq] at h
      subst h
      obtain ⟨t1, ht1⟩ := repList_trace decls E names _ st _ hd
      dsimp only at ht1
      exact ⟨t1, by simp [ht1]⟩
  | .VariableDeclarator did dinit s e => by
    intro E names ctx st r h
    simp only [rep, skipFlag, Bool.false_eq_true, if_false] at h
    obtain ⟨⟨st2, did2⟩, hd, h⟩ := bindOk h
    obtain ⟨⟨st3, dinit2⟩, hi, h⟩ := bindOk h
    simp only [Except.ok.injEq] at h
    subst h
    obtain ⟨t1, ht1⟩ := rep_trace did E names _ st _ hd
    obtain ⟨t2, ht2⟩ := repOpt_trace dinit E names _ st2 _ hi
    dsimp only at ht1 ht2
    exact ⟨t1 ++ t2, by simp [ht2, ht1]⟩
  | .ClassDeclaration id s e => by
    intro E names ctx st r h
    simp only [rep, skipFlag, Bool.false_eq_true, if_false] at h
    obtain ⟨⟨st2, id2⟩, hi, h⟩ := bindOk h
    simp only [Except.ok.injEq] at h
    subst h
    obtain ⟨t1, ht1⟩ := repOpt_trace id E names _ st _ hi
    dsimp only at ht1
    exact ⟨t1, by simp [ht1]⟩
  | .ImportDeclaration s e => by
    intro E names ctx st r h
    simp only [rep, skipFlag, Bool.false_eq_true, if_false] at h
    cases h
    exact ⟨[], by simp⟩
  | .ExportNamedDeclaration d s e => by
    intro E names ctx st r h
    simp only [rep, skipFlag, Bool.false_eq_true, if_false] at h
    obtain ⟨⟨st2, d2⟩, hd, h⟩ := bindOk h
    simp only [Except.ok.injEq] at h
    subst h
    obtain ⟨t1, ht1⟩ := repOpt_trace d E names _ st _ hd
    dsimp only at ht1
    exact ⟨t1, by simp [ht1]⟩

/-- Trace extension for the top-level variable-declaration case. -/
theorem repVarDeclTop_trace : ∀ (decls : List Node) (E : RepEnv) (names : SMap)
    (kind : String) (s e : Nat) (st : RepState) r,
    repVarDeclTop E names kind decls s e st = .ok r → ∃ tr, r.1.trace = st.trace ++ tr
  | [] => by
    intro E names kind s e st r h
    exact absurd h (by simp [repVarDeclTop])
  | .VariableDeclarator d0id d0init ds de :: rest => by
    intro E names kind s e st r h
    simp only [repVarDeclTop] at h
    split at h
    · rename_i target htarget
      obtain ⟨⟨st2, d0init2⟩, hi, h⟩ := bindOk h
      obtain ⟨⟨st3, rest2⟩, hr, h⟩ := bindOk h
      simp only [Except.ok.injEq] at h
      subst h
      obtain ⟨t1, ht1⟩ := repOpt_trace d0init E names _ _ _ hi
      obtain ⟨t2, ht2⟩ := repList_trace rest E names _ st2 _ hr
      dsimp only at ht1 ht2
      exact ⟨Edit.overwrite s d0id.stop target :: (t1 ++ t2), by simp [ht2, ht1]⟩
    · split at h
      · exact absurd h (by simp)
      · rename_i txt htxt
        obtain ⟨⟨st2, did2⟩, hd, h⟩ := bindOk h
        obtain ⟨⟨st3, dinit2⟩, hi, h⟩ := bindOk h
        obtain ⟨⟨st4, rest2⟩, hr, h⟩ := bindOk h
        simp only [Except.ok.injEq] at h
        subst h
        obtain ⟨t1, ht1⟩ := rep_trace d0id E names _ _ _ hd
        obtain ⟨t2, ht2⟩ := repOpt_trace d0init E names _ st2 _ hi
        obtain ⟨t3, ht3⟩ := repList_trace rest E names _ st3 _ hr
        by_cases hIns : E.canInsertAt e = true
        · dsimp only at ht1 ht2 ht3
          rw [if_pos hIns] at ht1
          exact ⟨Edit.insertAt e txt :: (t1 ++ t2 ++ t3), by simp [ht3, ht2, ht1]⟩
        · dsimp only at ht1 ht2 ht3
          rw [if_neg hIns] at ht1
          exact ⟨Edit.append txt :: (t1 ++ t2 ++ t3), by simp [ht3, ht2, ht1]⟩
  | .Identifier a b c d :: rest => by
    intro E names kind s e st r h
    exact absurd h (by simp [repVarDeclTop])
  | .Literal a b :: rest => by
    intro E names kind s e st r h
    exact absurd h (by simp [repVarDeclTop])
  | .MemberExpression a b c d f :: rest => by
    intro E names kind s e st r h
    exact absurd h (by simp [repVarDeclTop])
  | .ObjectExpression a b c :: rest => by
    intro E names kind s e st r h
    exact absurd h (by simp [repVarDeclTop])
  | .Property a b c d :: rest => by
    intro E names kind s e st r h
    exact absurd h (by simp [repVarDeclTop])
  | .AssignmentExpression a b c d :: rest => by
    intro E names kind s e st r h
    exact absurd h (by simp [repVarDeclTop])
  | .UpdateExpression a b c :: rest => by
    intro E names kind s e st r h
    exact absurd h (by simp [repVarDeclTop])
  | .CallExpression a b c d :: rest => by
    intro E names kind s e st r h
    exact absurd h (by simp [repVarDeclTop])
  | .ExpressionStatement a b c :: rest => by
    intro E names kind s e st r h
    exact absurd h (by simp [repVarDeclTop])
  | .ReturnStatement a b c :: rest => by
    intro E names kind s e st r h
    exact absurd h (by simp [repVarDeclTop])
  | .FunctionDeclaration a b c d f :: rest => by
    intro E names kind s e st r h
    exact absurd h (by simp [repVarDeclTop])
  | .FunctionExpression a b c d f :: rest => by
    intro E names kind s e st r h
    exact absurd h (by simp [repVarDeclTop])
  | .ArrowFunctionExpression a b c d :: rest => by
    intro E names kind s e st r h
    exact absurd h (by simp [repVarDeclTop])
  | .BlockStatement a b c :: rest => by
    intro E names kind s e st r h
    exact absurd h (by simp [repVarDeclTop])
  | .CatchClause a b c d :: rest => by
    intro E names kind s e st r h
    exact absurd h (by simp [repVarDeclTop])
  | .TryStatement a b c d :: rest => by
    intro E names kind s e st r h
    exact absurd h (by simp [repVarDeclTop])
  | .VariableDeclaration a b c d :: rest => by
    intro E names kind s e st r h
    exact absurd h (by simp [repVarDeclTop])
  | .ClassDeclaration a b c :: rest => by
    intro E names kind s e st r h
    exact absurd h (by simp [repVarDeclTop])
  | .ImportDeclaration a b :: rest => by
    intro E names kind s e st r h
    exact absurd h (by simp [repVarDeclTop])
  | .ExportNamedDeclaration a b c :: rest => by
    intro E names kind s e st r h
    exact absurd h (by simp [repVarDeclTop])

theorem repList_trace : ∀ (ns : List Node) (E : RepEnv) (names : SMap) (ctx : PCtx)
    (st : RepState) r,
    repList E names ns ctx st = .ok r → ∃ tr, r.1.trace = st.trace ++ tr
  | [] => by
    intro E names ctx st r h
    simp only [repList] at h
    cases h
    exact ⟨[], by simp⟩
  | n :: rest => by
    intro E names ctx st r h
    simp only [repList] at h
    obtain ⟨⟨st2, n2⟩, hn, h⟩ := bindOk h
    obtain ⟨⟨st3, rest2⟩, hr, h⟩ := bindOk h
    simp only [Except.ok.injEq] at h
    subst h
    obtain ⟨t1, ht1⟩ := rep_trace n E names _ st _ hn
    obtain ⟨t2, ht2⟩ := repList_trace rest E names _ st2 _ hr
    dsimp only at ht1 ht2
    exact ⟨t1 ++ t2, by simp [ht2, ht1]⟩

theorem repOpt_trace : ∀ (n : Option Node) (E : RepEnv) (names : SMap) (ctx : PCtx)
    (st : RepState) r,
    repOpt E names n ctx st = .ok r → ∃ tr, r.1.trace = st.trace ++ tr
  | none => by
    intro E names ctx st r h
    simp only [repOpt] at h
    cases h
    exact ⟨[], by simp⟩
  | some n => by
    intro E names ctx st r h
    simp only [repOpt] at h
    obtain ⟨⟨st2, n2⟩, hn, h⟩ := bindOk h
    simp only [Except.ok.injEq] at h
    subst h
    obtain ⟨t1, ht1⟩ := rep_trace n E names _ st _ hn
    dsimp only at ht1
    exact ⟨t1, by simp [ht1]⟩

end

/-- `foldl (++)` over strings pulls the seed out front. -/
theorem stringFoldl_append : ∀ (l : List String) (x y : String),
    l.foldl (fun r s => r ++ s) (x ++ y) = x ++ l.foldl (fun r s => r ++ s) y
  | [], _, _ => rfl
  | a :: l, x, y => by
    simp only [List.foldl_cons]
    rw [String.append_assoc]
    exact stringFoldl_append l x (y ++ a)

/-- `String.join` distributes over cons. -/
theorem stringJoin_cons (a : String) (l : List String) :
    String.join (a :: l) = a ++ String.join l := by
  simp only [String.join, List.foldl_cons]
  have h := stringFoldl_append l a ""
  simpa using h

/-- On a list of declarators, the recursive `exportInitText` computes
exactly the declarative map/filter/map/join pipeline of lines 274-278. -/
theorem exportInitText_pipeline : ∀ (be : SMap) (ds : List Node),
    ds.all isDeclarator = true →
    exportInitText be ds = .ok (exportInitPipeline be (ds.map declaratorNameD))
  | _, [] => by
    intro _
    simp [exportInitText, exportInitPipeline, String.join]
  | be, d :: rest => by
    intro h
    simp only [List.all_cons, Bool.and_eq_true] at h
    obtain ⟨hd, hrest⟩ := h
    match d, hd with
    | .VariableDeclarator did dinit dds dde, _ =>
      have ih := exportInitText_pipeline be rest hrest
      simp only [exportInitText, ih, List.map_cons, declaratorNameD, exportInitPipeline]
      cases hx : lookupKey be (idNameOrUndef did) with
      | some target => simp [hx, List.filter_cons, stringJoin_cons]
      | none => simp [hx, List.filter_cons]

/-- C9: in `replaceIdentifiers`, a top-level variable declaration with
exactly one declarator whose bound name is in `bundleExports` has the
range from the declaration start to the end of the declarator's binding
name overwritten with the export target (the binding is marked and its
identifier not otherwise rewritten); for every other top-level variable
declaration the export-initialiser text — one `\n<target> = <name>;`
assignment per declared name present in `bundleExports` — is inserted at
the declaration end, falling back to appending at the buffer end when
insertion at that offset fails. -/
theorem replaceIdentifiers_export_rewrite :
    (∀ E (names : SMap) kind d0id d0init ds de s e (st : RepState) target ctx,
      st.topLevel = true →
      lookupKey E.bundleExports (idNameOrUndef d0id) = some target →
      rep E names (.VariableDeclaration kind [.VariableDeclarator d0id d0init ds de] s e)
          ctx st =
        (repOpt E names d0init (plainCtx ("VariableDeclarator"))
            { st with trace := st.trace ++ [.overwrite s d0id.stop target] }).map
          (fun p => (p.1, .VariableDeclaration kind
            [.VariableDeclarator (markSkip d0id) p.2 ds de] s e))) ∧
    (∀ E (names : SMap) kind d0id d0init ds de rest s e (st : RepState) r txt ctx,
      st.topLevel = true →
      (if rest.isEmpty then lookupKey E.bundleExports (idNameOrUndef d0id) else none) =
        none →
      exportInitText E.bundleExports (.VariableDeclarator d0id d0init ds de :: rest) =
        .ok txt →
      rep E names (.VariableDeclaration kind
          (.VariableDeclarator d0id d0init ds de :: rest) s e) ctx st = .ok r →
      ∃ tr2, r.1.trace = st.trace ++
        (if E.canInsertAt e then Edit.insertAt e txt else Edit.append txt) :: tr2) ∧
    (∀ (be : SMap) (dcls : List Node), dcls.all isDeclarator = true →
      exportInitText be dcls = .ok (exportInitPipeline be (dcls.map declaratorNameD))) ∧
    tblOf env0 exC8 = tblC8 ∧
    (replaceIdentifiers tblC8 insAlways [] [("x", "exports.x")] exC8).map (fun p => p.1) =
      .ok [.overwrite 0 5 "exports.x"] ∧
    tblOf env0 exC9 = tblC9 ∧
    (replaceIdentifiers tblC9 insAlways [] [("b", "exports.b")] exC9).map (fun p => p.1) =
      .ok [.insertAt 16 "\nexports.b = b;"] ∧
    (replaceIdentifiers tblC9 insNever [] [("b", "exports.b")] exC9).map (fun p => p.1) =
      .ok [.append "\nexports.b = b;"] := by
  refine ⟨?_, ?_, exportInitText_pipeline, ?_, ?_, ?_, ?_, ?_⟩
  · intro E names kind d0id d0init ds de s e st target ctx hTop hx
    simp only [rep, skipFlag, Bool.false_eq_true, if_false]
    rw [if_pos hTop]
    cases hrep : repOpt E names d0init (plainCtx ("VariableDeclarator"))
        { st with trace := st.trace ++ [.overwrite s d0id.stop target] } with
    | error err =>
      simp [repVarDeclTop, hx, hrep, Except.map, Bind.bind, Except.bind, repList]
    | ok p =>
      obtain ⟨p1, p2⟩ := p
      simp [repVarDeclTop, hx, hrep, Except.map, Bind.bind, Except.bind, repList]
  · intro E names kind d0id d0init ds de rest s e st r txt ctx hTop hnone htxt h
    simp only [rep, skipFlag, Bool.false_eq_true, if_false] at h
    rw [if_pos hTop] at h
    simp only [repVarDeclTop, hnone, htxt] at h
    obtain ⟨⟨st2, did2⟩, hd, h⟩ := bindOk h
    obtain ⟨⟨st3, dinit2⟩, hi, h⟩ := bindOk h
    obtain ⟨⟨st4, rest2⟩, hr, h⟩ := bindOk h
    simp only [Except.ok.injEq] at h
    subst h
    obtain ⟨t1, ht1⟩ := rep_trace d0id E names _ _ _ hd
    obtain ⟨t2, ht2⟩ := repOpt_trace d0init E names _ st2 _ hi
    obtain ⟨t3, ht3⟩ := repList_trace rest E names _ st3 _ hr
    by_cases hIns : E.canInsertAt e = true
    · dsimp only at ht1 ht2 ht3
      rw [if_pos hIns] at ht1
      refine ⟨t1 ++ t2 ++ t3, ?_⟩
      simp [hIns, ht3, ht2, ht1]
    · dsimp only at ht1 ht2 ht3
      rw [if_neg hIns] at ht1
      refine ⟨t1 ++ t2 ++ t3, ?_⟩
      simp [hIns, ht3, ht2, ht1]
  · simp [analyse, p1, p1List, p1Opt, p1VarDecls, p2, p2List, p2Opt, checkForReads,
      checkForWrites, addNode, addNodeArgs, smLoc, allocScope, addDeclaration, findScope,
      findDefiningScope, declaredIn, scopeAt, scopeContains, unwrapTarget, getIdName,
      idNameOrUndef, nodeType, scopeOpening, isImportDeclaration, lookupKey, setKey, addKey,
      rootScope, rootCtx, plainCtx, Node.start, Node.stop, Except.map, Except.bind, bind,
      pure, Except.pure, declaratorName, tblOf, env0, exC8, tblC8]
  · simp [replaceIdentifiers, rep, repVarDeclTop, repList, repOpt, scopeEnterNames, repIdent,
      skipFlag, markSkip, scopeCount, scopeCountList, scopeCountOpt, exportInitText,
      firstDotSegment, declaredIn, scopeAt, lookupKey, setKey, tblC8, insAlways, nodeType,
      scopeOpening, Node.start, Node.stop, Except.map, Except.bind, bind, pure, Except.pure,
      exC8, rootCtx, plainCtx, idNameOrUndef, getIdName, rootScope]
  · simp [analyse, p1, p1List, p1Opt, p1VarDecls, p2, p2List, p2Opt, checkForReads,
      checkForWrites, addNode, addNodeArgs, smLoc, allocScope, addDeclaration, findScope,
      findDefiningScope, declaredIn, scopeAt, scopeContains, unwrapTarget, getIdName,
      idNameOrUndef, nodeType, scopeOpening, isImportDeclaration, lookupKey, setKey, addKey,
      rootScope, rootCtx, plainCtx, Node.start, Node.stop, Except.map, Except.bind, bind,
      pure, Except.pure, declaratorName, tblOf, env0, exC9, tblC9]
  · simp [replaceIdentifiers, rep, repVarDeclTop, repList, repOpt, scopeEnterNames, repIdent,
      skipFlag, markSkip, scopeCount, scopeCountList, scopeCountOpt, exportInitText,
      firstDotSegment, declaredIn, scopeAt, lookupKey, setKey, tblC9, insAlways, nodeType,
      scopeOpening, Node.start, Node.stop, Except.map, Except.bind, bind, pure, Except.pure,
      exC9, rootCtx, plainCtx, idNameOrUndef, getIdName, rootScope]
  · simp [replaceIdentifiers, rep, repVarDeclTop, repList, repOpt, scopeEnterNames, repIdent,
      skipFlag, markSkip, scopeCount, scopeCountList, scopeCountOpt, exportInitText,
      firstDotSegment, declaredIn, scopeAt, lookupKey, setKey, tblC9, insNever, nodeType,
      scopeOpening, Node.start, Node.stop, Except.map, Except.bind, bind, pure, Except.pure,
      exC9, rootCtx, plainCtx, idNameOrUndef, getIdName, rootScope]

/-- Witness for C9: at `var x = 1` with `x` exported, the declaration
head is overwritten with `exports.x` and the walk continues on the
initialiser against the marked declarator; at `var a = 1, b = 2` with
`b` exported, the initialiser text is inserted at the declaration end
and heads the trace, and the text equals the map/filter/map/join
pipeline. -/
theorem replaceIdentifiers_export_rewrite_witness :
    ((⟨[], true, 1⟩ : RepState).topLevel = true ∧
     lookupKey ((⟨tblC8, [("x", "exports.x")], [], insAlways⟩ : RepEnv).bundleExports)
         (idNameOrUndef (.Identifier "x" 4 5 false)) = some ("exports.x") ∧
     rep ⟨tblC8, [("x", "exports.x")], [], insAlways⟩ [] exC8 rootCtx ⟨[], true, 1⟩ =
       (repOpt ⟨tblC8, [("x", "exports.x")], [], insAlways⟩ [] (some (.Literal 8 9))
           (plainCtx ("VariableDeclarator"))
           ⟨[.overwrite 0 5 "exports.x"], true, 1⟩).map
         (fun p => (p.1, Node.VariableDeclaration "var"
           [Node.VariableDeclarator (markSkip (.Identifier "x" 4 5 false)) p.2 4 9] 0 10))) ∧
    (∃ tr2, ([.insertAt 16 "\nexports.b = b;"] : List Edit) =
      ([] : List Edit) ++
        (if (⟨tblC9, [("b", "exports.b")], [], insAlways⟩ : RepEnv).canInsertAt 16 then
          Edit.insertAt 16 "\nexports.b = b;"
        else Edit.append "\nexports.b = b;") :: tr2) ∧
    ([Node.VariableDeclarator (.Identifier "a" 4 5 false) (some (.Literal 8 9)) 4 9,
      Node.VariableDeclarator (.Identifier "b" 11 12 false) (some (.Literal 15 16))
        11 16].all isDeclarator = true ∧
     exportInitText [("b", "exports.b")]
         [Node.VariableDeclarator (.Identifier "a" 4 5 false) (some (.Literal 8 9)) 4 9,
          Node.VariableDeclarator (.Identifier "b" 11 12 false) (some (.Literal 15 16))
            11 16] =
       .ok (exportInitPipeline [("b", "exports.b")]
         ([Node.VariableDeclarator (.Identifier "a" 4 5 false) (some (.Literal 8 9)) 4 9,
           Node.VariableDeclarator (.Identifier "b" 11 12 false) (some (.Literal 15 16))
             11 16].map declaratorNameD))) :=
  ⟨⟨rfl, rfl, replaceIdentifiers_export_rewrite.1
      ⟨tblC8, [("x", "exports.x")], [], insAlways⟩ [] "var" (.Identifier "x" 4 5 false)
      (some (.Literal 8 9)) 4 9 0 10 ⟨[], true, 1⟩ "exports.x" rootCtx rfl rfl⟩,
   replaceIdentifiers_export_rewrite.2.1
      ⟨tblC9, [("b", "exports.b")], [], insAlways⟩ [] "var" (.Identifier "a" 4 5 false)
      (some (.Literal 8 9)) 4 9
      [Node.VariableDeclarator (.Identifier "b" 11 12 false) (some (.Literal 15 16)) 11 16]
      0 16 ⟨[], true, 1⟩
      (⟨[.insertAt 16 "\nexports.b = b;"], true, 1⟩, exC9) "\nexports.b = b;" rootCtx
      rfl rfl
      (by simp [exportInitText, lookupKey, idNameOrUndef, getIdName])
      (by simp [rep, repVarDeclTop, repList, repOpt, repIdent, skipFlag, markSkip,
        scopeCount, scopeCountList, scopeCountOpt, exportInitText, declaredIn, scopeAt,
        lookupKey, setKey, tblC9, insAlways, nodeType, scopeOpening, Node.start, Node.stop,
        Except.map, Except.bind, bind, pure, Except.pure, exC9, rootCtx, plainCtx,
        idNameOrUndef, getIdName, rootScope, scopeEnterNames, firstDotSegment]),
   ⟨rfl, replaceIdentifiers_export_rewrite.2.2.1 [("b", "exports.b")]
      [Node.VariableDeclarator (.Identifier "a" 4 5 false) (some (.Literal 8 9)) 4 9,
       Node.VariableDeclarator (.Identifier "b" 11 12 false) (some (.Literal 15 16)) 11 16]
      rfl⟩⟩

/-- Marking preserves the identifier's name. -/
theorem idNameOrUndef_markSkip (x : Node) : idNameOrUndef (markSkip x) = idNameOrUndef x := by
  cases x <;> rfl

/-- Marking preserves the node's end offset. -/
theorem stop_markSkip (x : Node) : (markSkip x).stop = x.stop := by
  cases x <;> rfl

/-- Marking twice is marking once. -/
theorem markSkip_markSkip (x : Node) : markSkip (markSkip x) = markSkip x := by
  cases x <;> rfl

/-- Clearing marks absorbs a prior mark. -/
theorem eraseSkips_markSkip (x : Node) : eraseSkips (markSkip x) = eraseSkips x := by
  cases x <;> rfl

/-- Clearing marks preserves the identifier's name. -/
theorem idNameOrUndef_eraseSkips (x : Node) :
    idNameOrUndef (eraseSkips x) = idNameOrUndef x := by
  cases x <;> rfl

/-- Clearing marks preserves list length. -/
theorem eraseSkipsList_length : ∀ (l : List Node), (eraseSkipsList l).length = l.length
  | [] => rfl
  | n :: rest => by simp [eraseSkipsList, eraseSkipsList_length rest]

/-- The export-initialiser text only reads mark-independent data. -/
theorem exportInitText_erase : ∀ (be : SMap) (ds : List Node),
    exportInitText be (eraseSkipsList ds) = exportInitText be ds
  | _, [] => rfl
  | be, d :: rest => by
    have ih := exportInitText_erase be rest
    cases d <;>
      simp only [eraseSkipsList, eraseSkips, exportInitText, idNameOrUndef_eraseSkips, ih]

/-- Lists equal modulo marks produce the same export-initialiser text. -/
theorem exportInitText_eq_of_erase (be : SMap) (ds2 ds : List Node)
    (h : eraseSkipsList ds2 = eraseSkipsList ds) :
    exportInitText be ds2 = exportInitText be ds := by
  rw [← exportInitText_erase be ds2, h, exportInitText_erase]

mutual

/-- Running the walk again, from the same inputs, on the node it
returned reproduces the same result; and the returned node differs from
the input only in its `_skip` marks. -/
theorem rep_fix : ∀ (n : Node) (E : RepEnv) (names : SMap) (ctx : PCtx) (st : RepState) r,
    rep E names n ctx st = .ok r →
    rep E names r.2 ctx st = .ok r ∧ eraseSkips r.2 = eraseSkips n
  | .Identifier nm s e fl => by
    intro E names ctx st r h
    have hsh : r.2 = Node.Identifier nm s e fl := by
      simp only [rep] at h
      split at h <;> (cases h; rfl)
    exact ⟨by rw [hsh]; exact h, by rw [hsh]⟩
  | .Literal s e => by
    intro E names ctx st r h
    have hsh : r.2 = Node.Literal s e := by
      simp only [rep, skipFlag, Bool.false_eq_true, if_false] at h
      cases h
      rfl
    exact ⟨by rw [hsh]; exact h, by rw [hsh]⟩
  | .ImportDeclaration s e => by
    intro E names ctx st r h
    have hsh : r.2 = Node.ImportDeclaration s e := by
      simp only [rep, skipFlag, Bool.false_eq_true, if_false] at h
      cases h
      rfl
    exact ⟨by rw [hsh]; exact h, by rw [hsh]⟩
  | .MemberExpression o p c s e => by
    intro E names ctx st r h
    simp only [rep, skipFlag, Bool.false_eq_true, if_false] at h
    obtain ⟨⟨st2, o2⟩, ho, h⟩ := bindOk h
    obtain ⟨⟨st3, p2x⟩, hp, h⟩ := bindOk h
    simp only [Except.ok.injEq] at h
    subst h
    obtain ⟨ho2, hoE⟩ := rep_fix o E names _ st _ ho
    obtain ⟨hp2, hpE⟩ := rep_fix p E names _ st2 _ hp
    dsimp only at ho2 hoE hp2 hpE
    refine ⟨?_, ?_⟩
    · simp only [rep, skipFlag, Bool.false_eq_true, if_false, ho2, hp2,
        Bind.bind, Except.bind]
    · simp only [eraseSkips, hoE, hpE]
  | .ObjectExpression props s e => by
    intro E names ctx st r h
    simp only [rep, skipFlag, Bool.false_eq_true, if_false] at h
    obtain ⟨⟨st2, props2⟩, hp, h⟩ := bindOk h
    simp only [Except.ok.injEq] at h
    subst h
    obtain ⟨hp2, hpE⟩ := repList_fix props E names _ st _ hp
    dsimp only at hp2 hpE
    refine ⟨?_, ?_⟩
    · simp only [rep, skipFlag, Bool.false_eq_true, if_false, hp2,
        Bind.bind, Except.bind]
    · simp only [eraseSkips, hpE]
  | .Property k v s e => by
    intro E names ctx st r h
    simp only [rep, skipFlag, Bool.false_eq_true, if_false] at h
    obtain ⟨⟨st2, k2⟩, hk, h⟩ := bindOk h
    obtain ⟨⟨st3, v2⟩, hv, h⟩ := bindOk h
    simp only [Except.ok.injEq] at h
    subst h
    obtain ⟨hk2, hkE⟩ := rep_fix k E names _ st _ hk
    obtain ⟨hv2, hvE⟩ := rep_fix v E names _ st2 _ hv
    dsimp only at hk2 hkE hv2 hvE
    refine ⟨?_, ?_⟩
    · simp only [rep, skipFlag, Bool.false_eq_true, if_false, hk2, hv2,
        Bind.bind, Except.bind]
    · simp only [eraseSkips, hkE, hvE]
  | .AssignmentExpression l rr s e => by
    intro E names ctx st r h
    simp only [rep, skipFlag, Bool.false_eq_true, if_false] at h
    obtain ⟨⟨st2, l2⟩, hl, h⟩ := bindOk h
    obtain ⟨⟨st3, r2⟩, hr, h⟩ := bindOk h
    simp only [Except.ok.injEq] at h
    subst h
    obtain ⟨hl2, hlE⟩ := rep_fix l E names _ st _ hl
    obtain ⟨hr2, hrE⟩ := rep_fix rr E names _ st2 _ hr
    dsimp only at hl2 hlE hr2 hrE
    refine ⟨?_, ?_⟩
    · simp only [rep, skipFlag, Bool.false_eq_true, if_false, hl2, hr2,
        Bind.bind, Except.bind]
    · simp only [eraseSkips, hlE, hrE]
  | .UpdateExpression a s e => by
    intro E names ctx st r h
    simp only [rep, skipFlag, Bool.false_eq_true, if_false] at h
    obtain ⟨⟨st2, a2⟩, ha, h⟩ := bindOk h
    simp only [Except.ok.injEq] at h
    subst h
    obtain ⟨ha2, haE⟩ := rep_fix a E names _ st _ ha
    dsimp only at ha2 haE
    refine ⟨?_, ?_⟩
    · simp only [rep, skipFlag, Bool.false_eq_true, if_false, ha2,
        Bind.bind, Except.bind]
    · simp only [eraseSkips, haE]
  | .CallExpression c args s e => by
    intro E names ctx st r h
    simp only [rep, skipFlag, Bool.false_eq_true, if_false] at h
    obtain ⟨⟨st2, c2⟩, hc, h⟩ := bindOk h
    obtain ⟨⟨st3, args2⟩, ha, h⟩ := bindOk h
    simp only [Except.ok.injEq] at h
    subst h
    obtain ⟨hc2, hcE⟩ := rep_fix c E names _ st _ hc
    obtain ⟨ha2, haE⟩ := repList_fix args E names _ st2 _ ha
    dsimp only at hc2 hcE ha2 haE
    refine ⟨?_, ?_⟩
    · simp only [rep, skipFlag, Bool.false_eq_true, if_false, hc2, ha2,
        Bind.bind, Except.bind]
    · simp only [eraseSkips, hcE, haE]
  | .ExpressionStatement x s e => by
    intro E names ctx st r h
    simp only [rep, skipFlag, Bool.false_eq_true, if_false] at h
    obtain ⟨⟨st2, x2⟩, hx, h⟩ := bindOk h
    simp only [Except.ok.injEq] at h
    subst h
    obtain ⟨hx2, hxE⟩ := rep_fix x E names _ st _ hx
    dsimp only at hx2 hxE
    refine ⟨?_, ?_⟩
    · simp only [rep, skipFlag, Bool.false_eq_true, if_false, hx2,
        Bind.bind, Except.bind]
    · simp only [eraseSkips, hxE]
  | .ReturnStatement a s e => by
    intro E names ctx st r h
    simp only [rep, skipFlag, Bool.false_eq_true, if_false] at h
    obtain ⟨⟨st2, a2⟩, ha, h⟩ := bindOk h
    simp only [Except.ok.injEq] at h
    subst h
    obtain ⟨ha2, haE⟩ := repOpt_fix a E names _ st _ ha
    dsimp only at ha2 haE
    refine ⟨?_, ?_⟩
    · simp only [rep, skipFlag, Bool.false_eq_true, if_false, ha2,
        Bind.bind, Except.bind]
    · simp only [eraseSkips, haE]
  | .FunctionDeclaration id params body s e => by
    intro E names ctx st r h
    simp only [rep, skipFlag, Bool.false_eq_true, if_false] at h
    by_cases hEmp : (scopeEnterNames E.tbl st.nextId names E.deshadowList).isEmpty = true
    · rw [if_pos hEmp] at h
      cases h
      refine ⟨?_, rfl⟩
      simp only [rep, skipFlag, Bool.false_eq_true, if_false]
      rw [if_pos hEmp]
    · rw [if_neg hEmp] at h
      obtain ⟨⟨st2, id2⟩, hi, h⟩ := bindOk h
      obtain ⟨⟨st3, params2⟩, hp, h⟩ := bindOk h
      obtain ⟨⟨st4, body2⟩, hb, h⟩ := bindOk h
      simp only [Except.ok.injEq] at h
      subst h
      obtain ⟨hi2, hiE⟩ := repOpt_fix id E _ _ _ _ hi
      obtain ⟨hp2, hpE⟩ := repList_fix params E _ _ _ _ hp
      obtain ⟨hb2, hbE⟩ := rep_fix body E _ _ _ _ hb
      dsimp only at hi2 hiE hp2 hpE hb2 hbE
      refine ⟨?_, ?_⟩
      · simp only [rep, skipFlag, Bool.false_eq_true, if_false]
        rw [if_neg hEmp]
        simp only [hi2, hp2, hb2, Bind.bind, Except.bind]
      · simp only [eraseSkips, hiE, hpE, hbE]
  | .FunctionExpression id params body s e => by
    intro E names ctx st r h
    simp only [rep, skipFlag, Bool.false_eq_true, if_false] at h
    by_cases hEmp : (scopeEnterNames E.tbl st.nextId names E.deshadowList).isEmpty = true
    · rw [if_pos hEmp] at h
      cases h
      refine ⟨?_, rfl⟩
      simp only [rep, skipFlag, Bool.false_eq_true, if_false]
      rw [if_pos hEmp]
    · rw [if_neg hEmp] at h
      obtain ⟨⟨st2, id2⟩, hi, h⟩ := bindOk h
      obtain ⟨⟨st3, params2⟩, hp, h⟩ := bindOk h
      obtain ⟨⟨st4, body2⟩, hb, h⟩ := bindOk h
      simp only [Except.ok.injEq] at h
      subst h
      obtain ⟨hi2, hiE⟩ := repOpt_fix id E _ _ _ _ hi
      obtain ⟨hp2, hpE⟩ := repList_fix params E _ _ _ _ hp
      obtain ⟨hb2, hbE⟩ := rep_fix body E _ _ _ _ hb
      dsimp only at hi2 hiE hp2 hpE hb2 hbE
      refine ⟨?_, ?_⟩
      · simp only [rep, skipFlag, Bool.false_eq_true, if_false]
        rw [if_neg hEmp]
        simp only [hi2, hp2, hb2, Bind.bind, Except.bind]
      · simp only [eraseSkips, hiE, hpE, hbE]
  | .ArrowFunctionExpression params body s e => by
    intro E names ctx st r h
    simp only [rep, skipFlag, Bool.false_eq_true, if_false] at h
    by_cases hEmp : (scopeEnterNames E.tbl st.nextId names E.deshadowList).isEmpty = true
    · rw [if_pos hEmp] at h
      cases h
      refine ⟨?_, rfl⟩
      simp only [rep, skipFlag, Bool.false_eq_true, if_false]
      rw [if_pos hEmp]
    · rw [if_neg hEmp] at h
      obtain ⟨⟨st2, params2⟩, hp, h⟩ := bindOk h
      obtain ⟨⟨st3, body2⟩, hb, h⟩ := bindOk h
      simp only [Except.ok.injEq] at h
      subst h
      obtain ⟨hp2, hpE⟩ := repList_fix params E _ _ _ _ hp
      obtain ⟨hb2, hbE⟩ := rep_fix body E _ _ _ _ hb
      dsimp only at hp2 hpE hb2 hbE
      refine ⟨?_, ?_⟩
      · simp only [rep, skipFlag, Bool.false_eq_true, if_false]
        rw [if_neg hEmp]
        simp only [hp2, hb2, Bind.bind, Except.bind]
      · simp only [eraseSkips, hpE, hbE]
  | .BlockStatement body s e => by
    intro E names ctx st r h
    simp only [rep, skipFlag, Bool.false_eq_true, if_false] at h
    by_cases hEmp : (scopeEnterNames E.tbl st.nextId names E.deshadowList).isEmpty = true
    · rw [if_pos hEmp] at h
      cases h
      refine ⟨?_, rfl⟩
      simp only [rep, skipFlag, Bool.false_eq_true, if_false]
      rw [if_pos hEmp]
    · rw [if_neg hEmp] at h
      obtain ⟨⟨st2, body2⟩, hb, h⟩ := bindOk h
      simp only [Except.ok.injEq] at h
      subst h
      obtain ⟨hb2, hbE⟩ := repList_fix body E _ _ _ _ hb
      dsimp only at hb2 hbE
      refine ⟨?_, ?_⟩
      · simp only [rep, skipFlag, Bool.false_eq_true, if_false]
        rw [if_neg hEmp]
        simp only [hb2, Bind.bind, Except.bind]
      · simp only [eraseSkips, hbE]
  | .CatchClause param body s e => by
    intro E names ctx st r h
    simp only [rep, skipFlag, Bool.false_eq_true, if_false] at h
    by_cases hEmp : (scopeEnterNames E.tbl st.nextId names E.deshadowList).isEmpty = true
    · rw [if_pos hEmp] at h
      cases h
      refine ⟨?_, rfl⟩
      simp only [rep, skipFlag, Bool.false_eq_true, if_false]
      rw [if_pos hEmp]
    · rw [if_neg hEmp] at h
      obtain ⟨⟨st2, param2⟩, hp, h⟩ := bindOk h
      obtain ⟨⟨st3, body2⟩, hb, h⟩ := bindOk h
      simp only [Except.ok.injEq] at h
      subst h
      obtain ⟨hp2, hpE⟩ := rep_fix param E _ _ _ _ hp
      obtain ⟨hb2, hbE⟩ := rep_fix body E _ _ _ _ hb
      dsimp only at hp2 hpE hb2 hbE
      refine ⟨?_, ?_⟩
      · simp only [rep, skipFlag, Bool.false_eq_true, if_false]
        rw [if_neg hEmp]
        simp only [hp2, hb2, Bind.bind, Except.bind]
      · simp only [eraseSkips, hpE, hbE]
  | .TryStatement blk handler s e => by
    intro E names ctx st r h
    simp only [rep, skipFlag, Bool.false_eq_true, if_false] at h
    obtain ⟨⟨st2, blk2⟩, hb, h⟩ := bindOk h
    obtain ⟨⟨st3, handler2⟩, hh, h⟩ := bindOk h
    simp only [Except.ok.injEq] at h
    subst h
    obtain ⟨hb2, hbE⟩ := rep_fix blk E names _ st _ hb
    obtain ⟨hh2, hhE⟩ := repOpt_fix handler E names _ st2 _ hh
    dsimp only at hb2 hbE hh2 hhE
    refine ⟨?_, ?_⟩
    · simp only [rep, skipFlag, Bool.false_eq_true, if_false, hb2, hh2,
        Bind.bind, Except.bind]
    · simp only [eraseSkips, hbE, hhE]
  | .VariableDeclaration kind decls s e => by
    intro E names ctx st r h
    simp only [rep, skipFlag, Bool.false_eq_true, if_false] at h
    by_cases hTop : st.topLevel = true
    · rw [if_pos hTop] at h
      obtain ⟨decls2, hsh, hfix, hE⟩ := repVarDeclTop_fix decls E names kind s e st r h
      refine ⟨?_, ?_⟩
      · rw [hsh]
        simp only [rep, skipFlag, Bool.false_eq_true, if_false]
        rw [if_pos hTop]
        exact hfix
      · rw [hsh]
        simp only [eraseSkips, hE]
    · rw [if_neg hTop] at h
      obtain ⟨⟨st2, decls2⟩, hd, h⟩ := bindOk h
      simp only [Except.ok.injEq] at h
      subst h
      obtain ⟨hd2, hdE⟩ := repList_fix decls E names _ st _ hd
      dsimp only at hd2 hdE
      refine ⟨?_, ?_⟩
      · simp only [rep, skipFlag, Bool.false_eq_true, if_false]
        rw [if_neg hTop]
        simp only [hd2, Bind.bind, Except.bind]
      · simp only [eraseSkips, hdE]
  | .VariableDeclarator did dinit s e => by
    intro E names ctx st r h
    simp only [rep, skipFlag, Bool.false_eq_true, if_false] at h
    obtain ⟨⟨st2, did2⟩, hd, h⟩ := bindOk h
    obtain ⟨⟨st3, dinit2⟩, hi, h⟩ := bindOk h
    simp only [Except.ok.injEq] at h
    subst h
    obtain ⟨hd2, hdE⟩ := rep_fix did E names _ st _ hd
    obtain ⟨hi2, hiE⟩ := repOpt_fix dinit E names _ st2 _ hi
    dsimp only at hd2 hdE hi2 hiE
    refine ⟨?_, ?_⟩
    · simp only [rep, skipFlag, Bool.false_eq_true, if_false, hd2, hi2,
        Bind.bind, Except.bind]
    · simp only [eraseSkips, hdE, hiE]
  | .ClassDeclaration id s e => by
    intro E names ctx st r h
    simp only [rep, skipFlag, Bool.false_eq_true, if_false] at h
    obtain ⟨⟨st2, id2⟩, hi, h⟩ := bindOk h
    simp only [Except.ok.injEq] at h
    subst h
    obtain ⟨hi2, hiE⟩ := repOpt_fix id E names _ st _ hi
    dsimp only at hi2 hiE
    refine ⟨?_, ?_⟩
    · simp only [rep, skipFlag, Bool.false_eq_true, if_false, hi2,
        Bind.bind, Except.bind]
    · simp only [eraseSkips, hiE]
  | .ExportNamedDeclaration d s e => by
    intro E names ctx st r h
    simp only [rep, skipFlag, Bool.false_eq_true, if_false] at h
    obtain ⟨⟨st2, d2⟩, hd, h⟩ := bindOk h
    simp only [Except.ok.injEq] at h
    subst h
    obtain ⟨hd2, hdE⟩ := repOpt_fix d E names _ st _ hd
    dsimp only at hd2 hdE
    refine ⟨?_, ?_⟩
    · simp only [rep, skipFlag, Bool.false_eq_true, if_false, hd2,
        Bind.bind, Except.bind]
    · simp only [eraseSkips, hdE]

theorem repVarDeclTop_fix : ∀ (decls : List Node) (E : RepEnv) (names : SMap)
    (kind : String) (s e : Nat) (st : RepState) r,
    repVarDeclTop E names kind decls s e st = .ok r →
    ∃ decls2, r.2 = Node.VariableDeclaration kind decls2 s e ∧
      repVarDeclTop E names kind decls2 s e st = .ok r ∧
      eraseSkipsList decls2 = eraseSkipsList decls
  | [] => by
    intro E names kind s e st r h
    exact absurd h (by simp [repVarDeclTop])
  | .VariableDeclarator d0id d0init ds de :: rest => by
    intro E names kind s e st r h
    simp only [repVarDeclTop] at h
    split at h
    · rename_i target htarget
      obtain ⟨⟨st2, d0init2⟩, hi, h⟩ := bindOk h
      obtain ⟨⟨st3, rest2⟩, hr, h⟩ := bindOk h
      simp only [Except.ok.injEq] at h
      subst h
      obtain ⟨hi2, hiE⟩ := repOpt_fix d0init E names _ _ _ hi
      obtain ⟨hr2, hrE⟩ := repList_fix rest E names _ st2 _ hr
      dsimp only at hi2 hiE hr2 hrE
      have hlen : rest2.length = rest.length := by
        rw [← eraseSkipsList_length rest2, hrE, eraseSkipsList_length]
      have hisEmpty : rest2.isEmpty = rest.isEmpty := by
        cases rest2 <;> cases rest <;> simp_all
      have hscrut2 : (if rest2.isEmpty = true then
          lookupKey E.bundleExports (idNameOrUndef (markSkip d0id)) else none) =
            some target := by
        rw [hisEmpty, idNameOrUndef_markSkip]
        exact htarget
      refine ⟨Node.VariableDeclarator (markSkip d0id) d0init2 ds de :: rest2, rfl, ?_, ?_⟩
      · simp only [repVarDeclTop, hscrut2, stop_markSkip, markSkip_markSkip, hi2, hr2,
          Bind.bind, Except.bind]
      · simp only [eraseSkipsList, eraseSkips, eraseSkips_markSkip, hiE, hrE]
    · split at h
      · exact absurd h (by simp)
      · rename_i hnone0 excv txt htxt
        obtain ⟨⟨st2, did2⟩, hdd, h⟩ := bindOk h
        obtain ⟨⟨st3, dinit2⟩, hii, h⟩ := bindOk h
        obtain ⟨⟨st4, rest2⟩, hrr, h⟩ := bindOk h
        simp only [Except.ok.injEq] at h
        subst h
        obtain ⟨hd2, hdE⟩ := rep_fix d0id E names _ _ _ hdd
        obtain ⟨hi2, hiE⟩ := repOpt_fix d0init E names _ st2 _ hii
        obtain ⟨hr2, hrE⟩ := repList_fix rest E names _ st3 _ hrr
        dsimp only at hd2 hdE hi2 hiE hr2 hrE
        have hlen : rest2.length = rest.length := by
          rw [← eraseSkipsList_length rest2, hrE, eraseSkipsList_length]
        have hisEmpty : rest2.isEmpty = rest.isEmpty := by
          cases rest2 <;> cases rest <;> simp_all
        have hname : idNameOrUndef did2 = idNameOrUndef d0id := by
          rw [← idNameOrUndef_eraseSkips did2, hdE, idNameOrUndef_eraseSkips]
        have hscrut2 : (if rest2.isEmpty = true then
            lookupKey E.bundleExports (idNameOrUndef did2) else none) = none := by
          rw [hisEmpty, hname]
          exact hnone0
        have herase : eraseSkipsList (Node.VariableDeclarator did2 dinit2 ds de :: rest2) =
            eraseSkipsList (Node.VariableDeclarator d0id d0init ds de :: rest) := by
          simp only [eraseSkipsList, eraseSkips, hdE, hiE, hrE]
        have htxt2 : exportInitText E.bundleExports
            (Node.VariableDeclarator did2 dinit2 ds de :: rest2) = .ok txt := by
          rw [exportInitText_eq_of_erase E.bundleExports _ _ herase]
          exact htxt
        refine ⟨Node.VariableDeclarator did2 dinit2 ds de :: rest2, rfl, ?_, herase⟩
        simp only [repVarDeclTop, hscrut2, htxt2, hd2, hi2, hr2, Bind.bind, Except.bind]
  | .Identifier a b c d :: rest => by
    intro E names kind s e st r h
    exact absurd h (by simp [repVarDeclTop])
  | .Literal a b :: rest => by
    intro E names kind s e st r h
    exact absurd h (by simp [repVarDeclTop])
  | .MemberExpression a b c d f :: rest => by
    intro E names kind s e st r h
    exact absurd h (by simp [repVarDeclTop])
  | .ObjectExpression a b c :: rest => by
    intro E names kind s e st r h
    exact absurd h (by simp [repVarDeclTop])
  | .Property a b c d :: rest => by
    intro E names kind s e st r h
    exact absurd h (by simp [repVarDeclTop])
  | .AssignmentExpression a b c d :: rest => by
    intro E names kind s e st r h
    exact absurd h (by simp [repVarDeclTop])
  | .UpdateExpression a b c :: rest => by
    intro E names kind s e st r h
    exact absurd h (by simp [repVarDeclTop])
  | .CallExpression a b c d :: rest => by
    intro E names kind s e st r h
    exact absurd h (by simp [repVarDeclTop])
  | .ExpressionStatement a b c :: rest => by
    intro E names kind s e st r h
    exact absurd h (by simp [repVarDeclTop])
  | .ReturnStatement a b c :: rest => by
    intro E names kind s e st r h
    exact absurd h (by simp [repVarDeclTop])
  | .FunctionDeclaration a b c d f :: rest => by
    intro E names kind s e st r h
    exact absurd h (by simp [repVarDeclTop])
  | .FunctionExpression a b c d f :: rest => by
    intro E names kind s e st r h
    exact absurd h (by simp [repVarDeclTop])
  | .ArrowFunctionExpression a b c d :: rest => by
    intro E names kind s e st r h
    exact absurd h (by simp [repVarDeclTop])
  | .BlockStatement a b c :: rest => by
    intro E names kind s e st r h
    exact absurd h (by simp [repVarDeclTop])
  | .CatchClause a b c d :: rest => by
    intro E names kind s e st r h
    exact absurd h (by simp [repVarDeclTop])
  | .TryStatement a b c d :: rest => by
    intro E names kind s e st r h
    exact absurd h (by simp [repVarDeclTop])
  | .VariableDeclaration a b c d :: rest => by
    intro E names kind s e st r h
    exact absurd h (by simp [repVarDeclTop])
  | .ClassDeclaration a b c :: rest => by
    intro E names kind s e st r h
    exact absurd h (by simp [repVarDeclTop])
  | .ImportDeclaration a b :: rest => by
    intro E names kind s e st r h
    exact absurd h (by simp [repVarDeclTop])
  | .ExportNamedDeclaration a b c :: rest => by
    intro E names kind s e st r h
    exact absurd h (by simp [repVarDeclTop])

theorem repList_fix : ∀ (ns : List Node) (E : RepEnv) (names : SMap) (ctx : PCtx)
    (st : RepState) r,
    repList E names ns ctx st = .ok r →
    repList E names r.2 ctx st = .ok r ∧ eraseSkipsList r.2 = eraseSkipsList ns
  | [] => by
    intro E names ctx st r h
    simp only [repList] at h
    cases h
    exact ⟨rfl, rfl⟩
  | n :: rest => by
    intro E names ctx st r h
    simp only [repList] at h
    obtain ⟨⟨st2, n2⟩, hn, h⟩ := bindOk h
    obtain ⟨⟨st3, rest2⟩, hr, h⟩ := bindOk h
    simp only [Except.ok.injEq] at h
    subst h
    obtain ⟨hn2, hnE⟩ := rep_fix n E names _ st _ hn
    obtain ⟨hr2, hrE⟩ := repList_fix rest E names _ st2 _ hr
    dsimp only at hn2 hnE hr2 hrE
    refine ⟨?_, ?_⟩
    · simp only [repList, hn2, hr2, Bind.bind, Except.bind]
    · simp only [eraseSkipsList, hnE, hrE]

theorem repOpt_fix : ∀ (n : Option Node) (E : RepEnv) (names : SMap) (ctx : PCtx)
    (st : RepState) r,
    repOpt E names n ctx st = .ok r →
    repOpt E names r.2 ctx st = .ok r ∧ eraseSkipsOpt r.2 = eraseSkipsOpt n
  | none => by
    intro E names ctx st r h
    simp only [repOpt] at h
    cases h
    exact ⟨rfl, rfl⟩
  | some n => by
    intro E names ctx st r h
    simp only [repOpt] at h
    obtain ⟨⟨st2, n2⟩, hn, h⟩ := bindOk h
    simp only [Except.ok.injEq] at h
    subst h
    obtain ⟨hn2, hnE⟩ := rep_fix n E names _ st _ hn
    dsimp only at hn2 hnE
    refine ⟨?_, ?_⟩
    · simp only [repOpt, hn2, Bind.bind, Except.bind]
    · simp only [eraseSkipsOpt, hnE]

end

/-- C8 counterexample: on `var x = 1` with `x` in `bundleExports`, the
call returns the node with the declarator's binding identifier marked
`_skip` (line 269 mutates `node.declarations[0].id` on the statement's
own node), while the input node carries no mark — the node's traversal
annotations are not the same after the call as before. -/
theorem replaceIdentifiers_mutates_node_cex :
    (replaceIdentifiers tblC8 insAlways [] [("x", "exports.x")] exC8).map
        (fun p => (p.1, firstDeclSkip p.2)) =
      .ok ([.overwrite 0 5 "exports.x"], true) ∧
    firstDeclSkip exC8 = false ∧
    tblOf env0 exC8 = tblC8 := by
  refine ⟨?_, rfl, ?_⟩
  · simp [replaceIdentifiers, rep, repVarDeclTop, repList, repOpt, scopeEnterNames, repIdent,
      skipFlag, markSkip, scopeCount, scopeCountList, scopeCountOpt, exportInitText,
      firstDotSegment, declaredIn, scopeAt, lookupKey, setKey, tblC8, insAlways, nodeType,
      scopeOpening, Node.start, Node.stop, Except.map, Except.bind, bind, pure, Except.pure,
      exC8, rootCtx, plainCtx, idNameOrUndef, getIdName, rootScope, firstDeclSkip]
  · simp [analyse, p1, p1List, p1Opt, p1VarDecls, p2, p2List, p2Opt, checkForReads,
      checkForWrites, addNode, addNodeArgs, smLoc, allocScope, addDeclaration, findScope,
      findDefiningScope, declaredIn, scopeAt, scopeContains, unwrapTarget, getIdName,
      idNameOrUndef, nodeType, scopeOpening, isImportDeclaration, lookupKey, setKey, addKey,
      rootScope, rootCtx, plainCtx, Node.start, Node.stop, Except.map, Except.bind, bind,
      pure, Except.pure, declaratorName, tblOf, env0, exC8, tblC8]

/-- C8 as amended: the call leaves the statement's analysis state
untouched and returns the edits applied to a fresh clone of the buffer,
and re-running it with the same arguments on the node it returned yields
the same edits and the same node; but it is not annotation-pure — the
returned node may carry new `_skip` marks (line 269) and agrees with the
input node only after clearing those marks. -/
theorem replaceIdentifiers_same_edits :
    ∀ (tbl : ScopeTable) (canIns : Nat → Bool) (names be : SMap) n r,
      replaceIdentifiers tbl canIns names be n = .ok r →
      replaceIdentifiers tbl canIns names be r.2 = .ok r ∧
      eraseSkips r.2 = eraseSkips n := by
  intro tbl canIns names be n r h
  simp only [replaceIdentifiers] at h ⊢
  split at h
  · rename_i hcond
    rw [if_pos hcond]
    cases hrep : rep ⟨tbl, be, names.map (fun p => firstDotSegment p.2), canIns⟩ names n
        rootCtx ⟨[], true, 1⟩ with
    | error e2 =>
      rw [hrep] at h
      exact absurd h (by simp)
    | ok p =>
      obtain ⟨pst, pn⟩ := p
      rw [hrep] at h
      simp only [Except.ok.injEq] at h
      subst h
      obtain ⟨h2, hE⟩ := rep_fix n
        ⟨tbl, be, names.map (fun p => firstDotSegment p.2), canIns⟩
        names rootCtx ⟨[], true, 1⟩ (pst, pn) hrep
      dsimp only at h2 hE
      refine ⟨?_, hE⟩
      simp only [h2]
  · rename_i hcond
    rw [if_neg hcond]
    cases h
    exact ⟨rfl, rfl⟩

/-- Witness for C8 as amended: on `var x = 1` with `x` exported, the
first call yields the overwrite edit and the marked node; the second
call, on the marked node, yields the same edits and the same node, and
clearing the mark recovers the input node. -/
theorem replaceIdentifiers_same_edits_witness :
    (replaceIdentifiers tblC8 insAlways [] [("x", "exports.x")] exC8 =
      .ok ([.overwrite 0 5 "exports.x"],
        Node.VariableDeclaration "var"
          [Node.VariableDeclarator (.Identifier "x" 4 5 true) (some (.Literal 8 9)) 4 9]
          0 10)) ∧
    (replaceIdentifiers tblC8 insAlways [] [("x", "exports.x")]
        (Node.VariableDeclaration "var"
          [Node.VariableDeclarator (.Identifier "x" 4 5 true) (some (.Literal 8 9)) 4 9]
          0 10) =
      .ok ([.overwrite 0 5 "exports.x"],
        Node.VariableDeclaration "var"
          [Node.VariableDeclarator (.Identifier "x" 4 5 true) (some (.Literal 8 9)) 4 9]
          0 10) ∧
      eraseSkips (Node.VariableDeclaration "var"
          [Node.VariableDeclarator (.Identifier "x" 4 5 true) (some (.Literal 8 9)) 4 9]
          0 10) =
        eraseSkips exC8) := by
  have h : replaceIdentifiers tblC8 insAlways [] [("x", "exports.x")] exC8 =
      .ok ([.overwrite 0 5 "exports.x"],
        Node.VariableDeclaration "var"
          [Node.VariableDeclarator (.Identifier "x" 4 5 true) (some (.Literal 8 9)) 4 9]
          0 10) := by
    simp [replaceIdentifiers, rep, repVarDeclTop, repList, repOpt, scopeEnterNames, repIdent,
      skipFlag, markSkip, scopeCount, scopeCountList, scopeCountOpt, exportInitText,
      firstDotSegment, declaredIn, scopeAt, lookupKey, setKey, tblC8, insAlways, nodeType,
      scopeOpening, Node.start, Node.stop, Except.map, Except.bind, bind, pure, Except.pure,
      exC8, rootCtx, plainCtx, idNameOrUndef, getIdName, rootScope]
  exact ⟨h, replaceIdentifiers_same_edits tblC8 insAlways [] [("x", "exports.x")] exC8
    ([.overwrite 0 5 "exports.x"],
      Node.VariableDeclaration "var"
        [Node.VariableDeclarator (.Identifier "x" 4 5 true) (some (.Literal 8 9)) 4 9]
        0 10) h⟩

/-- Success composition for `Except` binds: when the first action
succeeds and the continuation succeeds everywhere, the bind succeeds. -/
theorem bindOkE {σ ρ τ : Type} {act : Except σ ρ} {k : ρ → Except σ τ}
    (hx : ∃ v, act = .ok v) (hf : ∀ v, ∃ w, k v = .ok w) :
    ∃ w, (act >>= k) = .ok w := by
  obtain ⟨v, hv⟩ := hx
  obtain ⟨w, hw⟩ := hf v
  rw [hv]
  exact ⟨w, by simpa [Bind.bind, Except.bind] using hw⟩

/-- A function/class-declaration id of the well-formed shape is itself
a well-formed optional node. -/
theorem wellFormedOpt_of_idShape : ∀ (id : Option Node),
    (match id with | some (.Identifier ..) => true | _ => false) = true →
    wellFormedOpt id = true
  | some (.Identifier nm s e fl), _ => rfl

/-- The declaration loop of the first walk succeeds on declarator
lists. -/
theorem p1VarDecls_ok : ∀ (decls : List Node) (kind : String) (tbl : ScopeTable) (cur : Nat),
    decls.all isDeclarator = true →
    ∃ v, p1VarDecls kind tbl cur decls = .ok v
  | [], _, _, _ => by
    intro _
    exact ⟨_, rfl⟩
  | d :: rest, kind, tbl, cur => by
    intro h
    simp only [List.all_cons, Bool.and_eq_true] at h
    obtain ⟨hd, hrest⟩ := h
    match d, hd with
    | .VariableDeclarator did dinit ds de, _ =>
      obtain ⟨v, hv⟩ := p1VarDecls_ok rest kind
        (addDeclaration (tbl.length + 1) tbl cur (idNameOrUndef did)
          (kind == "let" || kind == "const")) cur hrest
      exact ⟨v, by simp only [p1VarDecls, declaratorName, Bind.bind, Except.bind, hv]⟩

mutual

/-- Under the C10 precondition the first walk of `analyse` never reaches
a missing-field failure branch. -/
theorem p1_ok : ∀ (n : Node) (st : P1State), wellFormed n = true → ∃ v, p1 st n = .ok v
  | .Identifier nm s e fl => by
    intro st _
    exact ⟨_, rfl⟩
  | .Literal s e => by
    intro st _
    exact ⟨_, rfl⟩
  | .ImportDeclaration s e => by
    intro st _
    exact ⟨_, rfl⟩
  | .MemberExpression o p c s e => by
    intro st h
    simp only [wellFormed, Bool.and_eq_true] at h
    obtain ⟨ho, hp⟩ := h
    simp only [p1]
    exact bindOkE (p1_ok o _ ho) fun st2 => p1_ok p st2 hp
  | .ObjectExpression props s e => by
    intro st h
    simp only [wellFormed] at h
    simp only [p1]
    exact p1List_ok props _ h
  | .Property k v s e => by
    intro st h
    simp only [wellFormed, Bool.and_eq_true] at h
    obtain ⟨hk, hv⟩ := h
    simp only [p1]
    exact bindOkE (p1_ok k _ hk) fun st2 => p1_ok v st2 hv
  | .AssignmentExpression l rr s e => by
    intro st h
    simp only [wellFormed, Bool.and_eq_true] at h
    obtain ⟨hl, hr⟩ := h
    simp only [p1]
    exact bindOkE (p1_ok l _ hl) fun st2 => p1_ok rr st2 hr
  | .UpdateExpression a s e => by
    intro st h
    simp only [wellFormed] at h
    simp only [p1]
    exact p1_ok a _ h
  | .CallExpression c args s e => by
    intro st h
    simp only [wellFormed, Bool.and_eq_true] at h
    obtain ⟨hc, hargs⟩ := h
    simp only [p1]
    exact bindOkE (p1_ok c _ hc) fun st2 => p1List_ok args st2 hargs
  | .ExpressionStatement x s e => by
    intro st h
    simp only [wellFormed] at h
    simp only [p1]
    exact p1_ok x _ h
  | .ReturnStatement a s e => by
    intro st h
    simp only [wellFormed] at h
    simp only [p1]
    exact p1Opt_ok a _ h
  | .FunctionDeclaration id params body s e => by
    intro st h
    simp only [wellFormed, Bool.and_eq_true] at h
    obtain ⟨⟨hid, hparams⟩, hbody⟩ := h
    match id, hid with
    | some (.Identifier inm iis iie ifl), _ =>
      simp only [p1]
      exact bindOkE (p1Opt_ok (some (.Identifier inm iis iie ifl)) _ rfl)
        fun st2 => bindOkE (p1List_ok params st2 hparams)
          fun st3 => bindOkE (p1_ok body st3 hbody)
            fun st4 => ⟨_, rfl⟩
  | .FunctionExpression id params body s e => by
    intro st h
    simp only [wellFormed, Bool.and_eq_true] at h
    obtain ⟨⟨hid, hparams⟩, hbody⟩ := h
    cases id with
    | none =>
      simp only [p1]
      exact bindOkE (p1Opt_ok none _ rfl)
        fun st2 => bindOkE (p1List_ok params st2 hparams)
          fun st3 => bindOkE (p1_ok body st3 hbody)
            fun st4 => ⟨_, rfl⟩
    | some idNode =>
      simp only [p1]
      exact bindOkE (p1Opt_ok (some idNode) _ hid)
        fun st2 => bindOkE (p1List_ok params st2 hparams)
          fun st3 => bindOkE (p1_ok body st3 hbody)
            fun st4 => ⟨_, rfl⟩
  | .ArrowFunctionExpression params body s e => by
    intro st h
    simp only [wellFormed, Bool.and_eq_true] at h
    obtain ⟨hparams, hbody⟩ := h
    simp only [p1]
    exact bindOkE (p1List_ok params _ hparams)
      fun st2 => bindOkE (p1_ok body st2 hbody) fun st3 => ⟨_, rfl⟩
  | .BlockStatement body s e => by
    intro st h
    simp only [wellFormed] at h
    simp only [p1]
    exact bindOkE (p1List_ok body _ h) fun st2 => ⟨_, rfl⟩
  | .CatchClause param body s e => by
    intro st h
    simp only [wellFormed, Bool.and_eq_true] at h
    obtain ⟨hparam, hbody⟩ := h
    simp only [p1]
    exact bindOkE (p1_ok param _ hparam)
      fun st2 => bindOkE (p1_ok body st2 hbody) fun st3 => ⟨_, rfl⟩
  | .TryStatement blk handler s e => by
    intro st h
    simp only [wellFormed, Bool.and_eq_true] at h
    obtain ⟨hblk, hh⟩ := h
    simp only [p1]
    exact bindOkE (p1_ok blk _ hblk) fun st2 => p1Opt_ok handler st2 hh
  | .VariableDeclaration kind decls s e => by
    intro st h
    simp only [wellFormed, Bool.and_eq_true] at h
    obtain ⟨⟨hshape, hall⟩, hlist⟩ := h
    simp only [p1]
    exact bindOkE (p1VarDecls_ok decls kind _ _ hall)
      fun tbl => p1List_ok decls _ hlist
  | .VariableDeclarator did dinit s e => by
    intro st h
    simp only [wellFormed, Bool.and_eq_true] at h
    obtain ⟨hdid, hdinit⟩ := h
    simp only [p1]
    exact bindOkE (p1_ok did _ hdid) fun st2 => p1Opt_ok dinit st2 hdinit
  | .ClassDeclaration id s e => by
    intro st h
    simp only [wellFormed] at h
    match id, h with
    | some (.Identifier inm iis iie ifl), _ =>
      simp only [p1]
      exact p1Opt_ok (some (.Identifier inm iis iie ifl)) _ rfl
  | .ExportNamedDeclaration d s e => by
    intro st h
    simp only [wellFormed] at h
    simp only [p1]
    exact p1Opt_ok d _ h

theorem p1List_ok : ∀ (ns : List Node) (st : P1State),
    wellFormedList ns = true → ∃ v, p1List st ns = .ok v
  | [] => by
    intro st _
    exact ⟨_, rfl⟩
  | n :: rest => by
    intro st h
    simp only [wellFormedList, Bool.and_eq_true] at h
    obtain ⟨hn, hrest⟩ := h
    simp only [p1List]
    exact bindOkE (p1_ok n st hn) fun st2 => p1List_ok rest st2 hrest

theorem p1Opt_ok : ∀ (n : Option Node) (st : P1State),
    wellFormedOpt n = true → ∃ v, p1Opt st n = .ok v
  | none => by
    intro st _
    exact ⟨_, rfl⟩
  | some n => by
    intro st h
    simp only [wellFormedOpt] at h
    simp only [p1Opt]
    exact p1_ok n st h

end

mutual

/-- Under the C10 precondition the rewrite walk never reaches a
missing-field failure branch. -/
theorem rep_ok : ∀ (n : Node) (E : RepEnv) (names : SMap) (ctx : PCtx) (st : RepState),
    wellFormed n = true → ∃ r, rep E names n ctx st = .ok r
  | .Identifier nm s e fl => by
    intro E names ctx st _
    simp only [rep]
    split
    · exact ⟨_, rfl⟩
    · exact ⟨_, rfl⟩
  | .Literal s e => by
    intro E names ctx st _
    exact ⟨_, rfl⟩
  | .ImportDeclaration s e => by
    intro E names ctx st _
    exact ⟨_, rfl⟩
  | .MemberExpression o p c s e => by
    intro E names ctx st h
    simp only [wellFormed, Bool.and_eq_true] at h
    obtain ⟨ho, hp⟩ := h
    simp only [rep, skipFlag, Bool.false_eq_true, if_false]
    exact bindOkE (rep_ok o E names ⟨"MemberExpression", c, true, false⟩ st ho)
      fun a => bindOkE (rep_ok p E names ⟨"MemberExpression", c, false, false⟩ a.1 hp)
        fun b => ⟨_, rfl⟩
  | .ObjectExpression props s e => by
    intro E names ctx st h
    simp only [wellFormed] at h
    simp only [rep, skipFlag, Bool.false_eq_true, if_false]
    exact bindOkE (repList_ok props E names _ st h) fun a => ⟨_, rfl⟩
  | .Property k v s e => by
    intro E names ctx st h
    simp only [wellFormed, Bool.and_eq_true] at h
    obtain ⟨hk, hv⟩ := h
    simp only [rep, skipFlag, Bool.false_eq_true, if_false]
    exact bindOkE (rep_ok k E names ⟨"Property", false, false, false⟩ st hk)
      fun a => bindOkE (rep_ok v E names ⟨"Property", false, false, true⟩ a.1 hv)
        fun b => ⟨_, rfl⟩
  | .AssignmentExpression l rr s e => by
    intro E names ctx st h
    simp only [wellFormed, Bool.and_eq_true] at h
    obtain ⟨hl, hr⟩ := h
    simp only [rep, skipFlag, Bool.false_eq_true, if_false]
    exact bindOkE (rep_ok l E names _ st hl)
      fun a => bindOkE (rep_ok rr E names _ a.1 hr) fun b => ⟨_, rfl⟩
  | .UpdateExpression a s e => by
    intro E names ctx st h
    simp only [wellFormed] at h
    simp only [rep, skipFlag, Bool.false_eq_true, if_false]
    exact bindOkE (rep_ok a E names _ st h) fun b => ⟨_, rfl⟩
  | .CallExpression c args s e => by
    intro E names ctx st h
    simp only [wellFormed, Bool.and_eq_true] at h
    obtain ⟨hc, hargs⟩ := h
    simp only [rep, skipFlag, Bool.false_eq_true, if_false]
    exact bindOkE (rep_ok c E names _ st hc)
      fun a => bindOkE (repList_ok args E names _ a.1 hargs) fun b => ⟨_, rfl⟩
  | .ExpressionStatement x s e => by
    intro E names ctx st h
    simp only [wellFormed] at h
    simp only [rep, skipFlag, Bool.false_eq_true, if_false]
    exact bindOkE (rep_ok x E names _ st h) fun a => ⟨_, rfl⟩
  | .ReturnStatement a s e => by
    intro E names ctx st h
    simp only [wellFormed] at h
    simp only [rep, skipFlag, Bool.false_eq_true, if_false]
    exact bindOkE (repOpt_ok a E names _ st h) fun b => ⟨_, rfl⟩
  | .FunctionDeclaration id params body s e => by
    intro E names ctx st h
    simp only [wellFormed, Bool.and_eq_true] at h
    obtain ⟨⟨hid, hparams⟩, hbody⟩ := h
    simp only [rep, skipFlag, Bool.false_eq_true, if_false]
    by_cases hEmp : (scopeEnterNames E.tbl st.nextId names E.deshadowList).isEmpty = true
    · rw [if_pos hEmp]
      exact ⟨_, rfl⟩
    · rw [if_neg hEmp]
      exact bindOkE (repOpt_ok id E (scopeEnterNames E.tbl st.nextId names E.deshadowList)
          _ _ (wellFormedOpt_of_idShape id hid))
        fun a => bindOkE (repList_ok params E
            (scopeEnterNames E.tbl st.nextId names E.deshadowList) _ a.1 hparams)
          fun b => bindOkE (rep_ok body E
              (scopeEnterNames E.tbl st.nextId names E.deshadowList) _ b.1 hbody)
            fun c2 => ⟨_, rfl⟩
  | .FunctionExpression id params body s e => by
    intro E names ctx st h
    simp only [wellFormed, Bool.and_eq_true] at h
    obtain ⟨⟨hid, hparams⟩, hbody⟩ := h
    simp only [rep, skipFlag, Bool.false_eq_true, if_false]
    by_cases hEmp : (scopeEnterNames E.tbl st.nextId names E.deshadowList).isEmpty = true
    · rw [if_pos hEmp]
      exact ⟨_, rfl⟩
    · rw [if_neg hEmp]
      exact bindOkE (repOpt_ok id E (scopeEnterNames E.tbl st.nextId names E.deshadowList)
          _ _ hid)
        fun a => bindOkE (repList_ok params E
            (scopeEnterNames E.tbl st.nextId names E.deshadowList) _ a.1 hparams)
          fun b => bindOkE (rep_ok body E
              (scopeEnterNames E.tbl st.nextId names E.deshadowList) _ b.1 hbody)
            fun c2 => ⟨_, rfl⟩
  | .ArrowFunctionExpression params body s e => by
    intro E names ctx st h
    simp only [wellFormed, Bool.and_eq_true] at h
    obtain ⟨hparams, hbody⟩ := h
    simp only [rep, skipFlag, Bool.false_eq_true, if_false]
    by_cases hEmp : (scopeEnterNames E.tbl st.nextId names E.deshadowList).isEmpty = true
    · rw [if_pos hEmp]
      exact ⟨_, rfl⟩
    · rw [if_neg hEmp]
      exact bindOkE (repList_ok params E
          (scopeEnterNames E.tbl st.nextId names E.deshadowList) _ _ hparams)
        fun a => bindOkE (rep_ok body E
            (scopeEnterNames E.tbl st.nextId names E.deshadowList) _ a.1 hbody)
          fun b => ⟨_, rfl⟩
  | .BlockStatement body s e => by
    intro E names ctx st h
    simp only [wellFormed] at h
    simp only [rep, skipFlag, Bool.false_eq_true, if_false]
    by_cases hEmp : (scopeEnterNames E.tbl st.nextId names E.deshadowList).isEmpty = true
    · rw [if_pos hEmp]
      exact ⟨_, rfl⟩
    · rw [if_neg hEmp]
      exact bindOkE (repList_ok body E
          (scopeEnterNames E.tbl st.nextId names E.deshadowList) _ _ h) fun a => ⟨_, rfl⟩
  | .CatchClause param body s e => by
    intro E names ctx st h
    simp only [wellFormed, Bool.and_eq_true] at h
    obtain ⟨hparam, hbody⟩ := h
    simp only [rep, skipFlag, Bool.false_eq_true, if_false]
    by_cases hEmp : (scopeEnterNames E.tbl st.nextId names E.deshadowList).isEmpty = true
    · rw [if_pos hEmp]
      exact ⟨_, rfl⟩
    · rw [if_neg hEmp]
      exact bindOkE (rep_ok param E
          (scopeEnterNames E.tbl st.nextId names E.deshadowList) _ _ hparam)
        fun a => bindOkE (rep_ok body E
            (scopeEnterNames E.tbl st.nextId names E.deshadowList) _ a.1 hbody)
          fun b => ⟨_, rfl⟩
  | .TryStatement blk handler s e => by
    intro E names ctx st h
    simp only [wellFormed, Bool.and_eq_true] at h
    obtain ⟨hblk, hh⟩ := h
    simp only [rep, skipFlag, Bool.false_eq_true, if_false]
    exact bindOkE (rep_ok blk E names _ st hblk)
      fun a => bindOkE (repOpt_ok handler E names _ a.1 hh) fun b => ⟨_, rfl⟩
  | .VariableDeclaration kind decls s e => by
    intro E names ctx st h
    simp only [wellFormed, Bool.and_eq_true] at h
    obtain ⟨⟨hshape, hall⟩, hlist⟩ := h
    simp only [rep, skipFlag, Bool.false_eq_true, if_false]
    by_cases hTop : st.topLevel = true
    · rw [if_pos hTop]
      exact repVarDeclTop_ok decls E names kind s e st hshape hall hlist
    · rw [if_neg hTop]
      exact bindOkE (repList_ok decls E names _ st hlist) fun a => ⟨_, rfl⟩
  | .VariableDeclarator did dinit s e => by
    intro E names ctx st h
    simp only [wellFormed, Bool.and_eq_true] at h
    obtain ⟨hdid, hdinit⟩ := h
    simp only [rep, skipFlag, Bool.false_eq_true, if_false]
    exact bindOkE (rep_ok did E names _ st hdid)
      fun a => bindOkE (repOpt_ok dinit E names _ a.1 hdinit) fun b => ⟨_, rfl⟩
  | .ClassDeclaration id s e => by
    intro E names ctx st h
    simp only [wellFormed] at h
    simp only [rep, skipFlag, Bool.false_eq_true, if_false]
    exact bindOkE (repOpt_ok id E names _ st (wellFormedOpt_of_idShape id h))
      fun a => ⟨_, rfl⟩
  | .ExportNamedDeclaration d s e => by
    intro E names ctx st h
    simp only [wellFormed] at h
    simp only [rep, skipFlag, Bool.false_eq_true, if_false]
    exact bindOkE (repOpt_ok d E names _ st h) fun a => ⟨_, rfl⟩

theorem repVarDeclTop_ok : ∀ (decls : List Node) (E : RepEnv) (names : SMap)
    (kind : String) (s e : Nat) (st : RepState),
    (match decls with
     | .VariableDeclarator (.Identifier ..) _ _ _ :: _ => true
     | _ => false) = true →
    decls.all isDeclarator = true →
    wellFormedList decls = true →
    ∃ r, repVarDeclTop E names kind decls s e st = .ok r
  | [] => by
    intro E names kind s e st hshape _ _
    exact absurd hshape (by simp)
  | .VariableDeclarator d0id d0init ds de :: rest => by
    intro E names kind s e st hshape hall hlist
    have hallOrig := hall
    simp only [wellFormedList, Bool.and_eq_true] at hlist
    obtain ⟨hd0, hrest⟩ := hlist
    simp only [wellFormed, Bool.and_eq_true] at hd0
    obtain ⟨hdid, hdinit⟩ := hd0
    simp only [repVarDeclTop]
    split
    · exact bindOkE (repOpt_ok d0init E names _ _ hdinit)
        fun a => bindOkE (repList_ok rest E names _ a.1 hrest)
          fun b => ⟨_, rfl⟩
    · obtain ⟨txt, htxt⟩ : ∃ t, exportInitText E.bundleExports
          (Node.VariableDeclarator d0id d0init ds de :: rest) = .ok t :=
        ⟨_, exportInitText_pipeline E.bundleExports _ hallOrig⟩
      rw [htxt]
      exact bindOkE (rep_ok d0id E names _ _ hdid)
        fun a => bindOkE (repOpt_ok d0init E names _ a.1 hdinit)
          fun b => bindOkE (repList_ok rest E names _ b.1 hrest)
            fun c2 => ⟨_, rfl⟩
  | .Identifier a b c d :: rest => by
    intro E names kind s e st hshape _ _
    exact absurd hshape (by simp)
  | .Literal a b :: rest => by
    intro E names kind s e st hshape _ _
    exact absurd hshape (by simp)
  | .MemberExpression a b c d f :: rest => by
    intro E names kind s e st hshape _ _
    exact absurd hshape (by simp)
  | .ObjectExpression a b c :: rest => by
    intro E names kind s e st hshape _ _
    exact absurd hshape (by simp)
  | .Property a b c d :: rest => by
    intro E names kind s e st hshape _ _
    exact absurd hshape (by simp)
  | .AssignmentExpression a b c d :: rest => by
    intro E names kind s e st hshape _ _
    exact absurd hshape (by simp)
  | .UpdateExpression a b c :: rest => by
    intro E names kind s e st hshape _ _
    exact absurd hshape (by simp)
  | .CallExpression a b c d :: rest => by
    intro E names kind s e st hshape _ _
    exact absurd hshape (by simp)
  | .ExpressionStatement a b c :: rest => by
    intro E names kind s e st hshape _ _
    exact absurd hshape (by simp)
  | .ReturnStatement a b c :: rest => by
    intro E names kind s e st hshape _ _
    exact absurd hshape (by simp)
  | .FunctionDeclaration a b c d f :: rest => by
    intro E names kind s e st hshape _ _
    exact absurd hshape (by simp)
  | .FunctionExpression a b c d f :: rest => by
    intro E names kind s e st hshape _ _
    exact absurd hshape (by simp)
  | .ArrowFunctionExpression a b c d :: rest => by
    intro E names kind s e st hshape _ _
    exact absurd hshape (by simp)
  | .BlockStatement a b c :: rest => by
    intro E names kind s e st hshape _ _
    exact absurd hshape (by simp)
  | .CatchClause a b c d :: rest => by
    intro E names kind s e st hshape _ _
    exact absurd hshape (by simp)
  | .TryStatement a b c d :: rest => by
    intro E names kind s e st hshape _ _
    exact absurd hshape (by simp)
  | .VariableDeclaration a b c d :: rest => by
    intro E names kind s e st hshape _ _
    exact absurd hshape (by simp)
  | .ClassDeclaration a b c :: rest => by
    intro E names kind s e st hshape _ _
    exact absurd hshape (by simp)
  | .ImportDeclaration a b :: rest => by
    intro E names kind s e st hshape _ _
    exact absurd hshape (by simp)
  | .ExportNamedDeclaration a b c :: rest => by
    intro E names kind s e st hshape _ _
    exact absurd hshape (by simp)

theorem repList_ok : ∀ (ns : List Node) (E : RepEnv) (names : SMap) (ctx : PCtx)
    (st : RepState), wellFormedList ns = true → ∃ r, repList E names ns ctx st = .ok r
  | [] => by
    intro E names ctx st _
    exact ⟨_, rfl⟩
  | n :: rest => by
    intro E names ctx st h
    simp only [wellFormedList, Bool.and_eq_true] at h
    obtain ⟨hn, hrest⟩ := h
    simp only [repList]
    exact bindOkE (rep_ok n E names ctx st hn)
      fun a => bindOkE (repList_ok rest E names ctx a.1 hrest) fun b => ⟨_, rfl⟩

theorem repOpt_ok : ∀ (n : Option Node) (E : RepEnv) (names : SMap) (ctx : PCtx)
    (st : RepState), wellFormedOpt n = true → ∃ r, repOpt E names n ctx st = .ok r
  | none => by
    intro E names ctx st _
    exact ⟨_, rfl⟩
  | some n => by
    intro E names ctx st h
    simp only [wellFormedOpt] at h
    simp only [repOpt]
    exact bindOkE (rep_ok n E names ctx st h) fun a => ⟨_, rfl⟩

end

/-- C10: `analyse` and `replaceIdentifiers` dereference a function or
class declaration's `id.name`, every declarator's binding identifier and
`node.declarations[0]` of a top-level variable declaration without a
presence check; in this total embedding those accesses are the
missing-field failure branches, and under the precondition that every
function and class declaration carries a name and every variable
declaration consists of declarators, the first binding a simple name
(`wellFormed`), none of them is reachable: `analyse` can only fail with
an illegal-reassignment error, and `replaceIdentifiers` always
succeeds. -/
theorem analyse_replaceIdentifiers_total :
    (∀ (env : ModuleEnv) (n : Node), wellFormed n = true →
      analyse env n ≠ .error .missingField) ∧
    (∀ (tbl : ScopeTable) (canIns : Nat → Bool) (names be : SMap) (n : Node),
      wellFormed n = true →
      ∃ r, replaceIdentifiers tbl canIns names be n = .ok r) := by
  constructor
  · intro env n h hcontra
    simp only [analyse] at hcontra
    by_cases himp : isImportDeclaration n = true
    · rw [if_pos himp] at hcontra
      exact absurd hcontra (by simp)
    · rw [if_neg himp] at hcontra
      obtain ⟨v1, hv1⟩ := p1_ok n ⟨[rootScope], 0, []⟩ h
      rw [hv1] at hcontra
      simp only [Bind.bind, Except.bind] at hcontra
      cases hp2 : p2 env v1.tbl n rootCtx ⟨0, 1, ⟨[], [], []⟩⟩ with
      | error re =>
        rw [hp2] at hcontra
        simp at hcontra
      | ok w =>
        rw [hp2] at hcontra
        simp at hcontra
  · intro tbl canIns names be n h
    simp only [replaceIdentifiers]
    split
    · obtain ⟨⟨pst, pn⟩, hp⟩ := rep_ok n
        ⟨tbl, be, names.map (fun p => firstDotSegment p.2), canIns⟩ names
        rootCtx ⟨[], true, 1⟩ h
      exact ⟨(pst.trace, pn), by rw [hp]⟩
    · exact ⟨([], n), rfl⟩

/-- Witness for C10: `var x = 1` satisfies the precondition; analysing
it cannot produce the missing-field error, and the rewrite succeeds. -/
theorem analyse_replaceIdentifiers_total_witness :
    wellFormed exC8 = true ∧
    analyse env0 exC8 ≠ .error .missingField ∧
    (∃ r, replaceIdentifiers tblC8 insAlways [] [("x", "exports.x")] exC8 = .ok r) :=
  ⟨rfl, analyse_replaceIdentifiers_total.1 env0 exC8 rfl,
   analyse_replaceIdentifiers_total.2 tblC8 insAlways [] [("x", "exports.x")] exC8 rfl⟩

end Rollup
